import Mathlib

/-!
# provider-opentofu: the Workspace reconciler and the working-directory garbage collector

A shallow embedding of

* `internal/controller/namespaced/workspace/workspace.go`
  (`Connect`, `checkDiff`, `Observe`, `Create`, `Update`, `Delete`, `options`,
  `op2cd`, `generateWorkspaceObservation`), and
* `internal/workdir/workdir.go` (`isUUID`, `GarbageCollector.collect`).

Conventions.

* A Go `string` (and a `[]byte`) is its sequence of bytes, written `Str`
  (a list of characters, one per byte).
* Every external collaborator (filesystem, API server, module getter, process
  environment, the tofu harness) is an oracle of a `World`.  An oracle sees the
  transcript of all interactions made so far, so its answers may depend on
  everything that happened before.  Each interaction is appended to the
  transcript together with its answer.
* A Go `error` is `Option Err` (`none` is `nil`); a `(T, error)` result is
  `Except Err T`.
-/

namespace OpenTofu

/-! ## Strings and paths -/

/-- A Go string: its bytes in order. -/
abbrev Str := List Char

/-- A Go byte slice. -/
abbrev Bytes := List Char

/-- `strings.ReplaceAll s old new` for a non-empty `old`, scanning left to right over
non-overlapping occurrences.  The counter is the number of bytes of the current
occurrence that remain to be skipped. -/
def replaceAllAux (old new : Str) : Nat → Str → Str
  | _, [] => []
  | skip + 1, _ :: cs => replaceAllAux old new skip cs
  | 0, c :: cs =>
    if old.isPrefixOf (c :: cs) then new ++ replaceAllAux old new (old.length - 1) cs
    else c :: replaceAllAux old new 0 cs

/-- `strings.ReplaceAll` (for a non-empty `old`). -/
def replaceAll (s old new : Str) : Str := replaceAllAux old new 0 s

/-- Splits a path at every separator `/`; the current element is accumulated in `cur`. -/
def splitSlashAux : Str → Str → List Str
  | cur, [] => [cur.reverse]
  | cur, c :: cs => if c = '/' then cur.reverse :: splitSlashAux [] cs else splitSlashAux (c :: cur) cs

/-- The elements of a path between separators. -/
def splitSlash (p : Str) : List Str := splitSlashAux [] p

/-- One step of the lexical processing of `filepath.Clean`: `stack` holds the elements
written so far, last one first. -/
def cleanStep (rooted : Bool) (stack : List Str) (e : Str) : List Str :=
  if e = [] ∨ e = ['.'] then stack
  else if e = ['.', '.'] then
    match stack with
    | [] => if rooted then [] else [['.', '.']]
    | top :: rest => if top = ['.', '.'] then ['.', '.'] :: top :: rest else rest
  else e :: stack

/-- Joins elements with the separator `/` (`strings.Join elems "/"`). -/
def joinSlash : List Str → Str
  | [] => []
  | [e] => e
  | e :: es => e ++ '/' :: joinSlash es

/-- `filepath.Clean` on a Unix system: the shortest path equivalent to `p` by purely
lexical processing (empty and `.` elements dropped, inner `..` elements eliminated
together with the element before them, `..` at a root dropped). -/
def clean (p : Str) : Str :=
  if p = [] then ['.']
  else
    let rooted := p.head? = some '/'
    let stack := (splitSlash p).foldl (cleanStep rooted) []
    if rooted then '/' :: joinSlash stack.reverse
    else if stack = [] then ['.'] else joinSlash stack.reverse

/-- `filepath.Join`: leading empty elements are ignored, the rest is joined with `/`
and cleaned; the result is empty when every element is empty. -/
def join (elem : List Str) : Str :=
  match elem.dropWhile (fun e => e = []) with
  | [] => []
  | es => clean (joinSlash es)

/-- Removes trailing separators (the first loop of `filepath.Base`). -/
def stripTrailingSlashes (p : Str) : Str := (p.reverse.dropWhile (fun c => c = '/')).reverse

/-- `filepath.Base`: the last element of the path. -/
def base (p : Str) : Str :=
  if p = [] then ['.']
  else
    let q := stripTrailingSlashes p
    let last := (q.reverse.takeWhile (fun c => c ≠ '/')).reverse
    if last = [] then ['/'] else last

/-- The path `p` is the directory `dir` itself or lies beneath it. -/
def isWithin (dir p : Str) : Prop := p = dir ∨ (dir ++ ['/']) <+: p

instance (dir p : Str) : Decidable (isWithin dir p) := by
  unfold isWithin; exact inferInstance

/-! ## Errors -/

/-- A Go error value: a root cause (`errors.New`, `fmt.Errorf`) or a cause wrapped with
a message (`errors.Wrap`).  The third constructor, `nilDeref`, is no error value: it
marks the run-time panic of a nil pointer dereference, after which the function
returns nothing. -/
inductive Err where
  | new (msg : Str)
  | wrap (cause : Err) (msg : Str)
  | nilDeref
  deriving DecidableEq, Repr

/-- Whether the outcome is the run-time panic rather than a returned error. -/
def Err.isPanic : Err → Bool
  | .nilDeref => true
  | _ => false

/-- `errors.Wrap err msg`: `nil` stays `nil`. -/
def wrapErr (err : Option Err) (msg : Str) : Option Err :=
  err.map (fun e => Err.wrap e msg)

/-- `resource.Ignore is err`: `nil` when `is err` holds, otherwise `err`. -/
def ignoreErr (is : Err → Bool) (err : Option Err) : Option Err :=
  match err with
  | none => none
  | some e => if is e then none else some e

instance {ε α : Type} [DecidableEq ε] [DecidableEq α] : DecidableEq (Except ε α) :=
  fun x y =>
    match x, y with
    | .ok a, .ok b => if h : a = b then isTrue (by rw [h]) else isFalse (fun hc => h (by cases hc; rfl))
    | .error a, .error b =>
      if h : a = b then isTrue (by rw [h]) else isFalse (fun hc => h (by cases hc; rfl))
    | .ok _, .error _ => isFalse (fun hc => by cases hc)
    | .error _, .ok _ => isFalse (fun hc => by cases hc)

def errGetCreds : Str := "cannot get credentials".toList
def errMkdir : Str := "cannot make tofu configuration directory".toList
def errResolvePC : Str := "failed to resolve provider config".toList
def errRemoteModule : Str := "cannot get remote tofu module".toList
def errSetGitCredDir : Str := "cannot set GIT_CRED_DIR environment variable".toList
def errWriteCreds : Str := "cannot write tofu credentials".toList
def errWriteGitCreds : Str := "cannot write .git-credentials to /tmp dir".toList
def gitCredentialsFilename : Str := ".git-credentials".toList
def tofuPath : Str := "tofu".toList
def tfMain : Str := "main.tf".toList
def tfMainJSON : Str := "main.tf.json".toList
def tfConfig : Str := "crossplane-provider-config.tf".toList
def tfBackendFile : Str := "crossplane.remote.tfbackend".toList
def errWriteConfig : Str := "cannot write tofu configuration ".toList ++ tfConfig
def errWriteMain : Str := "cannot write tofu configuration ".toList
def errWriteBackend : Str := "cannot write tofu configuration ".toList ++ tfBackendFile
def errInit : Str := "cannot initialize tofu configuration".toList
def errWorkspace : Str := "cannot select tofu workspace".toList
def errResources : Str := "cannot list tofu resources".toList
def errDiff : Str := "cannot diff (i.e. plan) tofu configuration".toList
def errOutputs : Str := "cannot list tofu outputs".toList
def errOptions : Str := "cannot determine tofu options".toList
def errApply : Str := "cannot apply tofu configuration".toList
def errDestroy : Str := "cannot destroy tofu configuration".toList
def errVarFile : Str := "cannot get tfvars".toList
def errVarMap : Str := "cannot get tfvars from var map".toList
def errVarResolution : Str := "cannot resolve variables".toList
def errDeleteWorkspace : Str := "cannot delete tofu workspace".toList
def errChecksum : Str := "cannot calculate workspace checksum".toList
def errListWorkspaces : Str := "cannot list workspaces".toList

/-! ## Maps -/

/-- A Go map with string keys: at most one entry per key. -/
abbrev GoMap (α : Type) := List (Str × α)

/-- The map read `m[k]` with its presence flag. -/
def GoMap.get {α : Type} (m : GoMap α) (k : Str) : Option α := List.lookup k m

/-- The map write `m[k] = v`. -/
def GoMap.set {α : Type} (m : GoMap α) (k : Str) (v : α) : GoMap α :=
  (k, v) :: m.filter (fun p => p.1 != k)

/-! ## API types (`apis/.../v1beta1`) -/

/-- `v1beta1.Var`. -/
structure Var where
  Key : Str
  Value : Str
  deriving DecidableEq, Repr

/-- `v1beta1.KeyReference`. -/
structure KeyReference where
  Namespace : Str
  Name : Str
  Key : Str
  deriving DecidableEq, Repr

def VarFileSourceConfigMapKey : Str := "ConfigMapKey".toList
def VarFileSourceSecretKey : Str := "SecretKey".toList
def FileFormatHCL : Str := "HCL".toList
def FileFormatJSON : Str := "JSON".toList
def ModuleSourceRemote : Str := "Remote".toList
def ModuleSourceInline : Str := "Inline".toList

/-- `v1beta1.VarFile`; pointer fields are options. -/
structure VarFile where
  Source : Str
  Format : Option Str
  ConfigMapKeyReference : Option KeyReference
  SecretKeyReference : Option KeyReference
  deriving DecidableEq, Repr

/-- `v1beta1.EnvVar`. -/
structure EnvVar where
  Name : Str
  Value : Str
  ConfigMapKeyReference : Option KeyReference
  SecretKeyReference : Option KeyReference
  deriving DecidableEq, Repr

/-- `v1beta1.WorkspaceParameters`.  `VarMap` is the raw bytes of the
`runtime.RawExtension` when the pointer is set. -/
structure WorkspaceParameters where
  Module : Str
  InlineFormat : Str
  Source : Str
  Entrypoint : Str
  Env : List EnvVar
  Vars : List Var
  VarMap : Option Bytes
  VarFiles : List VarFile
  InitArgs : List Str
  PlanArgs : List Str
  ApplyArgs : List Str
  DestroyArgs : List Str
  EnableTofuCLILogging : Bool
  deriving DecidableEq, Repr

/-- `v1beta1.WorkspaceObservation`; an `extensionsV1.JSON` is its raw bytes. -/
structure WorkspaceObservation where
  Checksum : Str
  Outputs : GoMap Bytes
  deriving DecidableEq, Repr

/-- A status condition (`xpv1.Condition`, without its timestamp); `Typ` is the field
`Type`. -/
structure Condition where
  Typ : Str
  Status : Str
  Reason : Str
  deriving DecidableEq, Repr

/-- `xpv1.Available()`. -/
def Available : Condition :=
  { Typ := "Ready".toList, Status := "True".toList, Reason := "Available".toList }

/-- `SetConditions` for one condition: a condition of the same type is replaced,
otherwise the condition is appended. -/
def setCondition (cs : List Condition) (c : Condition) : List Condition :=
  if cs.any (fun x => x.Typ = c.Typ) then cs.map (fun x => if x.Typ = c.Typ then c else x)
  else cs ++ [c]

/-- `v1beta1.WorkspaceStatus`. -/
structure WorkspaceStatus where
  Conditions : List Condition
  AtProvider : WorkspaceObservation
  deriving DecidableEq, Repr

/-- `v1beta1.Workspace` with the metadata the reconciler reads: the UID, the name, the
external-name annotation (`meta.GetExternalName`) and whether a deletion timestamp is
set (`meta.WasDeleted`). -/
structure Workspace where
  UID : Str
  Name : Str
  ExternalName : Str
  WasDeleted : Bool
  ForProvider : WorkspaceParameters
  Status : WorkspaceStatus
  deriving DecidableEq, Repr

/-- `v1beta1.ProviderCredentials`: the destination filename, the source and the
selectors handed to the credential extractor. -/
structure ProviderCredentials where
  Filename : Str
  Source : Str
  Selectors : Str
  deriving DecidableEq, Repr

/-- `v1beta1.ProviderConfigSpec`. -/
structure ProviderConfigSpec where
  Credentials : List ProviderCredentials
  Configuration : Option Str
  BackendFile : Option Str
  PluginCache : Option Bool
  deriving DecidableEq, Repr

/-! ## The harness interface (`internal/opentofu`) -/

/-- `opentofu.OutputType`. -/
inductive OutputType where
  | OutputTypeUnknown | OutputTypeString | OutputTypeNumber | OutputTypeBool
  | OutputTypeTuple | OutputTypeObject
  deriving DecidableEq, Repr

/-- `opentofu.Output` (`Typ` is the field `Type`).  The unexported dynamically typed value is represented by what
its two accessors return: `StringValue()` (the value when it is a string, otherwise
the empty string) and `JSONValue()` (the result of `json.Marshal` on the value). -/
structure Output where
  Name : Str
  Sensitive : Bool
  Typ : OutputType
  StringValue : Str
  JSONValue : Except Err Bytes
  deriving DecidableEq, Repr

/-- The var-file formats of the harness (`opentofu.HCL`, `opentofu.JSON`). -/
inductive TfFormat where
  | HCL | JSON
  deriving DecidableEq, Repr

/-- `opentofu.Option`: the options of plan, apply and destroy, as the calls that
build them. -/
inductive TfOption where
  | WithVar (k v : Str)
  | WithVarFile (data : Bytes) (fmt : TfFormat)
  | WithArgs (args : List Str)
  deriving DecidableEq, Repr

/-- `opentofu.InitOption`. -/
inductive InitOption where
  | WithInitArgs (args : List Str)
  deriving DecidableEq, Repr

/-- `opentofu.Harness` as `Setup` builds it. -/
structure Harness where
  Path : Str
  Dir : Str
  UsePluginCache : Bool
  EnableTofuCLILogging : Bool
  Envs : List Str
  deriving DecidableEq, Repr

/-- An entry of a directory listing (`os.FileInfo`). -/
structure FileInfo where
  Name : Str
  IsDir : Bool
  deriving DecidableEq, Repr

/-! ## The world and the transcript -/

/-- One interaction with an external collaborator, with the answer it gave. -/
inductive Event where
  | mkdirAll (path : Str) (res : Option Err)
  | writeFile (path : Str) (data : Bytes) (res : Option Err)
  | resolveProviderConfig (res : Except Err ProviderConfigSpec)
  | extractCredentials (cd : ProviderCredentials) (res : Except Err Bytes)
  | setenv (key value : Str) (res : Option Err)
  | getModule (src dst : Str) (res : Option Err)
  | getConfigMap (ns name : Str) (res : Except Err (GoMap Str))
  | getSecret (ns name : Str) (res : Except Err (GoMap Bytes))
  | tofuInit (h : Harness) (o : List InitOption) (res : Option Err)
  | tofuWorkspace (h : Harness) (name : Str) (res : Option Err)
  | tofuOutputs (h : Harness) (res : Except Err (List Output))
  | tofuResources (h : Harness) (res : Except Err (List Str))
  | tofuDiff (h : Harness) (o : List TfOption) (res : Except Err Bool)
  | tofuApply (h : Harness) (o : List TfOption) (res : Option Err)
  | tofuDestroy (h : Harness) (o : List TfOption) (res : Option Err)
  | tofuDeleteCurrentWorkspace (h : Harness) (res : Option Err)
  | tofuGenerateChecksum (h : Harness) (res : Except Err Str)
  | listWorkspaces (namespaced : Bool) (res : Except Err (List Str))
  | readDir (path : Str) (res : Except Err (List FileInfo))
  | removeAll (path : Str) (res : Option Err)
  deriving DecidableEq

/-- The transcript: all interactions so far, oldest first. -/
abbrev Trace := List Event

/-- The external collaborators.  Every oracle receives the transcript so far. -/
structure World where
  /-- The package variable `tfDir` (`XP_TF_DIR`, default `/tofu`). -/
  tfDir : Str
  /-- `os.IsExist`. -/
  isExist : Err → Bool
  /-- `c.fs.MkdirAll path 0700`. -/
  mkdirAll : Trace → Str → Option Err
  /-- `c.fs.WriteFile path data 0600`. -/
  writeFile : Trace → Str → Bytes → Option Err
  /-- `clients.ResolveProviderConfig` for the managed resource: the spec of its
  ProviderConfig. -/
  resolveProviderConfig : Trace → Except Err ProviderConfigSpec
  /-- `resource.CommonCredentialExtractor` on the source and selectors of a credential. -/
  extractCredentials : Trace → ProviderCredentials → Except Err Bytes
  /-- `os.Setenv`. -/
  setenv : Trace → Str → Str → Option Err
  /-- `getter.Client{Src, Dst, Pwd: Dst, Mode: ClientModeDir}.Get()`. -/
  getModule : Trace → Str → Str → Option Err
  /-- `c.kube.Get` of a ConfigMap: its `Data`. -/
  getConfigMap : Trace → Str → Str → Except Err (GoMap Str)
  /-- `c.kube.Get` of a Secret: its `Data`. -/
  getSecret : Trace → Str → Str → Except Err (GoMap Bytes)
  /-- `json.Marshal` of a `*runtime.RawExtension` with the given raw bytes. -/
  jsonMarshal : Bytes → Except Err Bytes
  tofuInit : Trace → Harness → List InitOption → Option Err
  tofuWorkspace : Trace → Harness → Str → Option Err
  tofuOutputs : Trace → Harness → Except Err (List Output)
  tofuResources : Trace → Harness → Except Err (List Str)
  tofuDiff : Trace → Harness → List TfOption → Except Err Bool
  tofuApply : Trace → Harness → List TfOption → Option Err
  tofuDestroy : Trace → Harness → List TfOption → Option Err
  tofuDeleteCurrentWorkspace : Trace → Harness → Option Err
  tofuGenerateChecksum : Trace → Harness → Except Err Str
  /-- `uuid.Parse u` succeeds. -/
  uuidParse : Str → Bool
  /-- `gc.kube.List` of the namespaced (`true`) or cluster-scoped (`false`) Workspaces:
  the UIDs of the items. -/
  listWorkspaces : Trace → Bool → Except Err (List Str)
  /-- `gc.fs.ReadDir`. -/
  readDir : Trace → Str → Except Err (List FileInfo)
  /-- `gc.fs.RemoveAll`. -/
  removeAll : Trace → Str → Option Err

/-- The state a reconciler method runs in: the managed resource behind the pointer `mg`
and the transcript. -/
structure St where
  cr : Workspace
  trace : Trace
  deriving DecidableEq

/-- A computation that may return early with an error.  The outcome `.error e` with
`e.isPanic` is a panic: the computation has not returned. -/
def Run (α : Type) : Type := St → Except Err α × St

/-- Normal completion. -/
def Run.ret {α : Type} (a : α) : Run α := fun s => (.ok a, s)

/-- Sequencing: an error, and likewise a panic, ends the computation. -/
def Run.andThen {α β : Type} (m : Run α) (f : α → Run β) : Run β := fun s =>
  match m s with
  | (.ok a, s1) => f a s1
  | (.error e, s1) => (.error e, s1)

instance : Monad Run where
  pure := Run.ret
  bind := Run.andThen

/-- Return the error `e` (`return ..., e`). -/
def fail {α : Type} (e : Err) : Run α := fun s => (.error e, s)

/-- Dereference a nil pointer: the goroutine panics and nothing is returned. -/
def nilPanic {α : Type} : Run α := fun s => (.error Err.nilDeref, s)

/-- The managed resource. -/
def getCr : Run Workspace := fun s => (.ok s.cr, s)

/-- Assign to the managed resource. -/
def setCr (cr : Workspace) : Run Unit := fun s => (.ok (), { s with cr := cr })

/-- Ask an oracle and record the interaction. -/
def ask {β : Type} (q : Trace → β) (ev : β → Event) : Run β := fun s =>
  (.ok (q s.trace), { s with trace := s.trace ++ [ev (q s.trace)] })

/-- `if err != nil { return ..., errors.Wrap(err, tag) }`. -/
def orFail (tag : Str) (err : Option Err) : Run Unit :=
  match err with
  | none => pure ()
  | some e => fail (Err.wrap e tag)

/-- `v, err := ...; if err != nil { return ..., errors.Wrap(err, tag) }`. -/
def getOrFail {α : Type} (tag : Str) (r : Except Err α) : Run α :=
  match r with
  | .ok a => pure a
  | .error e => fail (Err.wrap e tag)

/-- `v, err := m; if err != nil { return ..., errors.Wrap(err, tag) }` for a call `m` of
this package.  A panic inside `m` unwinds through the caller: no statement after the
call runs, so the panic is passed on as it is, not wrapped. -/
def wrapRun {α : Type} (tag : Str) (m : Run α) : Run α := fun s =>
  match m s with
  | (.ok a, s1) => (.ok a, s1)
  | (.error e, s1) => (.error (if e.isPanic then e else Err.wrap e tag), s1)

/-- A `for ... range` loop whose body updates `acc` and may return from the function. -/
def loop {α β : Type} (body : β → α → Run β) : β → List α → Run β
  | acc, [] => pure acc
  | acc, a :: as => do
    let acc1 ← body acc a
    loop body acc1 as

/-! ## `Connect` (workspace.go, lines 176–340)

The type assertion `mg.(*v1beta1.Workspace)` always succeeds here: the managed
resource of the state is a `Workspace`. -/

/-- What `Connect` has computed when it builds the harness (line 318): the effective
working directory, the ProviderConfig spec (with its plugin cache defaulted) and the
process environment. -/
structure ConnectSetup where
  dir : Str
  pc : ProviderConfigSpec
  envs : List Str
  deriving DecidableEq

/-- The `external` client: its harness, and whether its logger is set. -/
structure External where
  tofu : Harness
  logger : Bool
  deriving DecidableEq

/-- The two results of `Connect` when it reaches a final `return`: the client and the
error of the workspace selection. -/
structure ConnectResult where
  client : External
  err : Option Err
  deriving DecidableEq

/-- The body of the first loop over the credentials (lines 202–226): only a credential
with the reserved filename is handled; it goes to the directory `/tmp/<dir>`. -/
def writeGitCredential (w : World) (dir : Str) (_ : Unit) (cd : ProviderCredentials) :
    Run Unit :=
  if cd.Filename ≠ gitCredentialsFilename then pure ()
  else do
    let data ← getOrFail errGetCreds (← ask (fun t => w.extractCredentials t cd)
      (Event.extractCredentials cd))
    let gitCredDir := clean (join ["/tmp".toList, dir])
    orFail errWriteGitCreds (← ask (fun t => w.mkdirAll t gitCredDir) (Event.mkdirAll gitCredDir))
    orFail errSetGitCredDir (← ask (fun t => w.setenv t "GIT_CRED_DIR".toList gitCredDir)
      (Event.setenv "GIT_CRED_DIR".toList gitCredDir))
    let p := clean (join [gitCredDir, base cd.Filename])
    orFail errWriteGitCreds (← ask (fun t => w.writeFile t p data) (Event.writeFile p data))

/-- The `switch` on the module source (lines 228–250). -/
def materializeModule (w : World) (cr : Workspace) (dir : Str) : Run Unit :=
  if cr.ForProvider.Source = ModuleSourceRemote then do
    orFail errRemoteModule (← ask (fun t => w.getModule t cr.ForProvider.Module dir)
      (Event.getModule cr.ForProvider.Module dir))
  else if cr.ForProvider.Source = ModuleSourceInline then do
    let fn := if cr.ForProvider.InlineFormat = FileFormatJSON then tfMainJSON else tfMain
    orFail (errWriteMain ++ fn) (← ask (fun t => w.writeFile t (join [dir, fn]) cr.ForProvider.Module)
      (Event.writeFile (join [dir, fn]) cr.ForProvider.Module))
  else pure ()

/-- The working directory after the entrypoint adjustment (lines 252–255). -/
def entrypointDir (dir entrypoint : Str) : Str :=
  if entrypoint.length > 0 then join [dir, replaceAll entrypoint "../".toList []] else dir

/-- The body of the second loop over the credentials (lines 257–266). -/
def writeCredential (w : World) (dir : Str) (_ : Unit) (cd : ProviderCredentials) :
    Run Unit := do
  let data ← getOrFail errGetCreds (← ask (fun t => w.extractCredentials t cd)
    (Event.extractCredentials cd))
  let p := clean (join [dir, base cd.Filename])
  orFail errWriteCreds (← ask (fun t => w.writeFile t p data) (Event.writeFile p data))

/-- The error of a key missing from a ConfigMap or Secret (`fmt.Errorf`, lines 299, 310). -/
def errKeyNotFound (kind : Str) (r : KeyReference) : Err :=
  Err.new ("couldn't find key ".toList ++ r.Key ++ " in ".toList ++ kind ++ " ".toList
    ++ r.Namespace ++ "/".toList ++ r.Name)

/-- The body of the loop over the environment variables (lines 286–316). -/
def resolveEnv (w : World) (envs : List Str) (env : EnvVar) : Run (List Str) := do
  let runtimeVal ←
    if env.Value = [] then
      match env.ConfigMapKeyReference, env.SecretKeyReference with
      | some r, _ => do
        let cm ← getOrFail errVarResolution (← ask (fun t => w.getConfigMap t r.Namespace r.Name)
          (Event.getConfigMap r.Namespace r.Name))
        match cm.get r.Key with
        | some v => pure v
        | none => fail (Err.wrap (errKeyNotFound "ConfigMap".toList r) errVarResolution)
      | none, some r => do
        let sec ← getOrFail errVarResolution (← ask (fun t => w.getSecret t r.Namespace r.Name)
          (Event.getSecret r.Namespace r.Name))
        match sec.get r.Key with
        | some v => pure v
        | none => fail (Err.wrap (errKeyNotFound "Secret".toList r) errVarResolution)
      | none, none => pure env.Value
    else pure env.Value
  pure (envs ++ [env.Name ++ "=".toList ++ runtimeVal])

/-- The ProviderConfig spec with the plugin cache defaulted to `true` (lines 280–283). -/
def defaultPluginCache (pc : ProviderConfigSpec) : ProviderConfigSpec :=
  match pc.PluginCache with
  | none => { pc with PluginCache := some true }
  | some _ => pc

/-- The write of the shared configuration (lines 268–272) and of the backend file
(lines 274–278): `if content != nil { if err := WriteFile(path, *content); err != nil
{ return nil, errors.Wrap(err, tag) } }`. -/
def writeOptional (w : World) (path tag : Str) (content : Option Str) : Run Unit :=
  match content with
  | some text => do
    orFail tag (← ask (fun t => w.writeFile t path text) (Event.writeFile path text))
  | none => pure ()

/-- Lines 188–316 of `Connect`: everything before the harness is built. -/
def connectSetup (w : World) : Run ConnectSetup := do
  let cr ← getCr
  let dir := join [w.tfDir, cr.UID]
  orFail errMkdir (ignoreErr w.isExist (← ask (fun t => w.mkdirAll t dir) (Event.mkdirAll dir)))
  orFail errMkdir (ignoreErr w.isExist (← ask (fun t => w.mkdirAll t (join ["/tmp".toList, w.tfDir]))
    (Event.mkdirAll (join ["/tmp".toList, w.tfDir]))))
  let pc ← getOrFail errResolvePC (← ask w.resolveProviderConfig Event.resolveProviderConfig)
  loop (writeGitCredential w dir) () pc.Credentials
  materializeModule w cr dir
  let dir := entrypointDir dir cr.ForProvider.Entrypoint
  loop (writeCredential w dir) () pc.Credentials
  writeOptional w (join [dir, tfConfig]) errWriteConfig pc.Configuration
  writeOptional w (join [dir, tfBackendFile]) errWriteBackend pc.BackendFile
  let pc := defaultPluginCache pc
  let envs ← loop (resolveEnv w) [] cr.ForProvider.Env
  pure { dir := dir, pc := pc, envs := envs }

/-- The harness `Setup` builds for a working directory (lines 121–123). -/
def newHarness (su : ConnectSetup) (cr : Workspace) : Harness :=
  { Path := tofuPath, Dir := su.dir, UsePluginCache := su.pc.PluginCache.getD true,
    EnableTofuCLILogging := cr.ForProvider.EnableTofuCLILogging, Envs := su.envs }

/-- The init options (lines 331–335). -/
def initOptions (su : ConnectSetup) (cr : Workspace) : List InitOption :=
  let o : List InitOption := []
  let o := if su.pc.BackendFile.isSome then
      o ++ [InitOption.WithInitArgs ["-backend-config=".toList ++ join [su.dir, tfBackendFile]]]
    else o
  o ++ [InitOption.WithInitArgs cr.ForProvider.InitArgs]

/-- Lines 331–339 of `Connect`: initialise, then select the workspace. -/
def connectInit (w : World) (su : ConnectSetup) (cr : Workspace) (tofu : Harness) :
    Run ConnectResult := do
  let o := initOptions su cr
  orFail errInit (← ask (fun t => w.tofuInit t tofu o) (Event.tofuInit tofu o))
  let err ← ask (fun t => w.tofuWorkspace t tofu cr.ExternalName)
    (Event.tofuWorkspace tofu cr.ExternalName)
  pure { client := { tofu := tofu, logger := false }, err := wrapErr err errWorkspace }

/-- Lines 318–339 of `Connect`: the checksum short-circuit, otherwise `connectInit`. -/
def connectTofu (w : World) (su : ConnectSetup) : Run ConnectResult := do
  let cr ← getCr
  let tofu := newHarness su cr
  if cr.Status.AtProvider.Checksum ≠ [] then do
    let checksum ← getOrFail errChecksum (← ask (fun t => w.tofuGenerateChecksum t tofu)
      (Event.tofuGenerateChecksum tofu))
    if cr.Status.AtProvider.Checksum = checksum then do
      let err ← ask (fun t => w.tofuWorkspace t tofu cr.ExternalName)
        (Event.tofuWorkspace tofu cr.ExternalName)
      pure { client := { tofu := tofu, logger := true }, err := wrapErr err errWorkspace }
    else connectInit w su cr tofu
  else connectInit w su cr tofu

/-- `connector.Connect`.  An early `return nil, err` is the error outcome; reaching one
of the two final `return`s gives the client together with the error of the workspace
selection. -/
def Connect (w : World) : Run ConnectResult := do
  let su ← connectSetup w
  connectTofu w su

/-- The `error` that `Connect` returns. -/
def connectErr (r : Except Err ConnectResult) : Option Err :=
  match r with
  | .error e => some e
  | .ok res => res.err

/-! ## `options`, `op2cd`, `generateWorkspaceObservation` (lines 471–545) -/

/-- The body of the loop over the var-files (lines 479–504).  Lines 488–489 and 497–498
read `r.Namespace` of the reference of the declared source with no nil check: for a
var-file without that reference the dereference panics. -/
def varFileOption (w : World) (o : List TfOption) (vf : VarFile) : Run (List TfOption) :=
  let fmt := if vf.Format = some FileFormatJSON then TfFormat.JSON else TfFormat.HCL
  if vf.Source = VarFileSourceConfigMapKey then
    match vf.ConfigMapKeyReference with
    | none => nilPanic
    | some r => do
      let cm ← getOrFail errVarFile (← ask (fun t => w.getConfigMap t r.Namespace r.Name)
        (Event.getConfigMap r.Namespace r.Name))
      pure (o ++ [TfOption.WithVarFile ((cm.get r.Key).getD []) fmt])
  else if vf.Source = VarFileSourceSecretKey then
    match vf.SecretKeyReference with
    | none => nilPanic
    | some r => do
      let sec ← getOrFail errVarFile (← ask (fun t => w.getSecret t r.Namespace r.Name)
        (Event.getSecret r.Namespace r.Name))
      pure (o ++ [TfOption.WithVarFile ((sec.get r.Key).getD []) fmt])
  else pure o

/-- `external.options`. -/
def options (w : World) (p : WorkspaceParameters) : Run (List TfOption) := do
  let o : List TfOption := p.Vars.foldl (fun o v => o ++ [TfOption.WithVar v.Key v.Value]) []
  let o ← loop (varFileOption w) o p.VarFiles
  match p.VarMap with
  | some raw => do
    let jsonBytes ← getOrFail errVarMap (w.jsonMarshal raw)
    pure (o ++ [TfOption.WithVarFile jsonBytes TfFormat.JSON])
  | none => pure o

/-- `op2cd`: the connection details of a list of outputs. -/
def op2cd (o : List Output) : GoMap Bytes :=
  o.foldl (fun cd op =>
    if op.Typ = OutputType.OutputTypeString then cd.set op.Name op.StringValue
    else
      match op.JSONValue with
      | .ok j => cd.set op.Name j
      | .error _ => cd) []

/-- `generateWorkspaceObservation`. -/
def generateWorkspaceObservation (op : List Output) : WorkspaceObservation :=
  { Checksum := [],
    Outputs := op.foldl (fun m o =>
      if !o.Sensitive then
        match o.JSONValue with
        | .ok j => m.set o.Name j
        | .error _ => m
      else m) [] }

/-! ## `checkDiff`, `Observe`, `Create`, `Update`, `Delete` (lines 348–465) -/

/-- `managed.ExternalObservation`. -/
structure ExternalObservation where
  ResourceExists : Bool
  ResourceUpToDate : Bool
  ResourceLateInitialized : Bool
  ConnectionDetails : GoMap Bytes
  deriving DecidableEq

/-- `managed.ExternalUpdate` (and `managed.ExternalCreation`). -/
structure ExternalUpdate where
  ConnectionDetails : GoMap Bytes
  deriving DecidableEq

/-- The resource after `cr.Status.AtProvider = wo`. -/
def Workspace.setAtProvider (cr : Workspace) (wo : WorkspaceObservation) : Workspace :=
  { cr with Status := { cr.Status with AtProvider := wo } }

/-- The resource after `cr.Status.AtProvider.Checksum = checksum`. -/
def Workspace.setChecksum (cr : Workspace) (checksum : Str) : Workspace :=
  { cr with Status := { cr.Status with
    AtProvider := { cr.Status.AtProvider with Checksum := checksum } } }

/-- The resource after `cr.Status.SetConditions(xpv1.Available())`. -/
def Workspace.setAvailable (cr : Workspace) : Workspace :=
  { cr with Status := { cr.Status with
    Conditions := setCondition cr.Status.Conditions Available } }

/-- `cr.Status.AtProvider = wo`. -/
def setAtProvider (wo : WorkspaceObservation) : Run Unit := do
  let cr ← getCr
  setCr (cr.setAtProvider wo)

/-- `cr.Status.AtProvider.Checksum = checksum`. -/
def setChecksum (checksum : Str) : Run Unit := do
  let cr ← getCr
  setCr (cr.setChecksum checksum)

/-- `cr.Status.SetConditions(xpv1.Available())`. -/
def setAvailable : Run Unit := do
  let cr ← getCr
  setCr cr.setAvailable

/-- `external.checkDiff`. -/
def checkDiff (w : World) (c : External) : Run Bool := do
  let cr ← getCr
  let o ← wrapRun errOptions (options w cr.ForProvider)
  let o := o ++ [TfOption.WithArgs cr.ForProvider.PlanArgs]
  let r ← ask (fun t => w.tofuDiff t c.tofu o) (Event.tofuDiff c.tofu o)
  match r with
  | .ok differs => pure differs
  | .error err => if !cr.WasDeleted then fail (Err.wrap err errDiff) else pure false

/-- Lines 381–386 of `Observe`: the workspace is deleted when the resource was deleted
and no tofu resource is left. -/
def observeDelete (w : World) (c : External) (cr : Workspace) (r : List Str) : Run Unit := do
  if cr.WasDeleted && r.length == 0 then
    orFail errDeleteWorkspace (← ask (fun t => w.tofuDeleteCurrentWorkspace t c.tofu)
      (Event.tofuDeleteCurrentWorkspace c.tofu))

/-- Lines 387–412 of `Observe`: the outputs and the checksum go into the status, and
the observation is returned. -/
def observeStatus (w : World) (c : External) (differs : Bool) (r : List Str) :
    Run ExternalObservation := do
  let op ← getOrFail errOutputs (← ask (fun t => w.tofuOutputs t c.tofu)
    (Event.tofuOutputs c.tofu))
  setAtProvider (generateWorkspaceObservation op)
  let checksum ← getOrFail errChecksum (← ask (fun t => w.tofuGenerateChecksum t c.tofu)
    (Event.tofuGenerateChecksum c.tofu))
  setChecksum checksum
  if !differs then setAvailable
  pure { ResourceExists := decide (r.length + op.length > 0),
         ResourceUpToDate := !differs,
         ResourceLateInitialized := false,
         ConnectionDetails := op2cd op }

/-- `external.Observe`. -/
def Observe (w : World) (c : External) : Run ExternalObservation := do
  let cr ← getCr
  let differs ← checkDiff w c
  let r ← getOrFail errResources (← ask (fun t => w.tofuResources t c.tofu)
    (Event.tofuResources c.tofu))
  observeDelete w c cr r
  observeStatus w c differs r

/-- `external.Update`. -/
def Update (w : World) (c : External) : Run ExternalUpdate := do
  let cr ← getCr
  let o ← wrapRun errOptions (options w cr.ForProvider)
  let o := o ++ [TfOption.WithArgs cr.ForProvider.ApplyArgs]
  orFail errApply (← ask (fun t => w.tofuApply t c.tofu o) (Event.tofuApply c.tofu o))
  let op ← getOrFail errOutputs (← ask (fun t => w.tofuOutputs t c.tofu)
    (Event.tofuOutputs c.tofu))
  setAtProvider (generateWorkspaceObservation op)
  setAvailable
  pure { ConnectionDetails := op2cd op }

/-- `external.Create`: it delegates to `Update`. -/
def Create (w : World) (c : External) : Run ExternalUpdate := Update w c

/-- `external.Delete`: the returned error (the `managed.ExternalDelete` is empty). -/
def Delete (w : World) (c : External) : Run (Option Err) := do
  let cr ← getCr
  let o ← wrapRun errOptions (options w cr.ForProvider)
  let o := o ++ [TfOption.WithArgs cr.ForProvider.DestroyArgs]
  let err ← ask (fun t => w.tofuDestroy t c.tofu o) (Event.tofuDestroy c.tofu o)
  pure (wrapErr err errDestroy)

/-! ## The garbage collector (`internal/workdir/workdir.go`) -/

/-- `GarbageCollector`: the directory it collects in. -/
structure GarbageCollector where
  parentDir : Str
  deriving DecidableEq

/-- `isUUID`. -/
def isUUID (w : World) (u : Str) : Bool := w.uuidParse u

/-- The map `exists` after the loop over the listed Workspaces (lines 108–110, 116–118). -/
def existsMap (uids : List Str) : GoMap Bool :=
  uids.foldl (fun m uid => m.set uid true) []

/-- The message of `errors.Wrapf(err, errFmtReadDir, dir)`, where `%q` quotes the
directory (written here for a path in which `%q` has nothing to escape). -/
def errFmtReadDir (dir : Str) : Str :=
  "cannot read directory \"".toList ++ dir ++ "\"".toList

/-- The state of the loop over the directory entries: the paths whose removal failed and
the transcript. -/
structure CollectState where
  failed : List Str
  trace : Trace
  deriving DecidableEq

/-- The body of the loop over the directory entries (lines 126–137). -/
def collectStep (w : World) (gc : GarbageCollector) (ex : GoMap Bool) (st : CollectState)
    (fi : FileInfo) : CollectState :=
  if !fi.IsDir || !isUUID w fi.Name then st
  else if (ex.get fi.Name).getD false then st
  else
    let path := join [gc.parentDir, fi.Name]
    match w.removeAll st.trace path with
    | some err => { failed := st.failed ++ [path], trace := st.trace ++ [Event.removeAll path (some err)] }
    | none => { failed := st.failed, trace := st.trace ++ [Event.removeAll path none] }

/-- `GarbageCollector.collect`: the returned error and the transcript afterwards. -/
def collect (w : World) (gc : GarbageCollector) (namespaced : Bool) (t : Trace) :
    Option Err × Trace :=
  let l := w.listWorkspaces t namespaced
  let t1 := t ++ [Event.listWorkspaces namespaced l]
  match l with
  | .error err => (some (Err.wrap err errListWorkspaces), t1)
  | .ok uids =>
    let ex := existsMap uids
    let fis := w.readDir t1 gc.parentDir
    let t2 := t1 ++ [Event.readDir gc.parentDir fis]
    match fis with
    | .error err => (some (Err.wrap err (errFmtReadDir gc.parentDir)), t2)
    | .ok fis =>
      let st := fis.foldl (collectStep w gc ex) { failed := [], trace := t2 }
      if st.failed.length > 0 then
        (some (Err.new ("could not delete directories: ".toList
          ++ List.intercalate ", ".toList st.failed)), st.trace)
      else (none, st.trace)

/-! ## Reading a transcript -/

/-- The interaction is a call of the harness `Init`. -/
def Event.isInit : Event → Bool
  | .tofuInit _ _ _ => true
  | _ => false

/-- The interaction is a call of a harness operation. -/
def Event.isTofu : Event → Bool
  | .tofuInit _ _ _ => true
  | .tofuWorkspace _ _ _ => true
  | .tofuOutputs _ _ => true
  | .tofuResources _ _ => true
  | .tofuDiff _ _ _ => true
  | .tofuApply _ _ _ => true
  | .tofuDestroy _ _ _ => true
  | .tofuDeleteCurrentWorkspace _ _ => true
  | .tofuGenerateChecksum _ _ => true
  | _ => false

/-- The interaction is a call of the harness `DeleteCurrentWorkspace`. -/
def Event.isDeleteCurrentWorkspace : Event → Bool
  | .tofuDeleteCurrentWorkspace _ _ => true
  | _ => false

/-- The interaction belongs to the status step of `Observe`: the harness `Outputs` or
`GenerateChecksum`. -/
def Event.isStatusStep : Event → Bool
  | .tofuOutputs _ _ => true
  | .tofuGenerateChecksum _ _ => true
  | _ => false

/-- The interaction is a read of a ConfigMap or a Secret. -/
def Event.isGet : Event → Bool
  | .getConfigMap _ _ _ => true
  | .getSecret _ _ _ => true
  | _ => false

/-- The interaction belongs to the diff step: a read of a ConfigMap or a Secret, or the
harness `Diff`. -/
def Event.isDiffStep : Event → Bool
  | .getConfigMap _ _ _ => true
  | .getSecret _ _ _ => true
  | .tofuDiff _ _ _ => true
  | _ => false

/-- The computation `m` leaves the managed resource as it is and only appends
interactions satisfying `P` to the transcript. -/
def Frames (P : Event → Prop) {α : Type} (m : Run α) : Prop :=
  ∀ s, (m s).2.cr = s.cr ∧ ∃ evs, (m s).2.trace = s.trace ++ evs ∧ ∀ e ∈ evs, P e

/-! ## Reading the var-files off a transcript -/

/-- The format tag of a var-file (lines 480–483): JSON when its Format is given and is
`JSON`, HCL otherwise. -/
def varFileFormat (vf : VarFile) : TfFormat :=
  if vf.Format = some FileFormatJSON then TfFormat.JSON else TfFormat.HCL

/-- The cause of a failed read of a ConfigMap or a Secret. -/
def Event.readFailure : Event → Option Err
  | .getConfigMap _ _ (.error e) => some e
  | .getSecret _ _ (.error e) => some e
  | _ => none

/-- The var-file of source ConfigMapKey or SecretKey has the reference its source
declares. -/
def VarFile.hasReference (vf : VarFile) : Bool :=
  (vf.Source != VarFileSourceConfigMapKey || vf.ConfigMapKeyReference.isSome)
    && (vf.Source != VarFileSourceSecretKey || vf.SecretKeyReference.isSome)

/-- The var-file options the specification describes, read off the successful reads
`evs` made for the var-files: in declared order, a var-file of source ConfigMapKey
(SecretKey) takes the next read, which is of the ConfigMap (Secret) it references, and
gives one `WithVarFile` holding the bytes under the referenced key (none if the key is
absent) with the format tag of the var-file; a var-file of any other source takes no
read and gives no option.  The result is `none` when the reads are not these. -/
def readVarFiles : List VarFile → List Event → Option (List TfOption)
  | [], [] => some []
  | [], _ :: _ => none
  | vf :: rest, evs =>
    if vf.Source = VarFileSourceConfigMapKey then
      match vf.ConfigMapKeyReference, evs with
      | some r, Event.getConfigMap ns name (.ok data) :: evs1 =>
        if ns = r.Namespace ∧ name = r.Name then
          (readVarFiles rest evs1).map (fun os =>
            TfOption.WithVarFile ((data.get r.Key).getD []) (varFileFormat vf) :: os)
        else none
      | _, _ => none
    else if vf.Source = VarFileSourceSecretKey then
      match vf.SecretKeyReference, evs with
      | some r, Event.getSecret ns name (.ok data) :: evs1 =>
        if ns = r.Namespace ∧ name = r.Name then
          (readVarFiles rest evs1).map (fun os =>
            TfOption.WithVarFile ((data.get r.Key).getD []) (varFileFormat vf) :: os)
        else none
      | _, _ => none
    else readVarFiles rest evs

/-! ## The stages of `Connect`

The same statements as in `connectSetup`, cut at the module and at the environment
variables, so that a theorem can name the state in which a later step runs. -/

/-- The name of the file an inline module is written to (lines 243–246). -/
def inlineFileName (p : WorkspaceParameters) : Str :=
  if p.InlineFormat = FileFormatJSON then tfMainJSON else tfMain

/-- Lines 181–199 of `Connect`, everything before the credentials: the working
directory and the transient root are created and the ProviderConfig is resolved.  It
yields the managed resource, the working directory and the ProviderConfig. -/
def connectDirs (w : World) : Run (Workspace × Str × ProviderConfigSpec) := do
  let cr ← getCr
  let dir := join [w.tfDir, cr.UID]
  orFail errMkdir (ignoreErr w.isExist (← ask (fun t => w.mkdirAll t dir) (Event.mkdirAll dir)))
  orFail errMkdir (ignoreErr w.isExist (← ask (fun t => w.mkdirAll t (join ["/tmp".toList, w.tfDir]))
    (Event.mkdirAll (join ["/tmp".toList, w.tfDir]))))
  let pc ← getOrFail errResolvePC (← ask w.resolveProviderConfig Event.resolveProviderConfig)
  pure (cr, dir, pc)

/-- Lines 181–226 of `Connect`, everything before the module is materialised: the
working directory and the transient root are created, the ProviderConfig is resolved
and the git credentials are written.  It yields the managed resource, the working
directory and the ProviderConfig. -/
def connectBeforeModule (w : World) : Run (Workspace × Str × ProviderConfigSpec) := do
  let cr ← getCr
  let dir := join [w.tfDir, cr.UID]
  orFail errMkdir (ignoreErr w.isExist (← ask (fun t => w.mkdirAll t dir) (Event.mkdirAll dir)))
  orFail errMkdir (ignoreErr w.isExist (← ask (fun t => w.mkdirAll t (join ["/tmp".toList, w.tfDir]))
    (Event.mkdirAll (join ["/tmp".toList, w.tfDir]))))
  let pc ← getOrFail errResolvePC (← ask w.resolveProviderConfig Event.resolveProviderConfig)
  loop (writeGitCredential w dir) () pc.Credentials
  pure (cr, dir, pc)

/-- Lines 252–283 of `Connect`, from the entrypoint to the plugin cache default: the
credentials, the shared configuration and the backend file are written into the
(entrypoint-adjusted) working directory.  It yields that directory and the
ProviderConfig with the plugin cache defaulted. -/
def connectFiles (w : World) (cr : Workspace) (dir : Str) (pc : ProviderConfigSpec) :
    Run (Str × ProviderConfigSpec) := do
  let dir := entrypointDir dir cr.ForProvider.Entrypoint
  loop (writeCredential w dir) () pc.Credentials
  writeOptional w (join [dir, tfConfig]) errWriteConfig pc.Configuration
  writeOptional w (join [dir, tfBackendFile]) errWriteBackend pc.BackendFile
  pure (dir, defaultPluginCache pc)

/-- Lines 181–283 of `Connect`, everything before the environment variables are
resolved. -/
def connectBeforeEnv (w : World) : Run (Workspace × Str × ProviderConfigSpec) := do
  let x ← connectBeforeModule w
  materializeModule w x.1 x.2.1
  let y ← connectFiles w x.1 x.2.1 x.2.2
  pure (x.1, y.1, y.2)

/-- The path of the file an inline module is written to: the file `inlineFileName` at the
root of the working directory `<tfDir>/<UID>` (line 247). -/
def inlineModulePath (w : World) (cr : Workspace) : Str :=
  join [join [w.tfDir, cr.UID], inlineFileName cr.ForProvider]

/-- The environment entries the specification describes, read off the successful reads
`evs` made for the variables: in declared order, a variable with a non-empty literal
value gives `Name=Value` and takes no read; otherwise, if it has a ConfigMap reference
it takes the next read, which is of that ConfigMap, and gives `Name=v` for the value
`v` under the referenced key; otherwise, if it has a Secret reference, likewise with
the Secret; with no reference at all it gives `Name=` and takes no read.  The result is
`none` when the reads are not these or a referenced key is absent. -/
def readEnv : List EnvVar → List Event → Option (List Str)
  | [], [] => some []
  | [], _ :: _ => none
  | env :: rest, evs =>
    if env.Value ≠ [] then
      (readEnv rest evs).map (fun l => (env.Name ++ "=".toList ++ env.Value) :: l)
    else
      match env.ConfigMapKeyReference, env.SecretKeyReference, evs with
      | some r, _, Event.getConfigMap ns name (.ok data) :: evs1 =>
        if ns = r.Namespace ∧ name = r.Name then
          match data.get r.Key with
          | some v => (readEnv rest evs1).map (fun l => (env.Name ++ "=".toList ++ v) :: l)
          | none => none
        else none
      | none, some r, Event.getSecret ns name (.ok data) :: evs1 =>
        if ns = r.Namespace ∧ name = r.Name then
          match data.get r.Key with
          | some v => (readEnv rest evs1).map (fun l => (env.Name ++ "=".toList ++ v) :: l)
          | none => none
        else none
      | none, none, _ => (readEnv rest evs).map (fun l => (env.Name ++ "=".toList) :: l)
      | _, _, _ => none

/-! ## Reading the removals of a collection pass -/

/-- The entries of the root a collection pass tries to remove: the directories whose
name parses as a UUID and is not the UID of a listed Workspace (lines 127–132). -/
def orphans (w : World) (uids : List Str) (fis : List FileInfo) : List FileInfo :=
  fis.filter (fun fi => fi.IsDir && isUUID w fi.Name && !decide (fi.Name ∈ uids))

/-- The removals of the entries `fis`, with the answers `answers`, in order. -/
def removals (gc : GarbageCollector) (fis : List FileInfo) (answers : List (Option Err)) :
    List Event :=
  List.zipWith (fun fi r => Event.removeAll (join [gc.parentDir, fi.Name]) r) fis answers

/-- The paths of the entries `fis` whose removal, answered by `answers`, failed. -/
def failedPaths (gc : GarbageCollector) (fis : List FileInfo) (answers : List (Option Err)) :
    List Str :=
  ((fis.zip answers).filter (fun p => p.2.isSome)).map (fun p => join [gc.parentDir, p.1.Name])

/-! ## The harness operations in a transcript -/

/-- The operations of the interface `tofuclient` (lines 94–104). -/
inductive HarnessOp where
  | Init
  | Workspace
  | Outputs
  | Resources
  | Diff
  | Apply
  | Destroy
  | DeleteCurrentWorkspace
  | GenerateChecksum
  deriving DecidableEq, Repr

/-- The harness operation an interaction invokes, if it is one. -/
def Event.harnessOp : Event → Option HarnessOp
  | .tofuInit _ _ _ => some HarnessOp.Init
  | .tofuWorkspace _ _ _ => some HarnessOp.Workspace
  | .tofuOutputs _ _ => some HarnessOp.Outputs
  | .tofuResources _ _ => some HarnessOp.Resources
  | .tofuDiff _ _ _ => some HarnessOp.Diff
  | .tofuApply _ _ _ => some HarnessOp.Apply
  | .tofuDestroy _ _ _ => some HarnessOp.Destroy
  | .tofuDeleteCurrentWorkspace _ _ => some HarnessOp.DeleteCurrentWorkspace
  | .tofuGenerateChecksum _ _ => some HarnessOp.GenerateChecksum
  | _ => none

/-- The harness operations invoked in a transcript, in order. -/
def harnessOps (evs : List Event) : List HarnessOp := evs.filterMap Event.harnessOp

/-- The harness operations the computation `m` invokes are, in order, some of `ops`,
each at most as often as it occurs there. -/
def Phase (ops : List HarnessOp) {α : Type} (m : Run α) : Prop :=
  ∀ s, ∃ evs, (m s).2.trace = s.trace ++ evs ∧ (harnessOps evs).Sublist ops

/-- The error `Delete` returns, for an outcome that is no panic: the error of the option
resolution, or the wrapped answer of `Destroy`. -/
def deleteErr (r : Except Err (Option Err)) : Option Err :=
  match r with
  | .error e => some e
  | .ok err => err

/-! ## Error classification (`internal/opentofu`, section 4.6 of the specification)

The file `opentofu.go` that defines `formatTofuErrorOutput` and `Classify` is not among
the sources; only its tests are.  Both functions are modelled from the specification.
Text is a list of characters here (the marker is one character), and the compression
and encoding of the block (gzip, then base64) is a parameter. -/

/-- Modelled from the spec: the "box-drawing marker" that begins a diagnostic line
(`opentofu.go` is missing; the marker is the one of the test inputs). -/
def diagnosticMarker : Char := '│'

/-- The lines of a text (`strings.Split(text, "\n")`), with the line being read in
`cur`, reversed. -/
def splitLinesAux : Str → Str → List Str
  | cur, [] => [cur.reverse]
  | cur, c :: cs =>
    if c = '\n' then cur.reverse :: splitLinesAux [] cs else splitLinesAux (c :: cur) cs

/-- The lines of a text. -/
def splitLines (text : Str) : List Str := splitLinesAux [] text

/-- The text after the first occurrence of `pat` in `s`, if `pat` occurs. -/
def afterInfix (pat : Str) : Str → Option Str
  | [] => if pat.isPrefixOf [] then some [] else none
  | c :: cs => if pat.isPrefixOf (c :: cs) then some ((c :: cs).drop pat.length)
      else afterInfix pat cs

/-- Modelled from the spec: the diagnostic lines of the error output, those "beginning
with a box-drawing marker" (`opentofu.go` is missing). -/
def diagnosticLines (stderr : Str) : List Str :=
  (splitLines stderr).filter (fun l => l.head? == some diagnosticMarker)

/-- Modelled from the spec: the error for an output of which "the block cannot be
parsed" (`opentofu.go` is missing; the specification does not give its text). -/
def errNotDiagnostic : Err := Err.new "cannot parse the tofu error output".toList

/-- Modelled from the spec: `formatTofuErrorOutput` (`opentofu.go` is missing) extracts
"a one-line summary (the text after "Error: " on the first diagnostic line) and the
full diagnostic block compressed (gzip) and base64-encoded"; it fails when there is no
diagnostic line or the first one has no "Error: ".  `encode` compresses and encodes. -/
def formatTofuErrorOutput (encode : Str → Str) (stderr : Str) : Except Err (Str × Str) :=
  match diagnosticLines stderr with
  | [] => .error errNotDiagnostic
  | first :: rest =>
    match afterInfix "Error: ".toList first with
    | none => .error errNotDiagnostic
    | some summary =>
      .ok (summary, encode ((first :: rest).flatMap (fun l => l ++ ['\n'])))

/-- Modelled from the spec: the message of the error `Classify` returns for a process
error with the output `stderr` (`opentofu.go` is missing): "<tool> encountered an
error. Summary: <summary>. To see the full error run: echo "<base64>" | base64 -d |
gunzip", and "if the block cannot be parsed, the raw error is passed through
unchanged". -/
def Classify (encode : Str → Str) (stderr : Str) : Str :=
  match formatTofuErrorOutput encode stderr with
  | .ok (summary, base64Full) =>
    "OpenTofu encountered an error. Summary: ".toList ++ summary
      ++ ". To see the full error run: echo \"".toList ++ base64Full
      ++ "\" | base64 -d | gunzip".toList
  | .error _ => stderr

/-- The interactions appended to the transcript `before` to reach `after`. -/
def newEvents (before after : Trace) : Trace := after.drop before.length

/-! ## Sample inputs -/

/-- The cause used by failing oracles in the samples. -/
def errBoom : Err := Err.new "boom".toList

/-- A credential with the reserved filename. -/
def sampleGitCredential : ProviderCredentials :=
  { Filename := ".git-credentials".toList, Source := "None".toList, Selectors := [] }

/-- An ordinary credential. -/
def sampleCredential : ProviderCredentials :=
  { Filename := "credentials".toList, Source := "None".toList, Selectors := [] }

/-- A ProviderConfig with both credentials and a shared configuration. -/
def sampleProviderConfig : ProviderConfigSpec :=
  { Credentials := [sampleGitCredential, sampleCredential],
    Configuration := some "I'm HCL!".toList, BackendFile := none, PluginCache := none }

/-- The canonical 36-byte form of a UUID: hexadecimal digits with `-` at the offsets
8, 13, 18 and 23. -/
def canonicalUUID (u : Str) : Bool :=
  u.length == 36 &&
    (List.range 36).all (fun i =>
      if i = 8 ∨ i = 13 ∨ i = 18 ∨ i = 23 then u.get? i == some '-'
      else match u.get? i with
        | some ch => ch.isDigit || ('a' ≤ ch && ch ≤ 'f') || ('A' ≤ ch && ch ≤ 'F')
        | none => false)

def uuidA : Str := "0b3d5f7a-1c2e-4a6b-8d9f-a1b2c3d4e5f6".toList
def uuidB : Str := "7e6d5c4b-3a29-4180-9f8e-d7c6b5a49382".toList

/-- A world in which every operation succeeds: the ProviderConfig is
`sampleProviderConfig`, the harness reports no difference, no resource, no output and
the checksum `checksum`; the managed root holds the directories `uuidA`, `uuidB` and
`not-a-uuid` and a plain file, and `uuidA` is the only live Workspace. -/
def calmWorld : World where
  tfDir := "/tofu".toList
  isExist := fun _ => false
  mkdirAll := fun _ _ => none
  writeFile := fun _ _ _ => none
  resolveProviderConfig := fun _ => .ok sampleProviderConfig
  extractCredentials := fun _ _ => .ok "secret".toList
  setenv := fun _ _ _ => none
  getModule := fun _ _ _ => none
  getConfigMap := fun _ _ _ => .ok [("vars".toList, "a = 1".toList)]
  getSecret := fun _ _ _ => .ok [("vars".toList, "b = 2".toList)]
  jsonMarshal := fun b => .ok b
  tofuInit := fun _ _ _ => none
  tofuWorkspace := fun _ _ _ => none
  tofuOutputs := fun _ _ => .ok []
  tofuResources := fun _ _ => .ok []
  tofuDiff := fun _ _ _ => .ok false
  tofuApply := fun _ _ _ => none
  tofuDestroy := fun _ _ _ => none
  tofuDeleteCurrentWorkspace := fun _ _ => none
  tofuGenerateChecksum := fun _ _ => .ok "checksum".toList
  uuidParse := canonicalUUID
  listWorkspaces := fun _ _ => .ok [uuidA]
  readDir := fun _ _ => .ok [⟨uuidA, true⟩, ⟨uuidB, true⟩, ⟨"not-a-uuid".toList, true⟩,
    ⟨"a-file".toList, false⟩]
  removeAll := fun _ _ => none

/-- An inline HCL module without variables. -/
def sampleParameters : WorkspaceParameters :=
  { Module := "I'm HCL!".toList, InlineFormat := [], Source := ModuleSourceInline,
    Entrypoint := [], Env := [], Vars := [], VarMap := none, VarFiles := [], InitArgs := [],
    PlanArgs := [], ApplyArgs := [], DestroyArgs := [], EnableTofuCLILogging := false }

/-- A Workspace that has been observed before: its status carries the checksum
`checksum` and one output. -/
def sampleWorkspace : Workspace :=
  { UID := "no-you-id".toList, Name := "ws".toList, ExternalName := "ext".toList,
    WasDeleted := false, ForProvider := sampleParameters,
    Status := { Conditions := [],
                AtProvider := { Checksum := "checksum".toList,
                                Outputs := [("old".toList, "1".toList)] } } }

/-- The harness `Connect` builds for `sampleWorkspace` in `calmWorld`. -/
def sampleHarness : Harness :=
  { Path := tofuPath, Dir := "/tofu/no-you-id".toList, UsePluginCache := true,
    EnableTofuCLILogging := false, Envs := [] }

/-- The client `Connect` returns for `sampleWorkspace` in `calmWorld`. -/
def sampleExternal : External := { tofu := sampleHarness, logger := true }

/-- What `Connect` has computed for `sampleWorkspace` in `calmWorld` when it builds the
harness. -/
def sampleSetup : ConnectSetup :=
  { dir := "/tofu/no-you-id".toList,
    pc := { sampleProviderConfig with PluginCache := some true }, envs := [] }

/-- The Workspace `sampleWorkspace` with the entrypoint `....//`: removing the
occurrence of `../` at offset 2 leaves `../`. -/
def escapingWorkspace : Workspace :=
  { sampleWorkspace with
    ForProvider := { sampleParameters with Entrypoint := "....//".toList } }

/-- A non-sensitive string output (the test double's value: the empty string, whose
JSON encoding the test expects as `null`). -/
def sampleStringOutput : Output :=
  { Name := "string".toList, Sensitive := false, Typ := OutputType.OutputTypeString,
    StringValue := [], JSONValue := .ok "null".toList }

/-- A sensitive object output. -/
def sampleSensitiveOutput : Output :=
  { Name := "object".toList, Sensitive := true, Typ := OutputType.OutputTypeObject,
    StringValue := [], JSONValue := .ok "null".toList }

/-- The outputs of `TestObserve/WorkspaceExists`. -/
def sampleOutputs : List Output := [sampleStringOutput, sampleSensitiveOutput]

/-- The world `calmWorld` in which the harness reports the outputs `sampleOutputs` and
fails to generate the checksum. -/
def checksumFailsWorld : World :=
  { calmWorld with
    tofuOutputs := fun _ _ => .ok sampleOutputs
    tofuGenerateChecksum := fun _ _ => .error errBoom }

/-- The Workspace `sampleWorkspace` marked for deletion. -/
def deletedWorkspace : Workspace := { sampleWorkspace with WasDeleted := true }

/-- The world `calmWorld` in which the harness `Diff` fails. -/
def diffFailsWorld : World :=
  { calmWorld with tofuDiff := fun _ _ _ => .error errBoom }

/-- The world `calmWorld` in which the harness reports the outputs `sampleOutputs` (and
no resource). -/
def outputsWorld : World :=
  { calmWorld with tofuOutputs := fun _ _ => .ok sampleOutputs }

/-- The observation `Observe` returns for `sampleWorkspace` in `outputsWorld`: the
workspace has outputs but no resources. -/
def sampleObservation : ExternalObservation :=
  { ResourceExists := true, ResourceUpToDate := true, ResourceLateInitialized := false,
    ConnectionDetails := op2cd sampleOutputs }

/-- A garbage collector for the root `/tofu`. -/
def sampleCollector : GarbageCollector := { parentDir := "/tofu".toList }

/-- The literal variable `a = 2`. -/
def sampleVar : Var := { Key := "a".toList, Value := "2".toList }

/-- A reference to the key `vars` of a ConfigMap. -/
def sampleKeyReference : KeyReference :=
  { Namespace := "default".toList, Name := "tfvars".toList, Key := "vars".toList }

/-- A var-file read from the key `vars` of a ConfigMap (in `calmWorld` its content is
`a = 1`). -/
def sampleVarFile : VarFile :=
  { Source := VarFileSourceConfigMapKey, Format := none,
    ConfigMapKeyReference := some sampleKeyReference, SecretKeyReference := none }

/-- Parameters with the literal variable `a = 2` and one var-file that defines `a`. -/
def varsAndFileParameters : WorkspaceParameters :=
  { sampleParameters with Vars := [sampleVar], VarFiles := [sampleVarFile] }

/-- The ProviderConfig of `TestConnect/SuccessUsingBackendFile`: a shared configuration
and a backend file, no credentials. -/
def backendProviderConfig : ProviderConfigSpec :=
  { Credentials := [], Configuration := some "I'm HCL!".toList,
    BackendFile := some "I'm a backend!".toList, PluginCache := none }

/-- The world `calmWorld` with the ProviderConfig `backendProviderConfig`. -/
def backendWorld : World :=
  { calmWorld with resolveProviderConfig := fun _ => .ok backendProviderConfig }

/-- The Workspace of `TestConnect/SuccessUsingBackendFile`: never observed (its status
has no checksum), no module source, and the init argument `-upgrade=true`. -/
def freshWorkspace : Workspace :=
  { UID := "no-you-id".toList, Name := "ws".toList, ExternalName := "ext".toList,
    WasDeleted := false,
    ForProvider := { sampleParameters with
      Module := [], Source := [], InitArgs := ["-upgrade=true".toList] },
    Status := { Conditions := [], AtProvider := { Checksum := [], Outputs := [] } } }

/-- What `Connect` has computed for `freshWorkspace` in `backendWorld` when it builds
the harness. -/
def backendSetup : ConnectSetup :=
  { dir := "/tofu/no-you-id".toList,
    pc := { backendProviderConfig with PluginCache := some true }, envs := [] }

/-- A non-sensitive number output named `a` with the value 1. -/
def firstNumberOutput : Output :=
  { Name := "a".toList, Sensitive := false, Typ := OutputType.OutputTypeNumber,
    StringValue := [], JSONValue := .ok "1".toList }

/-- A non-sensitive number output, also named `a`, with the value 2. -/
def secondNumberOutput : Output :=
  { Name := "a".toList, Sensitive := false, Typ := OutputType.OutputTypeNumber,
    StringValue := [], JSONValue := .ok "2".toList }

/-- A non-sensitive string output named `a` with the value `x`. -/
def firstStringOutput : Output :=
  { Name := "a".toList, Sensitive := false, Typ := OutputType.OutputTypeString,
    StringValue := "x".toList, JSONValue := .ok ['"', 'x', '"'] }

/-- The outputs of `TestCreate/Success`: a sensitive string and a non-sensitive object
(whose JSON encoding in the test double is `null`). -/
def createStringOutput : Output :=
  { Name := "string".toList, Sensitive := true, Typ := OutputType.OutputTypeString,
    StringValue := [], JSONValue := .ok "null".toList }

def createObjectOutput : Output :=
  { Name := "object".toList, Sensitive := false, Typ := OutputType.OutputTypeObject,
    StringValue := [], JSONValue := .ok "null".toList }

/-- The world `calmWorld` in which the harness `Diff` reports a difference. -/
def driftWorld : World :=
  { calmWorld with tofuDiff := fun _ _ _ => .ok true }

/-- The observation `Observe` returns for `sampleWorkspace` in `driftWorld`: neither
resources nor outputs, and not up to date. -/
def driftObservation : ExternalObservation :=
  { ResourceExists := false, ResourceUpToDate := false, ResourceLateInitialized := false,
    ConnectionDetails := [] }

/-- A var-file whose source is neither `ConfigMapKey` nor `SecretKey`. -/
def otherSourceVarFile : VarFile :=
  { Source := "Other".toList, Format := none,
    ConfigMapKeyReference := some sampleKeyReference, SecretKeyReference := none }

/-- Parameters whose only variable source is `otherSourceVarFile`. -/
def otherSourceParameters : WorkspaceParameters :=
  { sampleParameters with VarFiles := [otherSourceVarFile] }

/-- A var-file in JSON format read from the key `vars` of a Secret (in `calmWorld` its
content is `b = 2`). -/
def secretVarFile : VarFile :=
  { Source := VarFileSourceSecretKey, Format := some FileFormatJSON,
    ConfigMapKeyReference := none, SecretKeyReference := some sampleKeyReference }

/-- Parameters with every kind of variable source: a literal variable, a var-file from
a ConfigMap, one from a Secret, and a raw variable map. -/
def tfvarsParameters : WorkspaceParameters :=
  { sampleParameters with
    Vars := [sampleVar], VarFiles := [sampleVarFile, secretVarFile],
    VarMap := some "[1]".toList }

/-- The world `calmWorld` in which reading a ConfigMap fails. -/
def configMapFailsWorld : World :=
  { calmWorld with getConfigMap := fun _ _ _ => .error errBoom }

/-- The world `calmWorld` in which the raw variable map cannot be marshalled. -/
def marshalFailsWorld : World :=
  { calmWorld with jsonMarshal := fun _ => .error errBoom }

/-- The Workspace `sampleWorkspace` with the parameters `tfvarsParameters`. -/
def tfvarsWorkspace : Workspace := { sampleWorkspace with ForProvider := tfvarsParameters }

/-- A var-file of source ConfigMapKey without a ConfigMap reference. -/
def noReferenceVarFile : VarFile :=
  { Source := VarFileSourceConfigMapKey, Format := none,
    ConfigMapKeyReference := none, SecretKeyReference := none }

/-- The Workspace `sampleWorkspace` with `noReferenceVarFile` after a var-file that can
be read. -/
def noReferenceWorkspace : Workspace :=
  { sampleWorkspace with
    ForProvider := { sampleParameters with VarFiles := [sampleVarFile, noReferenceVarFile] } }

/-- A variable with a literal value. -/
def literalEnv : EnvVar :=
  { Name := "A".toList, Value := "1".toList,
    ConfigMapKeyReference := some sampleKeyReference, SecretKeyReference := none }

/-- A variable read from the key `vars` of a ConfigMap; it also has a Secret reference. -/
def configMapEnv : EnvVar :=
  { Name := "B".toList, Value := [],
    ConfigMapKeyReference := some sampleKeyReference,
    SecretKeyReference := some sampleKeyReference }

/-- A variable read from the key `vars` of a Secret. -/
def secretEnv : EnvVar :=
  { Name := "C".toList, Value := [],
    ConfigMapKeyReference := none, SecretKeyReference := some sampleKeyReference }

/-- A reference to a key the ConfigMap of `calmWorld` does not have. -/
def missingKeyReference : KeyReference :=
  { Namespace := "default".toList, Name := "tfvars".toList, Key := "missing".toList }

/-- A variable read from a key that is absent. -/
def missingEnv : EnvVar :=
  { Name := "D".toList, Value := [],
    ConfigMapKeyReference := some missingKeyReference, SecretKeyReference := none }

/-- The Workspace `sampleWorkspace` with three environment variables. -/
def envWorkspace : Workspace :=
  { sampleWorkspace with
    ForProvider := { sampleParameters with Env := [literalEnv, configMapEnv, secretEnv] } }

/-- The Workspace `sampleWorkspace` with a variable whose key is absent, after a
literal one. -/
def missingEnvWorkspace : Workspace :=
  { sampleWorkspace with
    ForProvider := { sampleParameters with Env := [literalEnv, missingEnv, secretEnv] } }

/-- A third UUID. -/
def uuidC : Str := "5a4b3c2d-1e0f-4a9b-8c7d-6e5f4a3b2c1d".toList

/-- The world `calmWorld` whose root holds the orphaned directories `uuidB`, `uuidA`
(not listed as live here) and `uuidC`, in which removing `uuidB` and `uuidC` fails. -/
def stubbornWorld : World :=
  { calmWorld with
    listWorkspaces := fun _ _ => .ok []
    readDir := fun _ _ => .ok [⟨uuidB, true⟩, ⟨uuidA, true⟩, ⟨uuidC, true⟩]
    removeAll := fun _ p => if p = "/tofu/".toList ++ uuidA then none else some errBoom }

/-- The world of `TestCreate/Success`: `calmWorld` in which the harness reports a
sensitive string output and a non-sensitive object output. -/
def createWorld : World :=
  { calmWorld with tofuOutputs := fun _ _ => .ok [createStringOutput, createObjectOutput] }

/-- The world `calmWorld` in which the harness `Apply` fails. -/
def applyFailsWorld : World :=
  { calmWorld with tofuApply := fun _ _ _ => some errBoom }

/-- The world `calmWorld` in which the harness `Destroy` fails. -/
def destroyFailsWorld : World :=
  { calmWorld with tofuDestroy := fun _ _ _ => some errBoom }

/-- The world of `TestConnect/MakeDirError`: `calmWorld` in which no directory can be
created. -/
def mkdirFailsWorld : World :=
  { calmWorld with mkdirAll := fun _ _ => some errBoom }

/-- The world `calmWorld` in which the harness `Init` fails. -/
def initFailsWorld : World :=
  { calmWorld with tofuInit := fun _ _ _ => some errBoom }

/-- A credential whose filename is the parent-directory element. -/
def parentCredential : ProviderCredentials :=
  { Filename := "..".toList, Source := "None".toList, Selectors := [] }

/-- The world `calmWorld` whose ProviderConfig has the single credential
`parentCredential`. -/
def parentCredentialWorld : World :=
  { calmWorld with
    resolveProviderConfig := fun _ => .ok
      { Credentials := [parentCredential], Configuration := none, BackendFile := none,
        PluginCache := none } }

/-- The Workspace `sampleWorkspace` with the entrypoint `a/b`. -/
def nestedWorkspace : Workspace :=
  { sampleWorkspace with
    ForProvider := { sampleParameters with Entrypoint := "a/b".toList } }

/-- A var-file read from a key the ConfigMap of `calmWorld` does not have. -/
def missingKeyVarFile : VarFile :=
  { Source := VarFileSourceConfigMapKey, Format := some FileFormatJSON,
    ConfigMapKeyReference := some missingKeyReference, SecretKeyReference := none }

/-- Parameters with a var-file whose key is absent, one of another source and one that
can be read. -/
def missingKeyParameters : WorkspaceParameters :=
  { sampleParameters with VarFiles := [missingKeyVarFile, otherSourceVarFile, sampleVarFile] }

/-! ## Theorems -/

theorem bind_apply {α β : Type} (m : Run α) (f : α → Run β) (s : St) :
    (m >>= f) s = match m s with
      | (.ok a, s1) => f a s1
      | (.error e, s1) => (.error e, s1) := rfl

theorem bind_ok {α β : Type} {m : Run α} {f : α → Run β} {s s1 : St} {a : α}
    (h : m s = (.ok a, s1)) : (m >>= f) s = f a s1 := by
  rw [bind_apply, h]

theorem bind_error {α β : Type} {m : Run α} {f : α → Run β} {s s1 : St} {e : Err}
    (h : m s = (.error e, s1)) : (m >>= f) s = (.error e, s1) := by
  rw [bind_apply, h]

theorem pure_apply {α : Type} (a : α) (s : St) : (pure a : Run α) s = (.ok a, s) := rfl

theorem fail_apply {α : Type} (e : Err) (s : St) : (fail e : Run α) s = (.error e, s) := rfl

theorem ask_apply {β : Type} (q : Trace → β) (ev : β → Event) (s : St) :
    ask q ev s = (.ok (q s.trace), { s with trace := s.trace ++ [ev (q s.trace)] }) := rfl

theorem frames_pure {P : Event → Prop} {α : Type} (a : α) : Frames P (pure a : Run α) :=
  fun s => ⟨rfl, [], by simp [pure_apply], by simp⟩

theorem frames_fail {P : Event → Prop} {α : Type} (e : Err) : Frames P (fail e : Run α) :=
  fun s => ⟨rfl, [], by simp [fail_apply], by simp⟩

theorem frames_getCr {P : Event → Prop} : Frames P getCr :=
  fun s => ⟨rfl, [], by simp [getCr], by simp⟩

theorem frames_ask {P : Event → Prop} {β : Type} (q : Trace → β) (ev : β → Event)
    (h : ∀ r, P (ev r)) : Frames P (ask q ev) :=
  fun s => ⟨rfl, [ev (q s.trace)], by simp [ask_apply], by simpa using h _⟩

theorem frames_bind {P : Event → Prop} {α β : Type} {m : Run α} {f : α → Run β}
    (hm : Frames P m) (hf : ∀ a, Frames P (f a)) : Frames P (m >>= f) := by
  intro s
  obtain ⟨hcr, evs, htr, hP⟩ := hm s
  rw [bind_apply]
  rcases hms : m s with ⟨r, s1⟩
  rw [hms] at hcr htr
  cases r with
  | error e => exact ⟨hcr, evs, htr, hP⟩
  | ok a =>
    obtain ⟨hcr2, evs2, htr2, hP2⟩ := hf a s1
    refine ⟨hcr2.trans hcr, evs ++ evs2, ?_, ?_⟩
    · simp only at htr
      show (f a s1).2.trace = _
      rw [htr2, htr, List.append_assoc]
    · intro e he
      rcases List.mem_append.mp he with h | h
      · exact hP e h
      · exact hP2 e h

theorem frames_orFail {P : Event → Prop} (tag : Str) (err : Option Err) :
    Frames P (orFail tag err) := by
  cases err with
  | none => exact frames_pure _
  | some e => exact frames_fail _

theorem frames_getOrFail {P : Event → Prop} {α : Type} (tag : Str) (r : Except Err α) :
    Frames P (getOrFail tag r) := by
  cases r with
  | ok a => exact frames_pure _
  | error e => exact frames_fail _

theorem frames_wrapRun {P : Event → Prop} {α : Type} (tag : Str) {m : Run α}
    (hm : Frames P m) : Frames P (wrapRun tag m) := by
  intro s
  have h := hm s
  unfold wrapRun
  rcases hms : m s with ⟨r, s1⟩
  rw [hms] at h
  cases r <;> exact h

theorem frames_loop {P : Event → Prop} {α β : Type} {body : β → α → Run β}
    (hb : ∀ acc a, Frames P (body acc a)) (acc : β) (l : List α) :
    Frames P (loop body acc l) := by
  induction l generalizing acc with
  | nil => exact frames_pure _
  | cons a as ih => exact frames_bind (hb acc a) (fun b => ih b)

theorem frames_writeGitCredential (w : World) (dir : Str) (u : Unit) (cd : ProviderCredentials) :
    Frames (fun e => e.isTofu = false) (writeGitCredential w dir u cd) := by
  unfold writeGitCredential
  repeat (first
    | exact frames_pure _
    | exact frames_orFail _ _
    | exact frames_getOrFail _ _
    | exact frames_ask _ _ (fun _ => rfl)
    | refine frames_bind ?_ (fun _ => ?_)
    | split)

theorem frames_materializeModule (w : World) (cr : Workspace) (dir : Str) :
    Frames (fun e => e.isTofu = false) (materializeModule w cr dir) := by
  unfold materializeModule
  repeat (first
    | exact frames_pure _
    | exact frames_orFail _ _
    | exact frames_ask _ _ (fun _ => rfl)
    | refine frames_bind ?_ (fun _ => ?_)
    | split)

theorem frames_writeCredential (w : World) (dir : Str) (u : Unit) (cd : ProviderCredentials) :
    Frames (fun e => e.isTofu = false) (writeCredential w dir u cd) := by
  unfold writeCredential
  repeat (first
    | exact frames_pure _
    | exact frames_orFail _ _
    | exact frames_getOrFail _ _
    | exact frames_ask _ _ (fun _ => rfl)
    | refine frames_bind ?_ (fun _ => ?_))

theorem frames_resolveEnv (w : World) (envs : List Str) (env : EnvVar) :
    Frames (fun e => e.isTofu = false) (resolveEnv w envs env) := by
  unfold resolveEnv
  dsimp only
  repeat (first
    | exact frames_pure _
    | exact frames_fail _
    | exact frames_getOrFail _ _
    | exact frames_ask _ _ (fun _ => rfl)
    | refine frames_bind ?_ (fun _ => ?_)
    | split)

theorem frames_writeOptional (w : World) (path tag : Str) (content : Option Str) :
    Frames (fun e => e.isTofu = false) (writeOptional w path tag content) := by
  unfold writeOptional
  repeat (first
    | exact frames_pure _
    | exact frames_orFail _ _
    | exact frames_ask _ _ (fun _ => rfl)
    | refine frames_bind ?_ (fun _ => ?_)
    | split)

/-- The part of `Connect` before the harness is built leaves the managed resource as
it is and calls no harness operation. -/
theorem frames_connectSetup (w : World) :
    Frames (fun e => e.isTofu = false) (connectSetup w) := by
  unfold connectSetup
  repeat (first
    | exact frames_pure _
    | exact frames_getCr
    | exact frames_orFail _ _
    | exact frames_getOrFail _ _
    | exact frames_ask _ _ (fun _ => rfl)
    | exact frames_loop (frames_writeGitCredential w _) _ _
    | exact frames_loop (frames_writeCredential w _) _ _
    | exact frames_loop (frames_resolveEnv w) _ _
    | exact frames_materializeModule w _ _
    | exact frames_writeOptional w _ _ _
    | refine frames_bind ?_ (fun _ => ?_))

theorem isTofu_false_isInit {e : Event} (h : e.isTofu = false) : e.isInit = false := by
  cases e <;> simp_all [Event.isTofu, Event.isInit]

/-- C1. When the observed checksum is non-empty and equals the checksum the harness
generates (the earlier steps of `Connect` having succeeded), `Connect` makes no `Init`
call: after generating the checksum its last interaction is the selection of the
workspace named by the external name (with answer `sel`), and the error it returns is
that answer wrapped with `cannot select tofu workspace`, so it is nil exactly when the
selection succeeds. -/
theorem connect_checksum_match_skips_init (w : World) (s s1 : St) (su : ConnectSetup)
    (sel : Option Err)
    (hsetup : connectSetup w s = (.ok su, s1))
    (hne : s.cr.Status.AtProvider.Checksum ≠ [])
    (hsum : w.tofuGenerateChecksum s1.trace (newHarness su s.cr)
      = .ok s.cr.Status.AtProvider.Checksum)
    (hsel : w.tofuWorkspace (s1.trace ++ [Event.tofuGenerateChecksum (newHarness su s.cr)
      (.ok s.cr.Status.AtProvider.Checksum)]) (newHarness su s.cr) s.cr.ExternalName = sel) :
    (∃ evs, (Connect w s).2.trace = s.trace ++ evs
      ∧ (∀ e ∈ evs, e.isInit = false)
      ∧ evs.getLast? = some (Event.tofuWorkspace (newHarness su s.cr) s.cr.ExternalName sel))
    ∧ connectErr (Connect w s).1 = wrapErr sel errWorkspace
    ∧ (connectErr (Connect w s).1 = none ↔ sel = none) := by
  obtain ⟨hcr, evs0, htr, hP⟩ := frames_connectSetup w s
  rw [hsetup] at hcr htr
  simp only at hcr htr
  have hC : Connect w s = connectTofu w su s1 := by
    unfold Connect
    exact bind_ok hsetup
  have hT : connectTofu w su s1 =
      (.ok { client := { tofu := newHarness su s.cr, logger := true },
             err := wrapErr sel errWorkspace },
       { s1 with trace := s1.trace ++ [Event.tofuGenerateChecksum (newHarness su s.cr)
           (.ok s.cr.Status.AtProvider.Checksum)] ++
           [Event.tofuWorkspace (newHarness su s.cr) s.cr.ExternalName sel] }) := by
    unfold connectTofu
    simp only [bind_apply, getCr, hcr, if_pos hne, ask_apply, hsum, getOrFail, pure_apply,
      if_true, hsel]
  refine ⟨⟨evs0 ++ [Event.tofuGenerateChecksum (newHarness su s.cr)
      (.ok s.cr.Status.AtProvider.Checksum)] ++ [Event.tofuWorkspace (newHarness su s.cr)
      s.cr.ExternalName sel], ?_, ?_, ?_⟩, ?_, ?_⟩
  · rw [hC, hT]
    simp only [htr, List.append_assoc]
  · intro e he
    simp only [List.append_assoc, List.mem_append, List.mem_singleton, List.mem_cons,
      List.not_mem_nil, or_false] at he
    rcases he with h | h | h
    · exact isTofu_false_isInit (hP e h)
    · rw [h]; rfl
    · rw [h]; rfl
  · simp
  · rw [hC, hT]; rfl
  · rw [hC, hT]
    simp only [connectErr, wrapErr]
    cases sel <;> simp

theorem connect_checksum_match_skips_init_witness :
    connectErr (Connect calmWorld ⟨sampleWorkspace, []⟩).1 = none :=
  ((connect_checksum_match_skips_init calmWorld ⟨sampleWorkspace, []⟩
    (connectSetup calmWorld ⟨sampleWorkspace, []⟩).2 sampleSetup none
    (by decide!) (by decide!) (by decide!) (by decide!)).2.2).mpr rfl

/-- C2. The entrypoint `....//` contains the sequence `../`, and the effective working
directory `Connect` computes for it is the parent `/tofu` of the resource's own working
directory `/tofu/no-you-id`: it is neither that directory nor a path beneath it, the
harness is bound to it and the shared configuration is written into it. -/
theorem entrypoint_escapes_working_directory :
    replaceAll "....//".toList "../".toList [] = "../".toList
    ∧ entrypointDir (join ["/tofu".toList, "no-you-id".toList]) "....//".toList = "/tofu".toList
    ∧ ¬ isWithin (join ["/tofu".toList, "no-you-id".toList])
        (entrypointDir (join ["/tofu".toList, "no-you-id".toList]) "....//".toList)
    ∧ (Connect calmWorld ⟨escapingWorkspace, []⟩).1
        = .ok { client := { tofu := { sampleHarness with Dir := "/tofu".toList }, logger := true },
                err := none }
    ∧ Event.writeFile "/tofu/crossplane-provider-config.tf".toList "I'm HCL!".toList none
        ∈ (Connect calmWorld ⟨escapingWorkspace, []⟩).2.trace := by
  decide!

/-! ### Maps and outputs -/

theorem get_set {α : Type} (m : GoMap α) (k k1 : Str) (v : α) :
    (m.set k v).get k1 = if k1 = k then some v else m.get k1 := by
  unfold GoMap.set GoMap.get
  by_cases h : k1 = k
  · subst h
    simp [List.lookup]
  · have hb : (k1 == k) = false := by simpa using h
    simp only [List.lookup, hb, if_neg h]
    induction m with
    | nil => rfl
    | cons p rest ih =>
      obtain ⟨a, b⟩ := p
      by_cases ha : a = k
      · subst ha
        simp only [List.filter, bne_self_eq_false, List.lookup, hb]
        exact ih
      · have hne : (a != k) = true := by simpa using ha
        simp only [List.filter, hne, List.lookup]
        cases k1 == a
        · exact ih
        · rfl

/-- The step of the loop in `generateWorkspaceObservation`. -/
theorem observation_outputs_none (op : List Output) (m : GoMap Bytes) (k : Str)
    (hm : m.get k = none) (hs : ∀ o ∈ op, o.Name = k → o.Sensitive = true) :
    (op.foldl (fun m o =>
      if !o.Sensitive then
        match o.JSONValue with
        | .ok j => m.set o.Name j
        | .error _ => m
      else m) m).get k = none := by
  induction op generalizing m with
  | nil => exact hm
  | cons o rest ih =>
    simp only [List.foldl]
    apply ih
    · by_cases hk : o.Name = k
      · have := hs o (List.mem_cons_self _ _) hk
        simp [this, hm]
      · split
        · split
          · rw [get_set, if_neg (fun h => hk h.symm)]
            exact hm
          · exact hm
        · exact hm
    · intro o1 ho1
      exact hs o1 (List.mem_cons_of_mem _ ho1)

/-- The connection details do not depend on the sensitivity flags. -/
theorem op2cd_ignores_sensitive (op : List Output) (f : Output → Bool) :
    op2cd (op.map (fun o => { o with Sensitive := f o })) = op2cd op := by
  unfold op2cd
  generalize ([] : GoMap Bytes) = m
  induction op generalizing m with
  | nil => rfl
  | cons o rest ih =>
    simp only [List.map, List.foldl]
    exact ih _

/-- C3 as stated fails: the sensitive output `object` of `TestObserve/WorkspaceExists`
is a key of the connection details. -/
theorem sensitive_output_in_connection_details :
    sampleSensitiveOutput ∈ sampleOutputs ∧ sampleSensitiveOutput.Sensitive = true
    ∧ (op2cd sampleOutputs).get sampleSensitiveOutput.Name = some "null".toList := by
  decide!

/-- C3, amended. A name carried only by sensitive outputs is not a key of the
observed-status `Outputs` map, whereas the connection details are built without
looking at the sensitivity flag (so a sensitive output is published there like any
other). -/
theorem sensitive_output_not_in_status (op : List Output) (o : Output)
    (_ho : o ∈ op) (_hs : o.Sensitive = true)
    (honly : ∀ o1 ∈ op, o1.Name = o.Name → o1.Sensitive = true) :
    (generateWorkspaceObservation op).Outputs.get o.Name = none
    ∧ ∀ f : Output → Bool, op2cd (op.map (fun o1 => { o1 with Sensitive := f o1 })) = op2cd op := by
  refine ⟨?_, fun f => op2cd_ignores_sensitive op f⟩
  unfold generateWorkspaceObservation
  exact observation_outputs_none op [] o.Name rfl honly

theorem sensitive_output_not_in_status_witness :
    (generateWorkspaceObservation sampleOutputs).Outputs.get sampleSensitiveOutput.Name = none :=
  (sensitive_output_not_in_status sampleOutputs sampleSensitiveOutput (by decide!) (by decide!)
    (by decide!)).1

/-! ### `Observe` -/

/-- C4 fails on `Observe`: when the outputs are listed and the checksum generation
then fails, `Observe` returns the error wrapped with `cannot calculate workspace
checksum`, yet the status has already been replaced: the previously published output
`old` and the previous checksum are gone. -/
theorem observe_checksum_failure_replaces_status :
    (Observe checksumFailsWorld sampleExternal ⟨sampleWorkspace, []⟩).1
      = .error (Err.wrap errBoom errChecksum)
    ∧ sampleWorkspace.Status.AtProvider
      = { Checksum := "checksum".toList, Outputs := [("old".toList, "1".toList)] }
    ∧ (Observe checksumFailsWorld sampleExternal ⟨sampleWorkspace, []⟩).2.cr.Status.AtProvider
      = { Checksum := [], Outputs := [("string".toList, "null".toList)] } := by
  decide!

theorem frames_varFileOption (w : World) (o : List TfOption) (vf : VarFile) :
    Frames (fun e => e.isGet = true) (varFileOption w o vf) := by
  unfold varFileOption
  dsimp only
  repeat (first
    | exact frames_pure _
    | exact frames_fail _
    | exact frames_getOrFail _ _
    | exact frames_ask _ _ (fun _ => rfl)
    | refine frames_bind ?_ (fun _ => ?_)
    | split)

/-- Option resolution leaves the managed resource as it is and only reads ConfigMaps
and Secrets. -/
theorem frames_options (w : World) (p : WorkspaceParameters) :
    Frames (fun e => e.isGet = true) (options w p) := by
  unfold options
  dsimp only
  repeat (first
    | exact frames_pure _
    | exact frames_getOrFail _ _
    | exact frames_loop (frames_varFileOption w) _ _
    | refine frames_bind ?_ (fun _ => ?_)
    | split)

theorem frames_mono {P Q : Event → Prop} {α : Type} {m : Run α} (h : ∀ e, P e → Q e)
    (hm : Frames P m) : Frames Q m := by
  intro s
  obtain ⟨hcr, evs, htr, hP⟩ := hm s
  exact ⟨hcr, evs, htr, fun e he => h e (hP e he)⟩

theorem isGet_isDiffStep {e : Event} (h : e.isGet = true) : e.isDiffStep = true := by
  cases e <;> simp_all [Event.isGet, Event.isDiffStep]

/-- The diff step leaves the managed resource as it is; its interactions are reads of
ConfigMaps and Secrets and the harness `Diff`. -/
theorem frames_checkDiff (w : World) (c : External) :
    Frames (fun e => e.isDiffStep = true) (checkDiff w c) := by
  unfold checkDiff
  repeat (first
    | exact frames_pure _
    | exact frames_fail _
    | exact frames_getCr
    | exact frames_ask _ _ (fun _ => rfl)
    | exact frames_wrapRun _ (frames_mono (fun _ => isGet_isDiffStep) (frames_options w _))
    | refine frames_bind ?_ (fun _ => ?_)
    | split)

theorem setAtProvider_apply (wo : WorkspaceObservation) (s : St) :
    setAtProvider wo s = (.ok (), { s with cr := s.cr.setAtProvider wo }) := rfl

theorem setChecksum_apply (cs : Str) (s : St) :
    setChecksum cs s = (.ok (), { s with cr := s.cr.setChecksum cs }) := rfl

theorem setAvailable_apply (s : St) :
    setAvailable s = (.ok (), { s with cr := s.cr.setAvailable }) := rfl

/-- The status step when listing the outputs fails. -/
theorem observeStatus_outputs_error (w : World) (c : External) (differs : Bool)
    (r : List Str) (s : St) (e : Err) (hop : w.tofuOutputs s.trace c.tofu = .error e) :
    observeStatus w c differs r s
      = (.error (Err.wrap e errOutputs),
         { s with trace := s.trace ++ [Event.tofuOutputs c.tofu (.error e)] }) := by
  unfold observeStatus
  simp only [bind_apply, ask_apply, hop, getOrFail, fail_apply]

/-- The status step when the checksum generation fails: the observation built from the
outputs is already in the status. -/
theorem observeStatus_checksum_error (w : World) (c : External) (differs : Bool)
    (r : List Str) (s : St) (op : List Output) (e : Err)
    (hop : w.tofuOutputs s.trace c.tofu = .ok op)
    (hcs : w.tofuGenerateChecksum (s.trace ++ [Event.tofuOutputs c.tofu (.ok op)]) c.tofu
      = .error e) :
    observeStatus w c differs r s
      = (.error (Err.wrap e errChecksum),
         { cr := s.cr.setAtProvider (generateWorkspaceObservation op),
           trace := s.trace ++ [Event.tofuOutputs c.tofu (.ok op)]
             ++ [Event.tofuGenerateChecksum c.tofu (.error e)] }) := by
  unfold observeStatus
  simp only [bind_apply, ask_apply, hop, getOrFail, pure_apply, setAtProvider_apply, hcs,
    fail_apply]

/-- The status step when both calls succeed. -/
theorem observeStatus_ok (w : World) (c : External) (differs : Bool)
    (r : List Str) (s : St) (op : List Output) (cs : Str)
    (hop : w.tofuOutputs s.trace c.tofu = .ok op)
    (hcs : w.tofuGenerateChecksum (s.trace ++ [Event.tofuOutputs c.tofu (.ok op)]) c.tofu
      = .ok cs) :
    observeStatus w c differs r s
      = (.ok { ResourceExists := decide (r.length + op.length > 0),
               ResourceUpToDate := !differs,
               ResourceLateInitialized := false,
               ConnectionDetails := op2cd op },
         { cr := if differs then (s.cr.setAtProvider (generateWorkspaceObservation op)).setChecksum cs
                 else ((s.cr.setAtProvider (generateWorkspaceObservation op)).setChecksum cs).setAvailable,
           trace := s.trace ++ [Event.tofuOutputs c.tofu (.ok op)]
             ++ [Event.tofuGenerateChecksum c.tofu (.ok cs)] }) := by
  unfold observeStatus
  simp only [bind_apply, ask_apply, hop, getOrFail, pure_apply, setAtProvider_apply, hcs,
    setChecksum_apply]
  cases differs
  · simp only [Bool.not_false, if_true, setAvailable_apply, bind_apply, pure_apply,
      Bool.false_eq_true, if_false]
  · simp only [Bool.not_true, Bool.false_eq_true, if_false, bind_apply, pure_apply, if_true]

/-- The status step only appends calls of `Outputs` and `GenerateChecksum`. -/
theorem observeStatus_trace (w : World) (c : External) (differs : Bool) (r : List Str)
    (s : St) :
    ∃ evs, (observeStatus w c differs r s).2.trace = s.trace ++ evs
      ∧ ∀ e ∈ evs, e.isStatusStep = true := by
  cases hop : w.tofuOutputs s.trace c.tofu with
  | error e =>
    rw [observeStatus_outputs_error w c differs r s e hop]
    exact ⟨[Event.tofuOutputs c.tofu (.error e)], rfl, by simp [Event.isStatusStep]⟩
  | ok op =>
    cases hcs : w.tofuGenerateChecksum (s.trace ++ [Event.tofuOutputs c.tofu (.ok op)]) c.tofu with
    | error e =>
      rw [observeStatus_checksum_error w c differs r s op e hop hcs]
      exact ⟨[Event.tofuOutputs c.tofu (.ok op), Event.tofuGenerateChecksum c.tofu (.error e)],
        by simp, by simp [Event.isStatusStep]⟩
    | ok cs =>
      rw [observeStatus_ok w c differs r s op cs hop hcs]
      exact ⟨[Event.tofuOutputs c.tofu (.ok op), Event.tofuGenerateChecksum c.tofu (.ok cs)],
        by simp, by simp [Event.isStatusStep]⟩

/-- `Observe` after a diff step and a resource listing that succeeded: the deletion of
the workspace, when due, and then the status step. -/
theorem observe_apply (w : World) (c : External) (s s1 : St) (differs : Bool) (r : List Str)
    (hdiff : checkDiff w c s = (.ok differs, s1))
    (hres : w.tofuResources s1.trace c.tofu = .ok r) :
    Observe w c s =
      if s.cr.WasDeleted = true ∧ r = [] then
        match w.tofuDeleteCurrentWorkspace (s1.trace ++ [Event.tofuResources c.tofu (.ok r)]) c.tofu with
        | some err =>
          (.error (Err.wrap err errDeleteWorkspace),
           { s1 with trace := s1.trace ++ [Event.tofuResources c.tofu (.ok r)]
               ++ [Event.tofuDeleteCurrentWorkspace c.tofu (some err)] })
        | none =>
          observeStatus w c differs r
            { s1 with trace := s1.trace ++ [Event.tofuResources c.tofu (.ok r)]
                ++ [Event.tofuDeleteCurrentWorkspace c.tofu none] }
      else
        observeStatus w c differs r
          { s1 with trace := s1.trace ++ [Event.tofuResources c.tofu (.ok r)] } := by
  unfold Observe observeDelete
  simp only [bind_apply, getCr, hdiff, ask_apply, hres, getOrFail, pure_apply]
  by_cases hd : s.cr.WasDeleted = true ∧ r = []
  · obtain ⟨h1, h2⟩ := hd
    subst h2
    simp only [h1, List.length_nil, beq_self_eq_true, Bool.and_self, if_true, bind_apply,
      ask_apply, and_self]
    cases w.tofuDeleteCurrentWorkspace (s1.trace ++ [Event.tofuResources c.tofu (.ok [])]) c.tofu with
    | none => simp only [orFail, pure_apply]
    | some err => simp only [orFail, fail_apply]
  · have hb : (s.cr.WasDeleted && r.length == 0) = false := by
      cases hw : s.cr.WasDeleted
      · simp
      · cases r with
        | nil => exact absurd ⟨hw, rfl⟩ hd
        | cons a as => simp
    simp only [hb, Bool.false_eq_true, if_false, if_neg hd, pure_apply]

theorem newEvents_append (t evs : Trace) : newEvents t (t ++ evs) = evs := by
  unfold newEvents
  simp

theorem isDiffStep_not_delete {e : Event} (h : e.isDiffStep = true) :
    e.isDeleteCurrentWorkspace = false := by
  cases e <;> simp_all [Event.isDiffStep, Event.isDeleteCurrentWorkspace]

theorem isStatusStep_not_delete {e : Event} (h : e.isStatusStep = true) :
    e.isDeleteCurrentWorkspace = false := by
  cases e <;> simp_all [Event.isStatusStep, Event.isDeleteCurrentWorkspace]

/-- C5. After a diff step and a resource listing that succeeded, `Observe` calls
`DeleteCurrentWorkspace` if and only if the Workspace is marked for deletion and the
list of tracked resources is empty; and when that call fails, `Observe` returns its
error wrapped with `cannot delete tofu workspace`. -/
theorem observe_deletes_workspace_iff (w : World) (c : External) (s s1 : St) (differs : Bool)
    (r : List Str)
    (hdiff : checkDiff w c s = (.ok differs, s1))
    (hres : w.tofuResources s1.trace c.tofu = .ok r) :
    ((∃ e ∈ newEvents s.trace (Observe w c s).2.trace, e.isDeleteCurrentWorkspace = true)
        ↔ (s.cr.WasDeleted = true ∧ r = []))
    ∧ (∀ err, s.cr.WasDeleted = true → r = [] →
        w.tofuDeleteCurrentWorkspace (s1.trace ++ [Event.tofuResources c.tofu (.ok r)]) c.tofu
          = some err →
        (Observe w c s).1 = .error (Err.wrap err errDeleteWorkspace)) := by
  obtain ⟨-, dEvs, htr, hP⟩ := frames_checkDiff w c s
  rw [hdiff] at htr
  simp only at htr
  rw [observe_apply w c s s1 differs r hdiff hres]
  constructor
  · by_cases hd : s.cr.WasDeleted = true ∧ r = []
    · rw [if_pos hd]
      refine ⟨fun _ => hd, fun _ => ?_⟩
      cases hdel : w.tofuDeleteCurrentWorkspace
          (s1.trace ++ [Event.tofuResources c.tofu (.ok r)]) c.tofu with
      | some err =>
        refine ⟨Event.tofuDeleteCurrentWorkspace c.tofu (some err), ?_, rfl⟩
        simp only [htr, List.append_assoc, newEvents_append]
        simp
      | none =>
        obtain ⟨tEvs, htail, -⟩ := observeStatus_trace w c differs r
          { s1 with trace := s1.trace ++ [Event.tofuResources c.tofu (.ok r)]
              ++ [Event.tofuDeleteCurrentWorkspace c.tofu none] }
        refine ⟨Event.tofuDeleteCurrentWorkspace c.tofu none, ?_, rfl⟩
        rw [htail]
        simp only [htr, List.append_assoc, newEvents_append]
        simp
    · rw [if_neg hd]
      refine ⟨fun ⟨e, he, hdel⟩ => ?_, fun h => absurd h hd⟩
      obtain ⟨tEvs, htail, hT⟩ := observeStatus_trace w c differs r
        { s1 with trace := s1.trace ++ [Event.tofuResources c.tofu (.ok r)] }
      rw [htail] at he
      simp only [htr, List.append_assoc, newEvents_append, List.mem_append,
        List.mem_singleton] at he
      rcases he with h | h | h
      · rw [isDiffStep_not_delete (hP e h)] at hdel
        exact absurd hdel (by simp)
      · rw [h] at hdel
        exact absurd hdel (by simp [Event.isDeleteCurrentWorkspace])
      · rw [isStatusStep_not_delete (hT e h)] at hdel
        exact absurd hdel (by simp)
  · intro err h1 h2 hdel
    rw [if_pos ⟨h1, h2⟩, hdel]

theorem observe_deletes_workspace_iff_witness :
    ∃ e ∈ newEvents [] (Observe calmWorld sampleExternal ⟨deletedWorkspace, []⟩).2.trace,
      e.isDeleteCurrentWorkspace = true :=
  (observe_deletes_workspace_iff calmWorld sampleExternal ⟨deletedWorkspace, []⟩
    (checkDiff calmWorld sampleExternal ⟨deletedWorkspace, []⟩).2 false []
    (by decide!) (by decide!)).1.mpr ⟨by decide!, rfl⟩

theorem wrapRun_ok {α : Type} {tag : Str} {m : Run α} {s s1 : St} {a : α}
    (h : m s = (.ok a, s1)) : wrapRun tag m s = (.ok a, s1) := by
  unfold wrapRun
  rw [h]

theorem wrapRun_error {α : Type} {tag : Str} {m : Run α} {s s1 : St} {e : Err}
    (h : m s = (.error e, s1)) :
    wrapRun tag m s = (.error (if e.isPanic then e else Err.wrap e tag), s1) := by
  unfold wrapRun
  rw [h]

/-- A returned error comes back wrapped. -/
theorem wrapRun_returned {α : Type} {tag : Str} {m : Run α} {s s1 : St} {e : Err}
    (h : m s = (.error e, s1)) (hp : e.isPanic = false) :
    wrapRun tag m s = (.error (Err.wrap e tag), s1) := by
  rw [wrapRun_error h, hp]
  rfl

/-- A panic passes through unwrapped. -/
theorem wrapRun_panic {α : Type} {tag : Str} {m : Run α} {s s1 : St}
    (h : m s = (.error Err.nilDeref, s1)) :
    wrapRun tag m s = (.error Err.nilDeref, s1) := by
  rw [wrapRun_error h]
  rfl

/-- The diff step once the options are resolved: the answer of the harness `Diff`
decides, and its failure is returned only for a resource that is not being deleted. -/
theorem checkDiff_apply (w : World) (c : External) (s s1 : St) (o : List TfOption)
    (hopt : options w s.cr.ForProvider s = (.ok o, s1)) :
    checkDiff w c s =
      (match w.tofuDiff s1.trace c.tofu (o ++ [TfOption.WithArgs s.cr.ForProvider.PlanArgs]) with
        | .ok differs => .ok differs
        | .error e => if s.cr.WasDeleted = true then .ok false else .error (Err.wrap e errDiff),
       { s1 with trace := s1.trace ++ [Event.tofuDiff c.tofu
           (o ++ [TfOption.WithArgs s.cr.ForProvider.PlanArgs])
           (w.tofuDiff s1.trace c.tofu (o ++ [TfOption.WithArgs s.cr.ForProvider.PlanArgs]))] }) := by
  unfold checkDiff
  simp only [bind_apply, getCr, wrapRun_ok hopt, ask_apply]
  cases w.tofuDiff s1.trace c.tofu (o ++ [TfOption.WithArgs s.cr.ForProvider.PlanArgs]) with
  | ok d => simp only [pure_apply]
  | error e =>
    cases s.cr.WasDeleted <;> simp [pure_apply, fail_apply]

/-- C6. When the harness `Diff` fails with cause `e` (the options having been
resolved): for a Workspace that is not marked for deletion `Observe` returns `e`
wrapped with `cannot diff (i.e. plan) tofu configuration` and the failed `Diff` is its
last interaction; for a Workspace marked for deletion the diff step returns
`false` without an error, and when the remaining harness calls succeed `Observe`
returns an observation with `ResourceUpToDate = true`. -/
theorem observe_diff_failure (w : World) (c : External) (s s1 : St) (o : List TfOption)
    (e : Err)
    (hopt : options w s.cr.ForProvider s = (.ok o, s1))
    (hdiff : w.tofuDiff s1.trace c.tofu (o ++ [TfOption.WithArgs s.cr.ForProvider.PlanArgs])
      = .error e) :
    (s.cr.WasDeleted = false →
      Observe w c s = (.error (Err.wrap e errDiff),
        { s1 with trace := s1.trace ++ [Event.tofuDiff c.tofu
            (o ++ [TfOption.WithArgs s.cr.ForProvider.PlanArgs]) (.error e)] }))
    ∧ (s.cr.WasDeleted = true →
      (checkDiff w c s).1 = .ok false
      ∧ ((∀ t, ∃ r, w.tofuResources t c.tofu = .ok r) →
         (∀ t, w.tofuDeleteCurrentWorkspace t c.tofu = none) →
         (∀ t, ∃ op, w.tofuOutputs t c.tofu = .ok op) →
         (∀ t, ∃ cs, w.tofuGenerateChecksum t c.tofu = .ok cs) →
         ∃ obs s2, Observe w c s = (.ok obs, s2) ∧ obs.ResourceUpToDate = true)) := by
  have hcd := checkDiff_apply w c s s1 o hopt
  rw [hdiff] at hcd
  constructor
  · intro hlive
    simp only [hlive, Bool.false_eq_true, if_false] at hcd
    unfold Observe
    simp only [bind_apply, getCr, hcd]
  · intro hdel
    simp only [hdel, if_true] at hcd
    refine ⟨by rw [hcd], fun hres hdw hout hcs => ?_⟩
    obtain ⟨r, hr⟩ := hres (s1.trace ++ [Event.tofuDiff c.tofu
      (o ++ [TfOption.WithArgs s.cr.ForProvider.PlanArgs]) (.error e)])
    rw [observe_apply w c s _ false r hcd hr]
    split
    · rw [hdw]
      obtain ⟨op, hop⟩ := hout (s1.trace ++ [Event.tofuDiff c.tofu
        (o ++ [TfOption.WithArgs s.cr.ForProvider.PlanArgs]) (.error e)]
        ++ [Event.tofuResources c.tofu (.ok r)] ++ [Event.tofuDeleteCurrentWorkspace c.tofu none])
      obtain ⟨cs, hc⟩ := hcs (s1.trace ++ [Event.tofuDiff c.tofu
        (o ++ [TfOption.WithArgs s.cr.ForProvider.PlanArgs]) (.error e)]
        ++ [Event.tofuResources c.tofu (.ok r)] ++ [Event.tofuDeleteCurrentWorkspace c.tofu none]
        ++ [Event.tofuOutputs c.tofu (.ok op)])
      exact ⟨_, _, observeStatus_ok w c false r _ op cs hop hc, rfl⟩
    · obtain ⟨op, hop⟩ := hout (s1.trace ++ [Event.tofuDiff c.tofu
        (o ++ [TfOption.WithArgs s.cr.ForProvider.PlanArgs]) (.error e)]
        ++ [Event.tofuResources c.tofu (.ok r)])
      obtain ⟨cs, hc⟩ := hcs (s1.trace ++ [Event.tofuDiff c.tofu
        (o ++ [TfOption.WithArgs s.cr.ForProvider.PlanArgs]) (.error e)]
        ++ [Event.tofuResources c.tofu (.ok r)] ++ [Event.tofuOutputs c.tofu (.ok op)])
      exact ⟨_, _, observeStatus_ok w c false r _ op cs hop hc, rfl⟩

theorem observe_diff_failure_witness :
    (Observe diffFailsWorld sampleExternal ⟨sampleWorkspace, []⟩
      = (.error (Err.wrap errBoom errDiff),
         { cr := sampleWorkspace,
           trace := [Event.tofuDiff sampleHarness [TfOption.WithArgs []] (.error errBoom)] }))
    ∧ ∃ obs s2, Observe diffFailsWorld sampleExternal ⟨deletedWorkspace, []⟩ = (.ok obs, s2)
        ∧ obs.ResourceUpToDate = true :=
  ⟨(observe_diff_failure diffFailsWorld sampleExternal ⟨sampleWorkspace, []⟩
      ⟨sampleWorkspace, []⟩ [] errBoom (by decide!) (by decide!)).1 (by decide!),
   ((observe_diff_failure diffFailsWorld sampleExternal ⟨deletedWorkspace, []⟩
      ⟨deletedWorkspace, []⟩ [] errBoom (by decide!) (by decide!)).2 (by decide!)).2
      (fun _ => ⟨[], rfl⟩) (fun _ => rfl) (fun _ => ⟨[], rfl⟩) (fun _ => ⟨"checksum".toList, rfl⟩)⟩

/-- What a successful `Observe` has done: the diff step succeeded, the resources were
listed, the workspace was deleted or not, the outputs were listed and the checksum was
generated; the observation and the status are built from these answers. -/
theorem observe_ok_inv (w : World) (c : External) (s s2 : St) (obs : ExternalObservation)
    (h : Observe w c s = (.ok obs, s2)) :
    ∃ differs s1 r dels op cs,
      checkDiff w c s = (.ok differs, s1)
      ∧ (dels = [] ∨ dels = [Event.tofuDeleteCurrentWorkspace c.tofu none])
      ∧ s2.trace = s1.trace ++ [Event.tofuResources c.tofu (.ok r)] ++ dels
          ++ [Event.tofuOutputs c.tofu (.ok op)] ++ [Event.tofuGenerateChecksum c.tofu (.ok cs)]
      ∧ obs = { ResourceExists := decide (r.length + op.length > 0),
                ResourceUpToDate := !differs,
                ResourceLateInitialized := false,
                ConnectionDetails := op2cd op }
      ∧ s2.cr = (if differs then (s1.cr.setAtProvider (generateWorkspaceObservation op)).setChecksum cs
          else ((s1.cr.setAtProvider (generateWorkspaceObservation op)).setChecksum cs).setAvailable) := by
  rcases hcd : checkDiff w c s with ⟨res, s1⟩
  cases res with
  | error e =>
    unfold Observe at h
    simp only [bind_apply, getCr, hcd] at h
    cases h
  | ok differs =>
    cases hr : w.tofuResources s1.trace c.tofu with
    | error e =>
      unfold Observe at h
      simp only [bind_apply, getCr, hcd, ask_apply, hr, getOrFail, fail_apply] at h
      cases h
    | ok r =>
      rw [observe_apply w c s s1 differs r hcd hr] at h
      have key : ∀ s3 : St, observeStatus w c differs r s3 = (.ok obs, s2) →
          ∃ op cs, s2.trace = s3.trace ++ [Event.tofuOutputs c.tofu (.ok op)]
              ++ [Event.tofuGenerateChecksum c.tofu (.ok cs)]
            ∧ obs = { ResourceExists := decide (r.length + op.length > 0),
                      ResourceUpToDate := !differs,
                      ResourceLateInitialized := false,
                      ConnectionDetails := op2cd op }
            ∧ s2.cr = (if differs then
                (s3.cr.setAtProvider (generateWorkspaceObservation op)).setChecksum cs
              else ((s3.cr.setAtProvider (generateWorkspaceObservation op)).setChecksum cs).setAvailable) := by
        intro s3 h3
        cases hop : w.tofuOutputs s3.trace c.tofu with
        | error e =>
          rw [observeStatus_outputs_error w c differs r s3 e hop] at h3
          cases h3
        | ok op =>
          cases hcs : w.tofuGenerateChecksum (s3.trace ++ [Event.tofuOutputs c.tofu (.ok op)])
              c.tofu with
          | error e =>
            rw [observeStatus_checksum_error w c differs r s3 op e hop hcs] at h3
            cases h3
          | ok cs =>
            rw [observeStatus_ok w c differs r s3 op cs hop hcs] at h3
            cases h3
            exact ⟨op, cs, rfl, rfl, rfl⟩
      split at h
      · cases hdel : w.tofuDeleteCurrentWorkspace
            (s1.trace ++ [Event.tofuResources c.tofu (.ok r)]) c.tofu with
        | some err =>
          rw [hdel] at h
          cases h
        | none =>
          rw [hdel] at h
          obtain ⟨op, cs, h1, h2, h3⟩ := key _ h
          exact ⟨differs, s1, r, [Event.tofuDeleteCurrentWorkspace c.tofu none], op, cs, rfl,
            Or.inr rfl, h1, h2, h3⟩
      · obtain ⟨op, cs, h1, h2, h3⟩ := key _ h
        exact ⟨differs, s1, r, [], op, cs, rfl, Or.inl rfl, by simpa using h1, h2, h3⟩

/-- C7. For every successful `Observe`, `ResourceExists` is true if and only if the
number of resources it listed plus the number of outputs it listed is not zero, where
the two lists are the answers of the one `Resources` call and the one `Outputs` call
of this pass. -/
theorem observe_exists_iff (w : World) (c : External) (s s2 : St) (obs : ExternalObservation)
    (h : Observe w c s = (.ok obs, s2)) :
    ∃ r op,
      (∀ res, Event.tofuResources c.tofu res ∈ newEvents s.trace s2.trace ↔ res = .ok r)
      ∧ (∀ res, Event.tofuOutputs c.tofu res ∈ newEvents s.trace s2.trace ↔ res = .ok op)
      ∧ (obs.ResourceExists = true ↔ r.length + op.length ≠ 0) := by
  obtain ⟨differs, s1, r, dels, op, cs, hcd, hdels, htr, hobs, -⟩ := observe_ok_inv w c s s2 obs h
  obtain ⟨-, dEvs, hd, hP⟩ := frames_checkDiff w c s
  rw [hcd] at hd
  simp only at hd
  have hnew : newEvents s.trace s2.trace = dEvs ++ [Event.tofuResources c.tofu (.ok r)] ++ dels
      ++ [Event.tofuOutputs c.tofu (.ok op)] ++ [Event.tofuGenerateChecksum c.tofu (.ok cs)] := by
    rw [htr, hd]
    simp only [List.append_assoc, newEvents_append]
  have hD1 : ∀ res, Event.tofuResources c.tofu res ∉ dEvs := fun res hm => by
    have := hP _ hm
    simp [Event.isDiffStep] at this
  have hD2 : ∀ res, Event.tofuOutputs c.tofu res ∉ dEvs := fun res hm => by
    have := hP _ hm
    simp [Event.isDiffStep] at this
  refine ⟨r, op, fun res => ?_, fun res => ?_, ?_⟩
  · rw [hnew]
    rcases hdels with hdl | hdl <;> subst hdl <;>
      simp [hD1 res, eq_comm]
  · rw [hnew]
    rcases hdels with hdl | hdl <;> subst hdl <;>
      simp [hD2 res, eq_comm]
  · rw [hobs]
    simp only [decide_eq_true_eq]
    omega

theorem observe_exists_iff_witness :
    ∃ r op,
      (∀ res, Event.tofuResources sampleExternal.tofu res
        ∈ newEvents [] (Observe outputsWorld sampleExternal ⟨sampleWorkspace, []⟩).2.trace
          ↔ res = .ok r)
      ∧ (∀ res, Event.tofuOutputs sampleExternal.tofu res
        ∈ newEvents [] (Observe outputsWorld sampleExternal ⟨sampleWorkspace, []⟩).2.trace
          ↔ res = .ok op)
      ∧ (sampleObservation.ResourceExists = true ↔ r.length + op.length ≠ 0) :=
  observe_exists_iff outputsWorld sampleExternal ⟨sampleWorkspace, []⟩
    (Observe outputsWorld sampleExternal ⟨sampleWorkspace, []⟩).2 sampleObservation (by decide!)

/-- An `Update` that returns an error has not touched the managed resource: the status
is assigned only after the last call that can fail. -/
theorem update_error_keeps_resource (w : World) (c : External) (s s1 : St) (e : Err)
    (h : Update w c s = (.error e, s1)) : s1.cr = s.cr := by
  unfold Update at h
  simp only [bind_apply, getCr] at h
  have hk := (frames_wrapRun errOptions (frames_options w s.cr.ForProvider)) s
  rcases hopt : wrapRun errOptions (options w s.cr.ForProvider) s with ⟨r, sa⟩
  rw [hopt] at h hk
  cases r with
  | error e1 =>
    cases h
    exact hk.1
  | ok o =>
    simp only [ask_apply] at h
    cases hap : w.tofuApply sa.trace c.tofu (o ++ [TfOption.WithArgs s.cr.ForProvider.ApplyArgs]) with
    | some e1 =>
      rw [hap] at h
      simp only [orFail, fail_apply] at h
      cases h
      exact hk.1
    | none =>
      rw [hap] at h
      simp only [orFail, pure_apply] at h
      cases hop : w.tofuOutputs (sa.trace ++ [Event.tofuApply c.tofu
          (o ++ [TfOption.WithArgs s.cr.ForProvider.ApplyArgs]) none]) c.tofu with
      | error e1 =>
        rw [hop] at h
        simp only [getOrFail, fail_apply] at h
        cases h
        exact hk.1
      | ok op =>
        rw [hop] at h
        simp only [getOrFail, pure_apply, setAtProvider_apply, setAvailable_apply] at h
        cases h

/-! ### The garbage collector -/

theorem existsMap_fold_get (uids : List Str) (m : GoMap Bool) (k : Str) :
    (uids.foldl (fun m uid => m.set uid true) m).get k
      = if k ∈ uids then some true else m.get k := by
  induction uids generalizing m with
  | nil => simp
  | cons u rest ih =>
    simp only [List.foldl, ih, get_set, List.mem_cons]
    by_cases h1 : k ∈ rest
    · simp [h1]
    · by_cases h2 : k = u
      · simp [h2]
      · simp [h1, h2]

/-- The map `exists` holds exactly the listed UIDs. -/
theorem existsMap_get (uids : List Str) (k : Str) :
    ((existsMap uids).get k).getD false = decide (k ∈ uids) := by
  unfold existsMap
  rw [existsMap_fold_get]
  by_cases h : k ∈ uids
  · simp [h]
  · simp [h, GoMap.get]

/-- The loop over the directory entries when every removal succeeds. -/
theorem collect_loop_ok (w : World) (gc : GarbageCollector) (uids : List Str)
    (hrm : ∀ t p, w.removeAll t p = none) (fis : List FileInfo) (st : CollectState) :
    fis.foldl (collectStep w gc (existsMap uids)) st
      = { failed := st.failed,
          trace := st.trace ++ (fis.filter (fun fi => fi.IsDir && isUUID w fi.Name
              && !decide (fi.Name ∈ uids))).map
            (fun fi => Event.removeAll (join [gc.parentDir, fi.Name]) none) } := by
  induction fis generalizing st with
  | nil => simp
  | cons fi rest ih =>
    simp only [List.foldl]
    rw [ih]
    unfold collectStep
    rw [existsMap_get]
    cases h1 : fi.IsDir <;> cases h2 : isUUID w fi.Name <;> by_cases h3 : fi.Name ∈ uids <;>
      simp [h1, h2, h3, hrm, List.filter]

/-- C8. A collection pass in which listing the live Workspaces, reading the root and
every removal succeed returns no error, and its removals are exactly, in the order of
the listing, the entries of the root that are directories, whose name parses as a UUID
and whose name is not the UID of a listed Workspace; so a path is removed if and only
if it is the path of such an entry, and nothing else of the root is touched. -/
theorem collect_removes_exactly_orphans (w : World) (gc : GarbageCollector) (namespaced : Bool)
    (t : Trace) (uids : List Str) (fis : List FileInfo)
    (hlist : w.listWorkspaces t namespaced = .ok uids)
    (hread : w.readDir (t ++ [Event.listWorkspaces namespaced (.ok uids)]) gc.parentDir = .ok fis)
    (hrm : ∀ t1 p, w.removeAll t1 p = none) :
    (collect w gc namespaced t).1 = none
    ∧ newEvents t (collect w gc namespaced t).2
        = [Event.listWorkspaces namespaced (.ok uids), Event.readDir gc.parentDir (.ok fis)]
          ++ (fis.filter (fun fi => fi.IsDir && isUUID w fi.Name && !decide (fi.Name ∈ uids))).map
              (fun fi => Event.removeAll (join [gc.parentDir, fi.Name]) none)
    ∧ (∀ p res, Event.removeAll p res ∈ newEvents t (collect w gc namespaced t).2 ↔
        (res = none ∧ ∃ fi ∈ fis, fi.IsDir = true ∧ isUUID w fi.Name = true ∧ fi.Name ∉ uids
          ∧ p = join [gc.parentDir, fi.Name])) := by
  have hc : collect w gc namespaced t
      = (none, t ++ [Event.listWorkspaces namespaced (.ok uids)]
          ++ [Event.readDir gc.parentDir (.ok fis)]
          ++ (fis.filter (fun fi => fi.IsDir && isUUID w fi.Name && !decide (fi.Name ∈ uids))).map
              (fun fi => Event.removeAll (join [gc.parentDir, fi.Name]) none)) := by
    unfold collect
    simp only [hlist, hread, collect_loop_ok w gc uids hrm, List.length_nil, gt_iff_lt,
      lt_self_iff_false, if_false]
  have hn : newEvents t (collect w gc namespaced t).2
      = [Event.listWorkspaces namespaced (.ok uids), Event.readDir gc.parentDir (.ok fis)]
        ++ (fis.filter (fun fi => fi.IsDir && isUUID w fi.Name && !decide (fi.Name ∈ uids))).map
            (fun fi => Event.removeAll (join [gc.parentDir, fi.Name]) none) := by
    rw [hc]
    simp only [List.append_assoc, newEvents_append]
    rfl
  refine ⟨by rw [hc], hn, fun p res => ?_⟩
  rw [hn]
  simp only [List.mem_append, List.mem_cons, List.mem_singleton, List.not_mem_nil, or_false,
    List.mem_map, List.mem_filter, Bool.and_eq_true, Bool.not_eq_true', decide_eq_false_iff_not,
    false_or, reduceCtorEq, Event.removeAll.injEq]
  constructor
  · rintro ⟨fi, ⟨hfi, ⟨h1, h2⟩, h3⟩, hp, hres⟩
    exact ⟨hres.symm, fi, hfi, h1, h2, h3, hp.symm⟩
  · rintro ⟨hres, fi, hfi, h1, h2, h3, hp⟩
    exact ⟨fi, ⟨hfi, ⟨h1, h2⟩, h3⟩, hp.symm, hres.symm⟩

theorem collect_removes_exactly_orphans_witness :
    (collect calmWorld sampleCollector true []).1 = none
    ∧ newEvents [] (collect calmWorld sampleCollector true []).2
        = [Event.listWorkspaces true (.ok [uuidA]),
           Event.readDir "/tofu".toList (.ok [⟨uuidA, true⟩, ⟨uuidB, true⟩,
             ⟨"not-a-uuid".toList, true⟩, ⟨"a-file".toList, false⟩]),
           Event.removeAll ("/tofu/".toList ++ uuidB) none] := by
  have h := collect_removes_exactly_orphans calmWorld sampleCollector true [] [uuidA]
    [⟨uuidA, true⟩, ⟨uuidB, true⟩, ⟨"not-a-uuid".toList, true⟩, ⟨"a-file".toList, false⟩]
    rfl rfl (fun _ _ => rfl)
  refine ⟨h.1, ?_⟩
  rw [h.2.1]
  decide!

/-! ### `options` -/

/-- C9 fails on the code: for the literal variable `a = 2` and a var-file defining
`a = 1`, `options` returns the literal first and the var-file after it, so under the
last-wins ordering of the tool the value of the file is the one in force. -/
theorem options_literal_before_var_file :
    (options calmWorld varsAndFileParameters ⟨sampleWorkspace, []⟩).1
      = .ok [TfOption.WithVar "a".toList "2".toList,
             TfOption.WithVarFile "a = 1".toList TfFormat.HCL] := by
  decide!

/-! ### The credentials `Connect` writes -/

theorem bind_ok_inv {α β : Type} {m : Run α} {f : α → Run β} {s s2 : St} {b : β}
    (h : (m >>= f) s = (.ok b, s2)) : ∃ a s1, m s = (.ok a, s1) ∧ f a s1 = (.ok b, s2) := by
  rw [bind_apply] at h
  rcases hm : m s with ⟨r, s1⟩
  rw [hm] at h
  cases r with
  | error e => cases h
  | ok a => exact ⟨a, s1, rfl, h⟩

theorem frames_extends {P : Event → Prop} {α : Type} {m : Run α} (hm : Frames P m)
    {s s1 : St} {r : Except Err α} (h : m s = (r, s1)) : s.trace <+: s1.trace := by
  obtain ⟨-, evs, htr, -⟩ := hm s
  rw [h] at htr
  exact ⟨evs, htr.symm⟩

theorem mem_newEvents {t t0 t2 m : Trace} {e : Event} (h1 : t <+: t0)
    (h2 : t0 ++ m <+: t2) (he : e ∈ m) : e ∈ newEvents t t2 := by
  obtain ⟨a, rfl⟩ := h1
  obtain ⟨b, rfl⟩ := h2
  simp only [List.append_assoc, newEvents_append, List.mem_append]
  exact Or.inr (Or.inl he)

/-- Every element of a loop that completed had its body run, and completed, at some point
of the loop. -/
theorem loop_ok_mem {P : Event → Prop} {α β : Type} {body : β → α → Run β}
    (hb : ∀ acc a, Frames P (body acc a)) (l : List α) (acc : β) (s s2 : St) (b : β)
    (h : loop body acc l s = (.ok b, s2)) (a : α) (ha : a ∈ l) :
    ∃ acc0 s0 acc1 s1, body acc0 a s0 = (.ok acc1, s1)
      ∧ s.trace <+: s0.trace ∧ s1.trace <+: s2.trace := by
  induction l generalizing acc s with
  | nil => cases ha
  | cons x xs ih =>
    have h1 : (body acc x >>= fun acc1 => loop body acc1 xs) s = (.ok b, s2) := h
    obtain ⟨acc1, s1, hx, hrest⟩ := bind_ok_inv h1
    rcases List.mem_cons.mp ha with hax | hax
    · subst hax
      exact ⟨acc, s, acc1, s1, hx, List.prefix_refl _,
        frames_extends (frames_loop hb acc1 xs) hrest⟩
    · obtain ⟨acc0, s0, acc2, s3, hbody, hp1, hp2⟩ := ih acc1 s1 hrest hax
      exact ⟨acc0, s0, acc2, s3, hbody, (frames_extends (hb acc x) hx).trans hp1, hp2⟩

/-- A completed body of the second credential loop has written the credential to
`Join(dir, Base(Filename))`. -/
theorem writeCredential_ok (w : World) (dir : Str) (cd : ProviderCredentials) (s s1 : St)
    (u u1 : Unit) (h : writeCredential w dir u cd s = (.ok u1, s1)) :
    ∃ data, w.extractCredentials s.trace cd = .ok data
      ∧ s1.trace = s.trace ++ [Event.extractCredentials cd (.ok data),
        Event.writeFile (clean (join [dir, base cd.Filename])) data none] := by
  unfold writeCredential at h
  simp only [bind_apply, ask_apply] at h
  cases hx : w.extractCredentials s.trace cd with
  | error e =>
    rw [hx] at h
    simp only [getOrFail, fail_apply] at h
    cases h
  | ok data =>
    rw [hx] at h
    simp only [getOrFail, pure_apply] at h
    cases hw : w.writeFile (s.trace ++ [Event.extractCredentials cd (.ok data)])
        (clean (join [dir, base cd.Filename])) data with
    | some e =>
      rw [hw] at h
      simp only [orFail, fail_apply] at h
      cases h
    | none =>
      rw [hw] at h
      simp only [orFail, pure_apply] at h
      cases h
      exact ⟨data, rfl, by simp⟩

/-- A completed body of the first credential loop, for a credential with the reserved
filename, has extracted it, made the directory `/tmp/<dir>`, exported it and written
the extracted bytes there. -/
theorem writeGitCredential_ok (w : World) (dir : Str) (cd : ProviderCredentials) (s s1 : St)
    (u u1 : Unit) (hname : cd.Filename = gitCredentialsFilename)
    (h : writeGitCredential w dir u cd s = (.ok u1, s1)) :
    ∃ data, w.extractCredentials s.trace cd = .ok data
      ∧ s1.trace = s.trace ++ [Event.extractCredentials cd (.ok data),
        Event.mkdirAll (clean (join ["/tmp".toList, dir])) none,
        Event.setenv "GIT_CRED_DIR".toList (clean (join ["/tmp".toList, dir])) none,
        Event.writeFile (clean (join [clean (join ["/tmp".toList, dir]), base cd.Filename]))
          data none] := by
  unfold writeGitCredential at h
  simp only [hname, ne_eq, not_true_eq_false, if_false, bind_apply, ask_apply] at h
  cases hx : w.extractCredentials s.trace cd with
  | error e =>
    rw [hx] at h
    simp only [getOrFail, fail_apply] at h
    cases h
  | ok data =>
    rw [hx] at h
    simp only [getOrFail, pure_apply] at h
    cases hm : w.mkdirAll (s.trace ++ [Event.extractCredentials cd (.ok data)])
        (clean (join ["/tmp".toList, dir])) with
    | some e =>
      rw [hm] at h
      simp only [orFail, fail_apply] at h
      cases h
    | none =>
      rw [hm] at h
      simp only [orFail, pure_apply] at h
      cases hs : w.setenv (s.trace ++ [Event.extractCredentials cd (.ok data)]
          ++ [Event.mkdirAll (clean (join ["/tmp".toList, dir])) none]) "GIT_CRED_DIR".toList
          (clean (join ["/tmp".toList, dir])) with
      | some e =>
        rw [hs] at h
        simp only [orFail, fail_apply] at h
        cases h
      | none =>
        rw [hs] at h
        simp only [orFail, pure_apply] at h
        cases hw : w.writeFile (s.trace ++ [Event.extractCredentials cd (.ok data)]
            ++ [Event.mkdirAll (clean (join ["/tmp".toList, dir])) none]
            ++ [Event.setenv "GIT_CRED_DIR".toList (clean (join ["/tmp".toList, dir])) none])
            (clean (join [clean (join ["/tmp".toList, dir]), base gitCredentialsFilename]))
            data with
        | some e =>
          rw [hw] at h
          simp only [orFail, fail_apply] at h
          cases h
        | none =>
          rw [hw] at h
          simp only [orFail, pure_apply] at h
          cases h
          exact ⟨data, rfl, by simp [hname]⟩

theorem defaultPluginCache_credentials (pc : ProviderConfigSpec) :
    (defaultPluginCache pc).Credentials = pc.Credentials := by
  unfold defaultPluginCache
  cases pc.PluginCache <;> rfl

/-- What a completed setup of `Connect` has done with the credentials: both loops over
the credentials of the ProviderConfig completed, the first for the directory
`<tfDir>/<UID>`, the second for the effective working directory. -/
theorem connectSetup_ok_inv (w : World) (s s1 : St) (su : ConnectSetup)
    (h : connectSetup w s = (.ok su, s1)) :
    ∃ sa sb sc sd,
      s.trace <+: sa.trace
      ∧ loop (writeGitCredential w (join [w.tfDir, s.cr.UID])) () su.pc.Credentials sa = (.ok (), sb)
      ∧ sb.trace <+: sc.trace
      ∧ loop (writeCredential w su.dir) () su.pc.Credentials sc = (.ok (), sd)
      ∧ sd.trace <+: s1.trace
      ∧ su.dir = entrypointDir (join [w.tfDir, s.cr.UID]) s.cr.ForProvider.Entrypoint := by
  unfold connectSetup at h
  obtain ⟨cr, s0, h0, h⟩ := bind_ok_inv h
  cases h0
  obtain ⟨r1, s1a, h1, h⟩ := bind_ok_inv h
  have p1 := frames_extends (frames_ask (P := fun _ => True) _ _ (fun _ => trivial)) h1
  obtain ⟨_, s1b, h2, h⟩ := bind_ok_inv h
  have p2 := frames_extends (frames_orFail (P := fun _ => True) _ _) h2
  obtain ⟨r3, s1c, h3, h⟩ := bind_ok_inv h
  have p3 := frames_extends (frames_ask (P := fun _ => True) _ _ (fun _ => trivial)) h3
  obtain ⟨_, s1d, h4, h⟩ := bind_ok_inv h
  have p4 := frames_extends (frames_orFail (P := fun _ => True) _ _) h4
  obtain ⟨r5, s1e, h5, h⟩ := bind_ok_inv h
  have p5 := frames_extends (frames_ask (P := fun _ => True) _ _ (fun _ => trivial)) h5
  obtain ⟨pc, sa, h6, h⟩ := bind_ok_inv h
  have p6 := frames_extends (frames_getOrFail (P := fun _ => True) _ _) h6
  obtain ⟨_, sb, h7, h⟩ := bind_ok_inv h
  obtain ⟨_, sc, h8, h⟩ := bind_ok_inv h
  have p8 := frames_extends (frames_materializeModule w _ _) h8
  obtain ⟨_, sd, h9, h⟩ := bind_ok_inv h
  obtain ⟨_, se, h10, h⟩ := bind_ok_inv h
  have p10 := frames_extends (frames_writeOptional w _ _ _) h10
  obtain ⟨_, sf, h11, h⟩ := bind_ok_inv h
  have p11 := frames_extends (frames_writeOptional w _ _ _) h11
  obtain ⟨envs, sg, h12, h⟩ := bind_ok_inv h
  have p12 := frames_extends (frames_loop (frames_resolveEnv w) _ _) h12
  cases h
  refine ⟨sa, sb, sc, sd, ?_, ?_, p8, ?_, ?_, rfl⟩
  · exact p1.trans (p2.trans (p3.trans (p4.trans (p5.trans p6))))
  · simpa only [defaultPluginCache_credentials] using h7
  · simpa only [defaultPluginCache_credentials] using h9
  · exact p10.trans (p11.trans p12)

/-- C10 as stated fails: the ProviderConfig of `calmWorld` has a credential with the
reserved filename `.git-credentials`, and `Connect` writes it to the transient
directory and also into the working directory of the resource. -/
theorem git_credentials_also_in_working_directory :
    sampleGitCredential ∈ sampleProviderConfig.Credentials
    ∧ sampleGitCredential.Filename = gitCredentialsFilename
    ∧ Event.writeFile "/tmp/tofu/no-you-id/.git-credentials".toList "secret".toList none
        ∈ (Connect calmWorld ⟨sampleWorkspace, []⟩).2.trace
    ∧ Event.writeFile "/tofu/no-you-id/.git-credentials".toList "secret".toList none
        ∈ (Connect calmWorld ⟨sampleWorkspace, []⟩).2.trace := by
  decide!

/-- C10, amended. When the setup of `Connect` completes, every credential of the
ProviderConfig, whatever its filename, has been written into the (possibly
entrypoint-adjusted) working directory: at some point `t` of the run the credential was
extracted, with answer `data`, and the next interaction wrote exactly `data` to
`Join(dir, Base(Filename))`.  A credential with the reserved filename `.git-credentials`
has in addition been written to the transient directory `/tmp/<tfDir>/<UID>`: at some
point it was extracted, the directory was made and exported as `GIT_CRED_DIR`, and the
extracted bytes were written to `/tmp/<tfDir>/<UID>/.git-credentials`. -/
theorem connect_writes_every_credential (w : World) (s s1 : St) (su : ConnectSetup)
    (h : connectSetup w s = (.ok su, s1)) (cd : ProviderCredentials)
    (hcd : cd ∈ su.pc.Credentials) :
    su.dir = entrypointDir (join [w.tfDir, s.cr.UID]) s.cr.ForProvider.Entrypoint
    ∧ (∃ t data, w.extractCredentials t cd = .ok data ∧ s.trace <+: t
        ∧ t ++ [Event.extractCredentials cd (.ok data),
            Event.writeFile (clean (join [su.dir, base cd.Filename])) data none]
          <+: s1.trace)
    ∧ (cd.Filename = gitCredentialsFilename →
        ∃ t data, w.extractCredentials t cd = .ok data ∧ s.trace <+: t
          ∧ t ++ [Event.extractCredentials cd (.ok data),
              Event.mkdirAll (clean (join ["/tmp".toList, join [w.tfDir, s.cr.UID]])) none,
              Event.setenv "GIT_CRED_DIR".toList
                (clean (join ["/tmp".toList, join [w.tfDir, s.cr.UID]])) none,
              Event.writeFile (clean (join [clean (join ["/tmp".toList,
                join [w.tfDir, s.cr.UID]]), gitCredentialsFilename])) data none]
            <+: s1.trace) := by
  obtain ⟨sa, sb, sc, sd, pa, hgit, pbc, hcred, pd, hdir⟩ := connectSetup_ok_inv w s s1 su h
  have pab := frames_extends (frames_loop (frames_writeGitCredential w _) _ _) hgit
  have pcd := frames_extends (frames_loop (frames_writeCredential w _) _ _) hcred
  refine ⟨hdir, ?_, fun hname => ?_⟩
  · obtain ⟨u0, s0, u1, s2, hbody, q1, q2⟩ :=
      loop_ok_mem (frames_writeCredential w su.dir) _ _ _ _ _ hcred cd hcd
    obtain ⟨data, hx, htr⟩ := writeCredential_ok w su.dir cd s0 s2 u0 u1 hbody
    refine ⟨s0.trace, data, hx, pa.trans (pab.trans (pbc.trans q1)), ?_⟩
    rw [← htr]
    exact q2.trans pd
  · obtain ⟨u0, s0, u1, s2, hbody, q1, q2⟩ :=
      loop_ok_mem (frames_writeGitCredential w _) _ _ _ _ _ hgit cd hcd
    obtain ⟨data, hx, htr⟩ := writeGitCredential_ok w _ cd s0 s2 u0 u1 hname hbody
    refine ⟨s0.trace, data, hx, pa.trans q1, ?_⟩
    have hb : base cd.Filename = gitCredentialsFilename := by
      rw [hname]
      decide
    rw [hb] at htr
    rw [← htr]
    exact q2.trans (pbc.trans (pcd.trans pd))

theorem connect_writes_every_credential_witness :
    ∃ t data, calmWorld.extractCredentials t sampleGitCredential = .ok data ∧ [] <+: t
      ∧ t ++ [Event.extractCredentials sampleGitCredential (.ok data),
          Event.writeFile (clean (join [sampleSetup.dir, base sampleGitCredential.Filename]))
            data none]
        <+: (connectSetup calmWorld ⟨sampleWorkspace, []⟩).2.trace :=
  (connect_writes_every_credential calmWorld ⟨sampleWorkspace, []⟩
    (connectSetup calmWorld ⟨sampleWorkspace, []⟩).2 sampleSetup (by decide!)
    sampleGitCredential (by decide!)).2.1

/-! ### The entrypoint after sanitisation, and `Init` -/

/-- C11. The sanitised subpath of the entrypoint `....//` is `../`, which contains `../`:
the single left-to-right pass of `strings.ReplaceAll` removes the occurrence at offset 2
and the bytes around it join into a new one.  The same happens for `..././`. -/
theorem sanitised_entrypoint_keeps_parent_step :
    replaceAll "....//".toList "../".toList [] = "../".toList
    ∧ "../".toList <:+: replaceAll "....//".toList "../".toList []
    ∧ "../".toList <:+: replaceAll "..././".toList "../".toList []
    ∧ "../".toList <:+: replaceAll "a/....//b".toList "../".toList [] := by
  decide

theorem connectInit_apply (w : World) (su : ConnectSetup) (cr : Workspace) (tofu : Harness)
    (s : St) :
    connectInit w su cr tofu s =
      match w.tofuInit s.trace tofu (initOptions su cr) with
      | some e => (.error (Err.wrap e errInit),
          { s with trace := s.trace ++ [Event.tofuInit tofu (initOptions su cr) (some e)] })
      | none =>
        (.ok { client := { tofu := tofu, logger := false },
               err := wrapErr (w.tofuWorkspace
                 (s.trace ++ [Event.tofuInit tofu (initOptions su cr) none]) tofu
                 cr.ExternalName) errWorkspace },
         { s with trace := s.trace ++ [Event.tofuInit tofu (initOptions su cr) none,
             Event.tofuWorkspace tofu cr.ExternalName (w.tofuWorkspace
               (s.trace ++ [Event.tofuInit tofu (initOptions su cr) none]) tofu
               cr.ExternalName)] }) := by
  unfold connectInit
  simp only [bind_apply, ask_apply]
  cases h : w.tofuInit s.trace tofu (initOptions su cr) <;>
    simp [orFail, pure_apply, fail_apply, bind_apply, ask_apply]

theorem getOrFail_ok_inv {α : Type} {tag : Str} {r : Except Err α} {a : α} {s s1 : St}
    (h : getOrFail tag r s = (.ok a, s1)) : r = .ok a ∧ s1 = s := by
  cases r with
  | error e => cases h
  | ok b =>
    simp only [getOrFail, pure_apply, Prod.mk.injEq, Except.ok.injEq] at h
    exact ⟨by rw [h.1], h.2.symm⟩

theorem orFail_ok_inv {tag : Str} {err : Option Err} {s s1 : St}
    (h : orFail tag err s = (.ok (), s1)) : err = none ∧ s1 = s := by
  cases err with
  | some e => cases h
  | none =>
    simp only [orFail, pure_apply, Prod.mk.injEq, true_and] at h
    exact ⟨rfl, h.symm⟩

theorem ask_inv {β : Type} {q : Trace → β} {ev : β → Event} {s s1 : St} {r : β}
    (h : ask q ev s = (.ok r, s1)) :
    r = q s.trace ∧ s1 = { s with trace := s.trace ++ [ev (q s.trace)] } := by
  rw [ask_apply] at h
  cases h
  exact ⟨rfl, rfl⟩

/-- When the setup of `Connect` completes, the ProviderConfig it used is the one the
resolution answered, with the plugin cache defaulted. -/
theorem connectSetup_ok_pc (w : World) (s s1 : St) (su : ConnectSetup)
    (h : connectSetup w s = (.ok su, s1)) :
    ∃ pc, Event.resolveProviderConfig (.ok pc) ∈ newEvents s.trace s1.trace
      ∧ su.pc = defaultPluginCache pc := by
  unfold connectSetup at h
  obtain ⟨cr, s0, h0, h⟩ := bind_ok_inv h
  cases h0
  obtain ⟨r1, s1a, h1, h⟩ := bind_ok_inv h
  have p1 := frames_extends (frames_ask (P := fun _ => True) _ _ (fun _ => trivial)) h1
  obtain ⟨_, s1b, h2, h⟩ := bind_ok_inv h
  have p2 := frames_extends (frames_orFail (P := fun _ => True) _ _) h2
  obtain ⟨r3, s1c, h3, h⟩ := bind_ok_inv h
  have p3 := frames_extends (frames_ask (P := fun _ => True) _ _ (fun _ => trivial)) h3
  obtain ⟨_, s1d, h4, h⟩ := bind_ok_inv h
  have p4 := frames_extends (frames_orFail (P := fun _ => True) _ _) h4
  obtain ⟨r5, s1e, h5, h⟩ := bind_ok_inv h
  obtain ⟨pc, sa, h6, h⟩ := bind_ok_inv h
  obtain ⟨_, sb, h7, h⟩ := bind_ok_inv h
  have p7 := frames_extends (frames_loop (frames_writeGitCredential w _) _ _) h7
  obtain ⟨_, sc, h8, h⟩ := bind_ok_inv h
  have p8 := frames_extends (frames_materializeModule w _ _) h8
  obtain ⟨_, sd, h9, h⟩ := bind_ok_inv h
  have p9 := frames_extends (frames_loop (frames_writeCredential w _) _ _) h9
  obtain ⟨_, se, h10, h⟩ := bind_ok_inv h
  have p10 := frames_extends (frames_writeOptional w _ _ _) h10
  obtain ⟨_, sf, h11, h⟩ := bind_ok_inv h
  have p11 := frames_extends (frames_writeOptional w _ _ _) h11
  obtain ⟨envs, sg, h12, h⟩ := bind_ok_inv h
  have p12 := frames_extends (frames_loop (frames_resolveEnv w) _ _) h12
  cases h
  obtain ⟨hr5, hs1e⟩ := ask_inv h5
  cases hr5
  obtain ⟨hpc, hsa⟩ := getOrFail_ok_inv h6
  refine ⟨pc, ?_, rfl⟩
  refine @mem_newEvents s.trace s1d.trace _ [Event.resolveProviderConfig (.ok pc)] _
    (p1.trans (p2.trans (p3.trans p4))) ?_ (List.mem_singleton.mpr rfl)
  have hq : s1d.trace ++ [Event.resolveProviderConfig (.ok pc)] = sa.trace := by
    rw [hsa, hs1e, hpc]
  rw [hq]
  exact p7.trans (p8.trans (p9.trans (p10.trans (p11.trans p12))))

/-- C12. When the observed checksum is empty, or the harness generates a checksum
different from it (the earlier steps of `Connect` having succeeded), `Connect` calls the
harness `Init` exactly once.  The init options are, first and only if the ProviderConfig
that was resolved has a backend file, `-backend-config=` followed by
`Join(dir, "crossplane.remote.tfbackend")` for the working directory `dir`, then the
InitArgs of the Workspace.  If `Init` answers nil, the next and last interaction is the
selection of the workspace named by the external name; if `Init` answers an error `e`,
`Init` is the last interaction: no workspace is selected and `Connect` returns `e`
wrapped with `cannot initialize tofu configuration`. -/
theorem connect_initialises_once (w : World) (s s1 : St) (su : ConnectSetup)
    (hsetup : connectSetup w s = (.ok su, s1))
    (hsum : s.cr.Status.AtProvider.Checksum = [] ∨
      ∃ cs, w.tofuGenerateChecksum s1.trace (newHarness su s.cr) = .ok cs
        ∧ s.cr.Status.AtProvider.Checksum ≠ cs) :
    initOptions su s.cr
        = (match su.pc.BackendFile with
            | some _ => [InitOption.WithInitArgs
                ["-backend-config=".toList ++ join [su.dir, tfBackendFile]]]
            | none => [])
          ++ [InitOption.WithInitArgs s.cr.ForProvider.InitArgs]
    ∧ (∃ pc, Event.resolveProviderConfig (.ok pc) ∈ newEvents s.trace s1.trace
        ∧ su.pc.BackendFile = pc.BackendFile)
    ∧ ∃ pre res,
        (∀ e ∈ pre, e.isTofu = false
          ∨ ∃ r, e = Event.tofuGenerateChecksum (newHarness su s.cr) r)
        ∧ (newEvents s.trace (Connect w s).2.trace).filter (fun e => e.isInit)
            = [Event.tofuInit (newHarness su s.cr) (initOptions su s.cr) res]
        ∧ (res = none → ∃ sel,
            newEvents s.trace (Connect w s).2.trace
              = pre ++ [Event.tofuInit (newHarness su s.cr) (initOptions su s.cr) none,
                  Event.tofuWorkspace (newHarness su s.cr) s.cr.ExternalName sel]
            ∧ (Connect w s).1
              = .ok { client := { tofu := newHarness su s.cr, logger := false },
                      err := wrapErr sel errWorkspace })
        ∧ (∀ e, res = some e →
            newEvents s.trace (Connect w s).2.trace
              = pre ++ [Event.tofuInit (newHarness su s.cr) (initOptions su s.cr) (some e)]
            ∧ (Connect w s).1 = .error (Err.wrap e errInit)) := by
  obtain ⟨hcr, evs0, htr, hP⟩ := frames_connectSetup w s
  rw [hsetup] at hcr htr
  obtain ⟨c1, t1⟩ := s1
  simp only at hcr htr
  subst hcr htr
  have hC : Connect w s = connectTofu w su ⟨s.cr, s.trace ++ evs0⟩ := by
    unfold Connect
    exact bind_ok hsetup
  refine ⟨?_, ?_, ?_⟩
  · unfold initOptions
    cases su.pc.BackendFile <;> simp
  · obtain ⟨pc, hmem, hpc⟩ := connectSetup_ok_pc w s _ su hsetup
    refine ⟨pc, hmem, ?_⟩
    rw [hpc]
    unfold defaultPluginCache
    split <;> rfl
  · -- the state in which `Init` is called, and the interactions before it
    have key : ∃ pre, (∀ e ∈ pre, e.isTofu = false
          ∨ ∃ r, e = Event.tofuGenerateChecksum (newHarness su s.cr) r)
        ∧ Connect w s = connectInit w su s.cr (newHarness su s.cr)
            ⟨s.cr, s.trace ++ pre⟩ := by
      by_cases hemp : s.cr.Status.AtProvider.Checksum = []
      · refine ⟨evs0, fun e he => Or.inl (hP e he), ?_⟩
        rw [hC]
        unfold connectTofu
        simp only [bind_apply, getCr, hemp, ne_eq, not_true_eq_false, if_false]
      · rcases hsum with h0 | ⟨cs, hcs, hne⟩
        · exact absurd h0 hemp
        refine ⟨evs0 ++ [Event.tofuGenerateChecksum (newHarness su s.cr) (.ok cs)], ?_, ?_⟩
        · intro e he
          rcases List.mem_append.mp he with h | h
          · exact Or.inl (hP e h)
          · exact Or.inr ⟨_, List.mem_singleton.mp h⟩
        · rw [hC]
          unfold connectTofu
          simp only [bind_apply, getCr, ne_eq, hemp, not_false_eq_true, if_true,
            ask_apply, hcs, getOrFail, pure_apply, hne, if_false, List.append_assoc]
    obtain ⟨pre, hpre, hK⟩ := key
    have hnoinit : pre.filter (fun e => e.isInit) = [] := by
      rw [List.filter_eq_nil_iff]
      intro e he
      rcases hpre e he with h | ⟨r, rfl⟩
      · simp [isTofu_false_isInit h]
      · simp [Event.isInit]
    rw [hK, connectInit_apply]
    refine ⟨pre, w.tofuInit (s.trace ++ pre) (newHarness su s.cr) (initOptions su s.cr),
      hpre, ?_, ?_, ?_⟩
    · cases hres : w.tofuInit (s.trace ++ pre) (newHarness su s.cr) (initOptions su s.cr) <;>
        simp only [List.append_assoc, newEvents_append, List.filter_append, hnoinit,
          List.nil_append] <;>
        rfl
    · intro hres
      rw [hres]
      exact ⟨_, by simp [newEvents_append], rfl⟩
    · intro e hres
      rw [hres]
      exact ⟨by simp [newEvents_append], rfl⟩

theorem connect_initialises_once_witness :
    initOptions backendSetup freshWorkspace
      = [InitOption.WithInitArgs
          ["-backend-config=/tofu/no-you-id/crossplane.remote.tfbackend".toList],
         InitOption.WithInitArgs ["-upgrade=true".toList]] :=
  (connect_initialises_once backendWorld ⟨freshWorkspace, []⟩
    (connectSetup backendWorld ⟨freshWorkspace, []⟩).2 backendSetup
    (by decide!) (Or.inl rfl)).1.trans (by decide!)

/-! ### The two maps built from the outputs -/

theorem foldl_set_get_keep (f : Output → Option Bytes) (op : List Output) (m : GoMap Bytes)
    (k : Str) (h : ∀ o ∈ op, o.Name = k → f o = none) :
    (op.foldl (fun m o => match f o with
      | some v => m.set o.Name v
      | none => m) m).get k = m.get k := by
  induction op generalizing m with
  | nil => rfl
  | cons o rest ih =>
    simp only [List.foldl]
    rw [ih _ (fun o1 ho1 => h o1 (List.mem_cons_of_mem _ ho1))]
    by_cases hk : o.Name = k
    · rw [h o (List.mem_cons_self _ _) hk]
    · cases f o with
      | none => rfl
      | some v => simp only [get_set, if_neg (fun hh : k = o.Name => hk hh.symm)]

theorem foldl_set_get_last (f : Output → Option Bytes) (pre post : List Output) (o : Output)
    (v : Bytes) (m : GoMap Bytes) (hv : f o = some v)
    (hlast : ∀ o1 ∈ post, o1.Name = o.Name → f o1 = none) :
    ((pre ++ o :: post).foldl (fun m o => match f o with
      | some v => m.set o.Name v
      | none => m) m).get o.Name = some v := by
  rw [List.foldl_append, List.foldl_cons, foldl_set_get_keep f post _ o.Name hlast, hv]
  simp only [get_set, if_true]

theorem foldl_set_get_source (f : Output → Option Bytes) (op : List Output) (m : GoMap Bytes)
    (k : Str) (v : Bytes)
    (h : (op.foldl (fun m o => match f o with
      | some v => m.set o.Name v
      | none => m) m).get k = some v) :
    m.get k = some v ∨ ∃ o ∈ op, o.Name = k ∧ f o = some v := by
  induction op generalizing m with
  | nil => exact Or.inl h
  | cons o rest ih =>
    simp only [List.foldl] at h
    rcases ih _ h with h1 | ⟨o1, ho1, hn, hf⟩
    · cases hfo : f o with
      | none =>
        rw [hfo] at h1
        exact Or.inl h1
      | some v1 =>
        rw [hfo] at h1
        simp only [get_set] at h1
        by_cases hk : k = o.Name
        · rw [if_pos hk] at h1
          exact Or.inr ⟨o, List.mem_cons_self _ _, hk.symm, by rw [hfo, h1]⟩
        · rw [if_neg hk] at h1
          exact Or.inl h1
    · exact Or.inr ⟨o1, List.mem_cons_of_mem _ ho1, hn, hf⟩

theorem foldl_set_get_present (f : Output → Option Bytes) (op : List Output) (m : GoMap Bytes)
    (k : Str) (h : m.get k ≠ none ∨ ∃ o ∈ op, o.Name = k ∧ f o ≠ none) :
    (op.foldl (fun m o => match f o with
      | some v => m.set o.Name v
      | none => m) m).get k ≠ none := by
  induction op generalizing m with
  | nil =>
    rcases h with h | ⟨o, ho, _⟩
    · exact h
    · cases ho
  | cons o rest ih =>
    simp only [List.foldl]
    apply ih
    rcases h with h | ⟨o1, ho1, hn, hf⟩
    · left
      cases hfo : f o with
      | none => exact h
      | some v =>
        simp only [get_set]
        split
        · simp
        · exact h
    · rcases List.mem_cons.mp ho1 with rfl | hr
      · left
        cases hfo : f o1 with
        | none => exact absurd hfo hf
        | some v => simp [get_set, hn]
      · exact Or.inr ⟨o1, hr, hn, hf⟩

/-- The loop of `op2cd` stores, for each output, its string value or its JSON encoding. -/
theorem op2cd_eq_foldl (op : List Output) :
    op2cd op = op.foldl (fun (m : GoMap Bytes) o =>
      match (if o.Typ = OutputType.OutputTypeString then some o.StringValue
             else o.JSONValue.toOption) with
      | some v => m.set o.Name v
      | none => m) [] := by
  unfold op2cd
  congr 1
  funext cd o
  by_cases ht : o.Typ = OutputType.OutputTypeString
  · simp only [if_pos ht]
  · simp only [if_neg ht]
    cases o.JSONValue <;> rfl

/-- The loop of `generateWorkspaceObservation` stores the JSON encoding of each
non-sensitive output. -/
theorem observation_eq_foldl (op : List Output) :
    (generateWorkspaceObservation op).Outputs = op.foldl (fun (m : GoMap Bytes) o =>
      match (if o.Sensitive = true then none else o.JSONValue.toOption) with
      | some v => m.set o.Name v
      | none => m) [] := by
  unfold generateWorkspaceObservation
  simp only
  congr 1
  funext m o
  cases hs : o.Sensitive
  · simp only [Bool.not_false, if_true, Bool.false_eq_true, if_false]
    cases o.JSONValue <;> rfl
  · simp only [Bool.not_true, Bool.false_eq_true, if_false, if_true]

/-- C13 as stated fails: two non-sensitive outputs carry the name `a`, both encode, and
the observed-status map holds the encoding of the second under `a`, not that of the
first. -/
theorem observation_entry_overwritten :
    firstNumberOutput ∈ [firstNumberOutput, secondNumberOutput]
    ∧ firstNumberOutput.Sensitive = false
    ∧ firstNumberOutput.JSONValue = .ok "1".toList
    ∧ (generateWorkspaceObservation [firstNumberOutput, secondNumberOutput]).Outputs.get
        firstNumberOutput.Name = some "2".toList := by
  decide

/-- C13, amended. In the observed-status `Outputs` map every non-sensitive output whose
JSON encoding succeeds has an entry under its name; the entry holds the encoding of the
last such output of that name, so the output's own encoding when every later output of
the same name is sensitive or fails to encode.  A name carried only by sensitive
outputs has no entry. -/
theorem observation_outputs_last_entry (pre post : List Output) (o : Output) (j : Bytes)
    (hs : o.Sensitive = false) (hj : o.JSONValue = .ok j)
    (hlast : ∀ o1 ∈ post, o1.Name = o.Name →
      o1.Sensitive = true ∨ ∃ e, o1.JSONValue = .error e) :
    (generateWorkspaceObservation (pre ++ o :: post)).Outputs.get o.Name = some j
    ∧ (∀ o1 ∈ pre ++ o :: post, o1.Sensitive = false → (∃ j1, o1.JSONValue = .ok j1) →
        ∃ o2 ∈ pre ++ o :: post, o2.Name = o1.Name ∧ o2.Sensitive = false
          ∧ ∃ j2, o2.JSONValue = .ok j2
            ∧ (generateWorkspaceObservation (pre ++ o :: post)).Outputs.get o1.Name = some j2)
    ∧ (∀ k, (∀ o1 ∈ pre ++ o :: post, o1.Name = k → o1.Sensitive = true) →
        (generateWorkspaceObservation (pre ++ o :: post)).Outputs.get k = none) := by
  refine ⟨?_, ?_, ?_⟩
  · rw [observation_eq_foldl]
    apply foldl_set_get_last
    · simp [hs, hj, Except.toOption]
    · intro o1 ho1 hn
      rcases hlast o1 ho1 hn with h | ⟨e, h⟩
      · simp [h]
      · simp [h, Except.toOption]
  · intro o1 ho1 hs1 ⟨j1, hj1⟩
    have hp := foldl_set_get_present
      (fun o => if o.Sensitive = true then none else o.JSONValue.toOption)
      (pre ++ o :: post) [] o1.Name
      (Or.inr ⟨o1, ho1, rfl, by simp [hs1, hj1, Except.toOption]⟩)
    rw [← observation_eq_foldl] at hp
    obtain ⟨v, hv⟩ := Option.ne_none_iff_exists'.mp hp
    have hsrc := hv
    rw [observation_eq_foldl] at hsrc
    rcases foldl_set_get_source _ _ _ _ _ hsrc with h | ⟨o2, ho2, hn, hf⟩
    · cases h
    · by_cases hs2 : o2.Sensitive = true
      · simp [hs2] at hf
      · rw [if_neg hs2] at hf
        refine ⟨o2, ho2, hn, by simpa using hs2, v, ?_, hv⟩
        cases hj2 : o2.JSONValue with
        | error e => rw [hj2] at hf; cases hf
        | ok j2 =>
          rw [hj2] at hf
          simp only [Except.toOption, Option.some.injEq] at hf
          rw [hf]
  · intro k hk
    unfold generateWorkspaceObservation
    exact observation_outputs_none _ [] k rfl hk

theorem observation_outputs_last_entry_witness :
    (generateWorkspaceObservation [firstNumberOutput, secondNumberOutput]).Outputs.get
      "a".toList = some "2".toList :=
  (observation_outputs_last_entry [firstNumberOutput] [] secondNumberOutput "2".toList rfl rfl
    (fun _ h => absurd h (List.not_mem_nil _))).1

/-- C14 as stated fails: a string-typed output `a` with the value `x` is followed by a
number output of the same name, and the connection details hold the JSON encoding `2`
under `a`, not the bytes `x` of the string value. -/
theorem connection_detail_overwritten :
    firstStringOutput ∈ [firstStringOutput, secondNumberOutput]
    ∧ firstStringOutput.Typ = OutputType.OutputTypeString
    ∧ firstStringOutput.StringValue = "x".toList
    ∧ (op2cd [firstStringOutput, secondNumberOutput]).get firstStringOutput.Name
        = some "2".toList := by
  decide

/-- C14, amended. In the connection details the entry under a name is written by the
last output of that name that is string-typed or whose JSON encoding succeeds: for an
output `o` such that every later output of the same name is of another type than
string and fails to encode, the entry is the string value of `o` when `o` is
string-typed (whatever its JSON encoding) and the JSON encoding of `o` otherwise.
Every string-typed output and every output whose JSON encoding succeeds has its name
as a key, and every entry is the string value of a string-typed output of that name or
the JSON encoding of an output of another type of that name. -/
theorem connection_details_last_entry (pre post : List Output) (o : Output)
    (hlast : ∀ o1 ∈ post, o1.Name = o.Name →
      o1.Typ ≠ OutputType.OutputTypeString ∧ ∃ e, o1.JSONValue = .error e) :
    (o.Typ = OutputType.OutputTypeString →
      (op2cd (pre ++ o :: post)).get o.Name = some o.StringValue)
    ∧ (o.Typ ≠ OutputType.OutputTypeString → ∀ j, o.JSONValue = .ok j →
      (op2cd (pre ++ o :: post)).get o.Name = some j)
    ∧ (∀ o1 ∈ pre ++ o :: post,
        (o1.Typ = OutputType.OutputTypeString ∨ ∃ j, o1.JSONValue = .ok j) →
        (op2cd (pre ++ o :: post)).get o1.Name ≠ none)
    ∧ (∀ k v, (op2cd (pre ++ o :: post)).get k = some v →
        ∃ o1 ∈ pre ++ o :: post, o1.Name = k
          ∧ ((o1.Typ = OutputType.OutputTypeString ∧ v = o1.StringValue)
            ∨ (o1.Typ ≠ OutputType.OutputTypeString ∧ o1.JSONValue = .ok v))) := by
  have hl : ∀ o1 ∈ post, o1.Name = o.Name →
      (if o1.Typ = OutputType.OutputTypeString then some o1.StringValue
       else o1.JSONValue.toOption) = none := by
    intro o1 ho1 hn
    obtain ⟨ht, e, he⟩ := hlast o1 ho1 hn
    simp [ht, he, Except.toOption]
  refine ⟨?_, ?_, ?_, ?_⟩
  · intro ht
    rw [op2cd_eq_foldl]
    exact foldl_set_get_last _ pre post o _ [] (by simp [ht]) hl
  · intro ht j hj
    rw [op2cd_eq_foldl]
    exact foldl_set_get_last _ pre post o _ [] (by simp [ht, hj, Except.toOption]) hl
  · intro o1 ho1 h1
    rw [op2cd_eq_foldl]
    apply foldl_set_get_present
    refine Or.inr ⟨o1, ho1, rfl, ?_⟩
    by_cases ht : o1.Typ = OutputType.OutputTypeString
    · simp [ht]
    · rcases h1 with h | ⟨j, hj⟩
      · exact absurd h ht
      · simp [ht, hj, Except.toOption]
  · intro k v hv
    rw [op2cd_eq_foldl] at hv
    rcases foldl_set_get_source _ _ _ _ _ hv with h | ⟨o1, ho1, hn, hf⟩
    · cases h
    · refine ⟨o1, ho1, hn, ?_⟩
      by_cases ht : o1.Typ = OutputType.OutputTypeString
      · rw [if_pos ht] at hf
        exact Or.inl ⟨ht, (Option.some.inj hf).symm⟩
      · rw [if_neg ht] at hf
        refine Or.inr ⟨ht, ?_⟩
        cases hj : o1.JSONValue with
        | error e => rw [hj] at hf; cases hf
        | ok j =>
          rw [hj] at hf
          simp only [Except.toOption, Option.some.injEq] at hf
          rw [hf]

theorem connection_details_last_entry_witness :
    (op2cd [firstStringOutput, secondNumberOutput]).get "a".toList = some "2".toList :=
  (connection_details_last_entry [firstStringOutput] [] secondNumberOutput
    (fun _ h => absurd h (List.not_mem_nil _))).2.1 (by decide) "2".toList rfl

/-- C15. A non-sensitive output of type object whose JSON encoding succeeds and whose
name no other output of the list carries is a key of the connection details and of the
observed-status `Outputs` map, and both hold its JSON encoding. -/
theorem object_output_in_both_maps (pre post : List Output) (o : Output) (j : Bytes)
    (ht : o.Typ = OutputType.OutputTypeObject) (hs : o.Sensitive = false)
    (hj : o.JSONValue = .ok j) (huniq : ∀ o1 ∈ pre ++ post, o1.Name ≠ o.Name) :
    (op2cd (pre ++ o :: post)).get o.Name = some j
    ∧ (generateWorkspaceObservation (pre ++ o :: post)).Outputs.get o.Name = some j := by
  have hpost : ∀ o1 ∈ post, o1.Name ≠ o.Name :=
    fun o1 ho1 => huniq o1 (List.mem_append_right _ ho1)
  constructor
  · rw [op2cd_eq_foldl]
    exact foldl_set_get_last _ pre post o _ [] (by simp [ht, hj, Except.toOption])
      (fun o1 ho1 hn => absurd hn (hpost o1 ho1))
  · rw [observation_eq_foldl]
    exact foldl_set_get_last _ pre post o _ [] (by simp [hs, hj, Except.toOption])
      (fun o1 ho1 hn => absurd hn (hpost o1 ho1))

theorem object_output_in_both_maps_witness :
    (op2cd [createStringOutput, createObjectOutput]).get "object".toList = some "null".toList
    ∧ (generateWorkspaceObservation [createStringOutput, createObjectOutput]).Outputs.get
        "object".toList = some "null".toList :=
  object_output_in_both_maps [createStringOutput] [] createObjectOutput "null".toList rfl rfl rfl
    (by decide)

/-! ### Up to date -/

/-- A diff step that completed has resolved the options and called the harness `Diff`
once, last; it reports a difference exactly when `Diff` answered one. -/
theorem checkDiff_ok_inv (w : World) (c : External) (s s1 : St) (differs : Bool)
    (h : checkDiff w c s = (.ok differs, s1)) :
    ∃ o sa gets res, options w s.cr.ForProvider s = (.ok o, sa)
      ∧ sa.trace = s.trace ++ gets ∧ (∀ e ∈ gets, e.isGet = true)
      ∧ s1.trace = sa.trace ++ [Event.tofuDiff c.tofu
          (o ++ [TfOption.WithArgs s.cr.ForProvider.PlanArgs]) res]
      ∧ (differs = true ↔ res = .ok true) := by
  obtain ⟨-, gets, hg, hP⟩ := frames_options w s.cr.ForProvider s
  rcases hopt : options w s.cr.ForProvider s with ⟨r, sa⟩
  rw [hopt] at hg
  cases r with
  | error e =>
    unfold checkDiff at h
    simp only [bind_apply, getCr, wrapRun_error hopt] at h
    cases h
  | ok o =>
    rw [checkDiff_apply w c s sa o hopt] at h
    refine ⟨o, sa, gets, w.tofuDiff sa.trace c.tofu
      (o ++ [TfOption.WithArgs s.cr.ForProvider.PlanArgs]), rfl, hg, hP, ?_, ?_⟩
    · have := congrArg (fun p => p.2.trace) h
      exact this.symm
    · cases hres : w.tofuDiff sa.trace c.tofu
          (o ++ [TfOption.WithArgs s.cr.ForProvider.PlanArgs]) with
      | ok d =>
        rw [hres] at h
        cases h
        simp
      | error e =>
        rw [hres] at h
        cases hd : s.cr.WasDeleted <;> rw [hd] at h <;> simp at h
        simp [h.1.symm]

/-- C16. An `Observe` that completes has called the harness `Diff` exactly once, and the
observation it returns has `ResourceUpToDate = false` exactly when that call succeeded
and reported a difference; otherwise `ResourceUpToDate = true`. -/
theorem observe_up_to_date_iff (w : World) (c : External) (s s2 : St)
    (obs : ExternalObservation) (h : Observe w c s = (.ok obs, s2)) :
    ∃ o res,
      (∀ h1 o1 res1, Event.tofuDiff h1 o1 res1 ∈ newEvents s.trace s2.trace
        ↔ (h1 = c.tofu ∧ o1 = o ∧ res1 = res))
      ∧ (obs.ResourceUpToDate = false ↔ res = .ok true)
      ∧ (obs.ResourceUpToDate = true ↔ res ≠ .ok true) := by
  obtain ⟨differs, s1, r, dels, op, cs, hcd, hdels, htr, hobs, -⟩ := observe_ok_inv w c s s2 obs h
  obtain ⟨o, sa, gets, res, -, hsa, hget, hs1, hdiff⟩ := checkDiff_ok_inv w c s s1 differs hcd
  have hnew : newEvents s.trace s2.trace = gets ++ [Event.tofuDiff c.tofu
        (o ++ [TfOption.WithArgs s.cr.ForProvider.PlanArgs]) res]
      ++ [Event.tofuResources c.tofu (.ok r)] ++ dels
      ++ [Event.tofuOutputs c.tofu (.ok op)] ++ [Event.tofuGenerateChecksum c.tofu (.ok cs)] := by
    rw [htr, hs1, hsa]
    simp only [List.append_assoc, newEvents_append]
  have hG : ∀ h1 o1 res1, Event.tofuDiff h1 o1 res1 ∉ gets := fun h1 o1 res1 hm => by
    have := hget _ hm
    simp [Event.isGet] at this
  refine ⟨o ++ [TfOption.WithArgs s.cr.ForProvider.PlanArgs], res, fun h1 o1 res1 => ?_, ?_, ?_⟩
  · rw [hnew]
    rcases hdels with hdl | hdl <;> subst hdl <;>
      simp [hG h1 o1 res1]
  · rw [hobs, ← hdiff]
    simp
  · rw [hobs, ne_eq, ← hdiff]
    simp

theorem observe_up_to_date_iff_witness :
    ∃ o res,
      (∀ h1 o1 res1, Event.tofuDiff h1 o1 res1
        ∈ newEvents [] (Observe driftWorld sampleExternal ⟨sampleWorkspace, []⟩).2.trace
          ↔ (h1 = sampleExternal.tofu ∧ o1 = o ∧ res1 = res))
      ∧ (driftObservation.ResourceUpToDate = false ↔ res = .ok true)
      ∧ (driftObservation.ResourceUpToDate = true ↔ res ≠ .ok true) :=
  observe_up_to_date_iff driftWorld sampleExternal ⟨sampleWorkspace, []⟩
    (Observe driftWorld sampleExternal ⟨sampleWorkspace, []⟩).2 driftObservation (by decide!)

/-! ### The options of the tofu commands -/

/-- One var-file: the read it makes and the option it appends. -/
theorem varFileOption_apply (w : World) (acc : List TfOption) (vf : VarFile) (s : St) :
    varFileOption w acc vf s =
      if vf.Source = VarFileSourceConfigMapKey then
        match vf.ConfigMapKeyReference with
        | none => (.error Err.nilDeref, s)
        | some r =>
          match w.getConfigMap s.trace r.Namespace r.Name with
          | .ok cm =>
            (.ok (acc ++ [TfOption.WithVarFile ((cm.get r.Key).getD []) (varFileFormat vf)]),
             { s with trace := s.trace ++ [Event.getConfigMap r.Namespace r.Name (.ok cm)] })
          | .error e =>
            (.error (Err.wrap e errVarFile),
             { s with trace := s.trace ++ [Event.getConfigMap r.Namespace r.Name (.error e)] })
      else if vf.Source = VarFileSourceSecretKey then
        match vf.SecretKeyReference with
        | none => (.error Err.nilDeref, s)
        | some r =>
          match w.getSecret s.trace r.Namespace r.Name with
          | .ok sec =>
            (.ok (acc ++ [TfOption.WithVarFile ((sec.get r.Key).getD []) (varFileFormat vf)]),
             { s with trace := s.trace ++ [Event.getSecret r.Namespace r.Name (.ok sec)] })
          | .error e =>
            (.error (Err.wrap e errVarFile),
             { s with trace := s.trace ++ [Event.getSecret r.Namespace r.Name (.error e)] })
      else (.ok acc, s) := by
  unfold varFileOption varFileFormat
  by_cases h1 : vf.Source = VarFileSourceConfigMapKey
  · simp only [if_pos h1]
    cases vf.ConfigMapKeyReference with
    | none => rfl
    | some r =>
      simp only [bind_apply, ask_apply]
      cases w.getConfigMap s.trace r.Namespace r.Name <;> rfl
  · simp only [if_neg h1]
    by_cases h2 : vf.Source = VarFileSourceSecretKey
    · simp only [if_pos h2]
      cases vf.SecretKeyReference with
      | none => rfl
      | some r =>
        simp only [bind_apply, ask_apply]
        cases w.getSecret s.trace r.Namespace r.Name <;> rfl
    · simp only [if_neg h2]
      rfl

theorem loop_cons_apply {α β : Type} (body : β → α → Run β) (acc : β) (a : α) (l : List α)
    (s : St) :
    loop body acc (a :: l) s = match body acc a s with
      | (.ok acc1, s1) => loop body acc1 l s1
      | (.error e, s1) => (.error e, s1) := rfl

/-- A completed loop over the var-files has made exactly the reads the var-files
declare, and has appended the options read off them. -/
theorem loop_varFiles_ok (w : World) (vfs : List VarFile) (acc : List TfOption) (s s1 : St)
    (o : List TfOption) (h : loop (varFileOption w) acc vfs s = (.ok o, s1)) :
    ∃ evs os, s1.trace = s.trace ++ evs ∧ readVarFiles vfs evs = some os ∧ o = acc ++ os := by
  induction vfs generalizing acc s with
  | nil =>
    cases h
    exact ⟨[], [], by simp, rfl, by simp⟩
  | cons vf rest ih =>
    rw [loop_cons_apply, varFileOption_apply] at h
    by_cases h1 : vf.Source = VarFileSourceConfigMapKey
    · rw [if_pos h1] at h
      cases hr : vf.ConfigMapKeyReference with
      | none => simp only [hr] at h; cases h
      | some r =>
        simp only [hr] at h
        cases hq : w.getConfigMap s.trace r.Namespace r.Name with
        | error e => simp only [hq] at h; cases h
        | ok cm =>
          simp only [hq] at h
          obtain ⟨evs, os, htr, hrd, ho⟩ := ih _ _ h
          refine ⟨Event.getConfigMap r.Namespace r.Name (.ok cm) :: evs,
            TfOption.WithVarFile ((cm.get r.Key).getD []) (varFileFormat vf) :: os, ?_, ?_, ?_⟩
          · rw [htr]; simp
          · simp [readVarFiles, h1, hr, hrd]
          · rw [ho]; simp
    · rw [if_neg h1] at h
      by_cases h2 : vf.Source = VarFileSourceSecretKey
      · rw [if_pos h2] at h
        cases hr : vf.SecretKeyReference with
        | none => simp only [hr] at h; cases h
        | some r =>
          simp only [hr] at h
          cases hq : w.getSecret s.trace r.Namespace r.Name with
          | error e => simp only [hq] at h; cases h
          | ok sec =>
            simp only [hq] at h
            obtain ⟨evs, os, htr, hrd, ho⟩ := ih _ _ h
            refine ⟨Event.getSecret r.Namespace r.Name (.ok sec) :: evs,
              TfOption.WithVarFile ((sec.get r.Key).getD []) (varFileFormat vf) :: os,
              ?_, ?_, ?_⟩
            · rw [htr]; simp
            · have hne : ¬ VarFileSourceSecretKey = VarFileSourceConfigMapKey := by decide
              simp [readVarFiles, h2, hne, hr, hrd]
            · rw [ho]; simp
      · rw [if_neg h2] at h
        obtain ⟨evs, os, htr, hrd, ho⟩ := ih _ _ h
        exact ⟨evs, os, htr, by simp [readVarFiles, h1, h2, hrd], ho⟩

/-- How the loop over the var-files can end: with all its reads successful; at the
first failed read, with its cause wrapped; or at a var-file that lacks the reference
its source declares. -/
theorem loop_varFiles_cases (w : World) (vfs : List VarFile) (acc : List TfOption) (s s1 : St)
    (r : Except Err (List TfOption)) (h : loop (varFileOption w) acc vfs s = (r, s1)) :
    ∃ evs, s1.trace = s.trace ++ evs ∧
      (((∃ o, r = .ok o) ∧ ∀ ev ∈ evs, ev.readFailure = none)
      ∨ (∃ e pre last, r = .error (Err.wrap e errVarFile) ∧ evs = pre ++ [last]
          ∧ last.readFailure = some e ∧ ∀ ev ∈ pre, ev.readFailure = none)
      ∨ (r = .error Err.nilDeref ∧ (∀ ev ∈ evs, ev.readFailure = none)
          ∧ ∃ vf ∈ vfs, vf.hasReference = false)) := by
  induction vfs generalizing acc s with
  | nil =>
    cases h
    exact ⟨[], by simp, Or.inl ⟨⟨_, rfl⟩, by simp⟩⟩
  | cons vf rest ih =>
    -- prepending a successful read to the rest of the loop
    have step : ∀ (ev : Event) (acc1 : List TfOption), ev.readFailure = none →
        loop (varFileOption w) acc1 rest { s with trace := s.trace ++ [ev] } = (r, s1) →
        ∃ evs, s1.trace = s.trace ++ evs ∧
          (((∃ o, r = .ok o) ∧ ∀ ev ∈ evs, ev.readFailure = none)
          ∨ (∃ e pre last, r = .error (Err.wrap e errVarFile) ∧ evs = pre ++ [last]
              ∧ last.readFailure = some e ∧ ∀ ev ∈ pre, ev.readFailure = none)
          ∨ (r = .error Err.nilDeref ∧ (∀ ev ∈ evs, ev.readFailure = none)
              ∧ ∃ vf1 ∈ vf :: rest, vf1.hasReference = false)) := by
      intro ev acc1 hev hl
      obtain ⟨evs, htr, hc⟩ := ih _ _ hl
      refine ⟨ev :: evs, by rw [htr]; simp, ?_⟩
      rcases hc with ⟨ho, hn⟩ | ⟨e, pre, last, hr, hevs, hlast, hpre⟩ | ⟨hr, hn, vf1, hvf1, href⟩
      · refine Or.inl ⟨ho, ?_⟩
        intro ev1 h1
        rcases List.mem_cons.mp h1 with rfl | h1
        · exact hev
        · exact hn _ h1
      · refine Or.inr (Or.inl ⟨e, ev :: pre, last, hr, by rw [hevs]; simp, hlast, ?_⟩)
        intro ev1 h1
        rcases List.mem_cons.mp h1 with rfl | h1
        · exact hev
        · exact hpre _ h1
      · refine Or.inr (Or.inr ⟨hr, ?_, vf1, List.mem_cons_of_mem _ hvf1, href⟩)
        intro ev1 h1
        rcases List.mem_cons.mp h1 with rfl | h1
        · exact hev
        · exact hn _ h1
    rw [loop_cons_apply, varFileOption_apply] at h
    by_cases h1 : vf.Source = VarFileSourceConfigMapKey
    · rw [if_pos h1] at h
      cases hr : vf.ConfigMapKeyReference with
      | none =>
        simp only [hr] at h
        cases h
        exact ⟨[], by simp, Or.inr (Or.inr ⟨rfl, by simp, vf, List.mem_cons_self _ _,
          by simp [VarFile.hasReference, h1, hr]⟩)⟩
      | some ref =>
        simp only [hr] at h
        cases hq : w.getConfigMap s.trace ref.Namespace ref.Name with
        | error e =>
          simp only [hq] at h
          cases h
          exact ⟨[Event.getConfigMap ref.Namespace ref.Name (.error e)], rfl,
            Or.inr (Or.inl ⟨e, [], _, rfl, rfl, rfl, by simp⟩)⟩
        | ok cm =>
          simp only [hq] at h
          exact step (Event.getConfigMap ref.Namespace ref.Name (.ok cm)) _ rfl h
    · rw [if_neg h1] at h
      by_cases h2 : vf.Source = VarFileSourceSecretKey
      · rw [if_pos h2] at h
        cases hr : vf.SecretKeyReference with
        | none =>
          simp only [hr] at h
          cases h
          exact ⟨[], by simp, Or.inr (Or.inr ⟨rfl, by simp, vf, List.mem_cons_self _ _,
            by simp [VarFile.hasReference, h2, hr]⟩)⟩
        | some ref =>
          simp only [hr] at h
          cases hq : w.getSecret s.trace ref.Namespace ref.Name with
          | error e =>
            simp only [hq] at h
            cases h
            exact ⟨[Event.getSecret ref.Namespace ref.Name (.error e)], rfl,
              Or.inr (Or.inl ⟨e, [], _, rfl, rfl, rfl, by simp⟩)⟩
          | ok sec =>
            simp only [hq] at h
            exact step (Event.getSecret ref.Namespace ref.Name (.ok sec)) _ rfl h
      · rw [if_neg h2] at h
        obtain ⟨evs, htr, hc⟩ := ih _ _ h
        refine ⟨evs, htr, ?_⟩
        rcases hc with hc | hc | ⟨hr, hn, vf1, hvf1, href⟩
        · exact Or.inl hc
        · exact Or.inr (Or.inl hc)
        · exact Or.inr (Or.inr ⟨hr, hn, vf1, List.mem_cons_of_mem _ hvf1, href⟩)

theorem vars_foldl_eq_map (vars : List Var) (acc : List TfOption) :
    vars.foldl (fun o v => o ++ [TfOption.WithVar v.Key v.Value]) acc
      = acc ++ vars.map (fun v => TfOption.WithVar v.Key v.Value) := by
  induction vars generalizing acc with
  | nil => simp
  | cons v rest ih => simp [List.foldl, ih]

/-- `options` is the loop over the var-files, started from the literal variables and
followed by the raw variable map. -/
theorem options_apply (w : World) (p : WorkspaceParameters) (s : St) :
    options w p s =
      match loop (varFileOption w) (p.Vars.map (fun v => TfOption.WithVar v.Key v.Value))
          p.VarFiles s with
      | (.ok o, s1) =>
        (match p.VarMap with
         | none => (.ok o, s1)
         | some raw =>
           match w.jsonMarshal raw with
           | .ok j => (.ok (o ++ [TfOption.WithVarFile j TfFormat.JSON]), s1)
           | .error e => (.error (Err.wrap e errVarMap), s1))
      | (.error e, s1) => (.error e, s1) := by
  unfold options
  simp only [vars_foldl_eq_map, List.nil_append, bind_apply]
  generalize loop (varFileOption w) (p.Vars.map (fun v => TfOption.WithVar v.Key v.Value))
    p.VarFiles s = res
  obtain ⟨r, s1⟩ := res
  cases r with
  | error e => rfl
  | ok o =>
    cases p.VarMap with
    | none => rfl
    | some raw =>
      simp only [bind_apply]
      cases w.jsonMarshal raw <;> rfl

theorem readVarFiles_length (vfs : List VarFile) (evs : List Event) (os : List TfOption)
    (h : readVarFiles vfs evs = some os) :
    os.length = (vfs.filter (fun vf =>
      vf.Source == VarFileSourceConfigMapKey || vf.Source == VarFileSourceSecretKey)).length := by
  induction vfs generalizing evs os with
  | nil =>
    cases evs with
    | nil => cases h; rfl
    | cons e es => cases h
  | cons vf rest ih =>
    unfold readVarFiles at h
    by_cases h1 : vf.Source = VarFileSourceConfigMapKey
    · simp only [if_pos h1] at h
      split at h
      · split at h
        · obtain ⟨os1, hos1, rfl⟩ := Option.map_eq_some'.mp h
          simp [List.filter_cons, h1, ih _ _ hos1]
        · cases h
      · cases h
    · simp only [if_neg h1] at h
      by_cases h2 : vf.Source = VarFileSourceSecretKey
      · simp only [if_pos h2] at h
        split at h
        · split at h
          · obtain ⟨os1, hos1, rfl⟩ := Option.map_eq_some'.mp h
            simp [List.filter_cons, h2, ih _ _ hos1]
          · cases h
        · cases h
      · simp only [if_neg h2] at h
        simp [List.filter_cons, h1, h2, ih _ _ h]

/-- C17 as stated fails: for parameters with one var-file, of source `Other`, `options`
succeeds, reads nothing and returns the empty list, which has no `WithVarFile` for that
var-file. -/
theorem var_file_without_option :
    otherSourceParameters.VarFiles = [otherSourceVarFile]
    ∧ options calmWorld otherSourceParameters ⟨sampleWorkspace, []⟩
        = (.ok [], ⟨sampleWorkspace, []⟩) := by
  decide!

/-- C17, amended. On success `options` returns exactly: one `WithVar(key, value)` per
literal variable in declared order; then the var-file options read off the reads it
made, which are, for every var-file of source ConfigMapKey or SecretKey in declared
order (a var-file of another source contributes nothing), one `WithVarFile` holding the
bytes under the referenced key of the object that was read (none if the key is absent)
with the format JSON when the Format is explicitly JSON and HCL otherwise; then, if a
raw variable map is present, one JSON-format `WithVarFile` holding its marshalling. -/
theorem options_ordered_list (w : World) (p : WorkspaceParameters) (s s1 : St)
    (o : List TfOption) (h : options w p s = (.ok o, s1)) :
    ∃ files tail,
      readVarFiles p.VarFiles (newEvents s.trace s1.trace) = some files
      ∧ files.length = (p.VarFiles.filter (fun vf =>
          vf.Source == VarFileSourceConfigMapKey || vf.Source == VarFileSourceSecretKey)).length
      ∧ (p.VarMap = none → tail = [])
      ∧ (∀ raw, p.VarMap = some raw →
          ∃ j, w.jsonMarshal raw = .ok j ∧ tail = [TfOption.WithVarFile j TfFormat.JSON])
      ∧ o = p.Vars.map (fun v => TfOption.WithVar v.Key v.Value) ++ files ++ tail := by
  rw [options_apply] at h
  rcases hl : loop (varFileOption w) (p.Vars.map (fun v => TfOption.WithVar v.Key v.Value))
    p.VarFiles s with ⟨r, sa⟩
  rw [hl] at h
  cases r with
  | error e => cases h
  | ok o1 =>
    obtain ⟨evs, files, htr, hrd, ho1⟩ := loop_varFiles_ok w _ _ _ _ _ hl
    have hlen := readVarFiles_length _ _ _ hrd
    cases hvm : p.VarMap with
    | none =>
      simp only [hvm] at h
      cases h
      refine ⟨files, [], ?_, hlen, fun _ => rfl, fun raw hraw => (by cases hraw), ?_⟩
      · rw [htr, newEvents_append]
        exact hrd
      · rw [ho1]; simp
    | some raw =>
      simp only [hvm] at h
      cases hj : w.jsonMarshal raw with
      | error e => simp only [hj] at h; cases h
      | ok j =>
        simp only [hj] at h
        cases h
        refine ⟨files, [TfOption.WithVarFile j TfFormat.JSON], ?_, hlen,
          fun hn => (by cases hn), ?_, ?_⟩
        · rw [htr, newEvents_append]
          exact hrd
        · intro raw1 hraw1
          cases hraw1
          exact ⟨j, hj, rfl⟩
        · rw [ho1]

theorem options_ordered_list_witness :
    ∃ files tail,
      readVarFiles tfvarsParameters.VarFiles
        [Event.getConfigMap "default".toList "tfvars".toList
            (.ok [("vars".toList, "a = 1".toList)]),
         Event.getSecret "default".toList "tfvars".toList
            (.ok [("vars".toList, "b = 2".toList)])] = some files
      ∧ files.length = (tfvarsParameters.VarFiles.filter (fun vf =>
          vf.Source == VarFileSourceConfigMapKey || vf.Source == VarFileSourceSecretKey)).length
      ∧ (tfvarsParameters.VarMap = none → tail = [])
      ∧ (∀ raw, tfvarsParameters.VarMap = some raw →
          ∃ j, calmWorld.jsonMarshal raw = .ok j ∧ tail = [TfOption.WithVarFile j TfFormat.JSON])
      ∧ [TfOption.WithVar "a".toList "2".toList,
         TfOption.WithVarFile "a = 1".toList TfFormat.HCL,
         TfOption.WithVarFile "b = 2".toList TfFormat.JSON,
         TfOption.WithVarFile "[1]".toList TfFormat.JSON]
        = tfvarsParameters.Vars.map (fun v => TfOption.WithVar v.Key v.Value) ++ files ++ tail :=
  options_ordered_list calmWorld tfvarsParameters ⟨sampleWorkspace, []⟩
    ⟨sampleWorkspace, [Event.getConfigMap "default".toList "tfvars".toList
            (.ok [("vars".toList, "a = 1".toList)]),
         Event.getSecret "default".toList "tfvars".toList
            (.ok [("vars".toList, "b = 2".toList)])]⟩ _ (by decide!)

theorem isGet_not_tofu {e : Event} (h : e.isGet = true) : e.isTofu = false := by
  cases e <;> simp_all [Event.isGet, Event.isTofu]

/-- The only panic of `options` is the dereference of a missing reference: every other
failure is a returned error. -/
theorem options_panic_missing_reference (w : World) (p : WorkspaceParameters) (s s1 : St)
    (e : Err) (h : options w p s = (.error e, s1)) (hp : e.isPanic = true) :
    e = Err.nilDeref ∧ ∃ vf ∈ p.VarFiles, vf.hasReference = false := by
  rw [options_apply] at h
  rcases hl : loop (varFileOption w) (p.Vars.map (fun v => TfOption.WithVar v.Key v.Value))
    p.VarFiles s with ⟨r1, sa⟩
  rw [hl] at h
  obtain ⟨evs, -, hc⟩ := loop_varFiles_cases w _ _ _ _ _ hl
  rcases hc with ⟨⟨o, ho⟩, -⟩ | ⟨e0, pre, last, hr, -, -, -⟩ | ⟨hr, -, hvf⟩
  · subst ho
    simp only at h
    cases hvm : p.VarMap with
    | none => simp only [hvm] at h; cases h
    | some raw =>
      simp only [hvm] at h
      cases hj : w.jsonMarshal raw with
      | ok j => simp only [hj] at h; cases h
      | error e1 =>
        simp only [hj] at h
        cases h
        cases hp
  · subst hr
    cases h
    cases hp
  · subst hr
    cases h
    exact ⟨rfl, hvf⟩

/-- C18. Let `options` end with outcome `r` for the parameters of the Workspace.  If one
of its reads of a ConfigMap or Secret failed with cause `e`, then `r` is the error `e`
wrapped with `cannot get tfvars`.  If all reads succeeded (every var-file having the
reference its source declares) and the raw variable map cannot be marshalled, with
cause `e`, then `r` is `e` wrapped with `cannot get tfvars from var map`.  Whenever
`options` returns an error, `Observe`, `Update`, `Create` and `Delete` return it wrapped
with `cannot determine tofu options`, leave the Workspace as it is and have interacted
with ConfigMaps and Secrets only: no harness operation (so no `Diff`, `Apply` or
`Destroy`) is invoked.  The one outcome of `options` that is no returned error is the
panic at a var-file that lacks the reference its source declares: then the four
operations return nothing either, the panic passing through them unwrapped. -/
theorem options_failure (w : World) (c : External) (s s1 : St)
    (r : Except Err (List TfOption)) (h : options w s.cr.ForProvider s = (r, s1)) :
    (∀ ev ∈ newEvents s.trace s1.trace, ∀ e, ev.readFailure = some e →
      r = .error (Err.wrap e errVarFile))
    ∧ (∀ raw e, s.cr.ForProvider.VarMap = some raw → w.jsonMarshal raw = .error e →
        (∀ vf ∈ s.cr.ForProvider.VarFiles, vf.hasReference = true) →
        (∀ ev ∈ newEvents s.trace s1.trace, ev.readFailure = none) →
        r = .error (Err.wrap e errVarMap))
    ∧ (∀ err, r = .error err → err.isPanic = false →
        Observe w c s = (.error (Err.wrap err errOptions), s1)
        ∧ Update w c s = (.error (Err.wrap err errOptions), s1)
        ∧ Create w c s = (.error (Err.wrap err errOptions), s1)
        ∧ Delete w c s = (.error (Err.wrap err errOptions), s1)
        ∧ s1.cr = s.cr
        ∧ ∀ ev ∈ newEvents s.trace s1.trace, ev.isTofu = false)
    ∧ (∀ err, r = .error err → err.isPanic = true →
        (∃ vf ∈ s.cr.ForProvider.VarFiles, vf.hasReference = false)
        ∧ err = Err.nilDeref
        ∧ Observe w c s = (.error Err.nilDeref, s1)
        ∧ Update w c s = (.error Err.nilDeref, s1)
        ∧ Create w c s = (.error Err.nilDeref, s1)
        ∧ Delete w c s = (.error Err.nilDeref, s1)) := by
  have hopt := h
  rw [options_apply] at h
  rcases hl : loop (varFileOption w)
    (s.cr.ForProvider.Vars.map (fun v => TfOption.WithVar v.Key v.Value))
    s.cr.ForProvider.VarFiles s with ⟨r1, sa⟩
  rw [hl] at h
  obtain ⟨evs, htr, hc⟩ := loop_varFiles_cases w _ _ _ _ _ hl
  have hs1 : s1 = sa := by
    cases r1 with
    | error e => cases h; rfl
    | ok o =>
      simp only at h
      cases hvm : s.cr.ForProvider.VarMap with
      | none => simp only [hvm] at h; cases h; rfl
      | some raw =>
        simp only [hvm] at h
        cases hj : w.jsonMarshal raw <;> simp only [hj] at h <;> cases h <;> rfl
  subst hs1
  have hnew : newEvents s.trace s1.trace = evs := by rw [htr, newEvents_append]
  refine ⟨?_, ?_, ?_, ?_⟩
  · intro ev hev e hfail
    rw [hnew] at hev
    rcases hc with ⟨-, hn⟩ | ⟨e0, pre, last, hr, hevs, hlast, hpre⟩ | ⟨-, hn, -⟩
    · rw [hn ev hev] at hfail; cases hfail
    · rw [hevs] at hev
      rcases List.mem_append.mp hev with hp | hp
      · rw [hpre ev hp] at hfail; cases hfail
      · rw [List.mem_singleton.mp hp, hlast] at hfail
        cases hfail
        rw [hr] at h
        cases h
        rfl
    · rw [hn ev hev] at hfail; cases hfail
  · intro raw e hraw hj hrefs hok
    rw [hnew] at hok
    rcases hc with ⟨⟨o, ho⟩, -⟩ | ⟨e0, pre, last, -, hevs, hlast, -⟩ | ⟨-, -, vf, hvf, href⟩
    · rw [ho] at h
      simp only [hraw, hj] at h
      cases h
      rfl
    · have := hok last (by rw [hevs]; simp)
      rw [hlast] at this
      cases this
    · rw [hrefs vf hvf] at href
      cases href
  · intro err herr hret
    subst herr
    have hw : wrapRun errOptions (options w s.cr.ForProvider) s
        = (.error (Err.wrap err errOptions), s1) := wrapRun_returned hopt hret
    obtain ⟨hcr, evs1, htr1, hP⟩ := frames_options w s.cr.ForProvider s
    rw [hopt] at hcr htr1
    refine ⟨?_, ?_, ?_, ?_, hcr, ?_⟩
    · unfold Observe checkDiff
      simp only [bind_apply, getCr, hw]
    · unfold Update
      simp only [bind_apply, getCr, hw]
    · unfold Create Update
      simp only [bind_apply, getCr, hw]
    · unfold Delete
      simp only [bind_apply, getCr, hw]
    · intro ev hev
      simp only at htr1
      rw [htr1, newEvents_append] at hev
      exact isGet_not_tofu (hP ev hev)
  · intro err herr hpanic
    subst herr
    obtain ⟨he, hvf⟩ := options_panic_missing_reference w _ s s1 err hopt hpanic
    subst he
    have hw : wrapRun errOptions (options w s.cr.ForProvider) s
        = (.error Err.nilDeref, s1) := wrapRun_panic hopt
    refine ⟨hvf, rfl, ?_, ?_, ?_, ?_⟩
    · unfold Observe checkDiff
      simp only [bind_apply, getCr, hw]
    · unfold Update
      simp only [bind_apply, getCr, hw]
    · unfold Create Update
      simp only [bind_apply, getCr, hw]
    · unfold Delete
      simp only [bind_apply, getCr, hw]

theorem options_failure_witness :
    Observe configMapFailsWorld sampleExternal ⟨tfvarsWorkspace, []⟩
      = (.error (Err.wrap (Err.wrap errBoom errVarFile) errOptions),
         ⟨tfvarsWorkspace, [Event.getConfigMap "default".toList "tfvars".toList
            (.error errBoom)]⟩)
    ∧ Delete calmWorld sampleExternal ⟨noReferenceWorkspace, []⟩
      = (.error Err.nilDeref,
         ⟨noReferenceWorkspace, [Event.getConfigMap "default".toList "tfvars".toList
            (.ok [("vars".toList, "a = 1".toList)])]⟩) :=
  ⟨((options_failure configMapFailsWorld sampleExternal ⟨tfvarsWorkspace, []⟩
      ⟨tfvarsWorkspace, [Event.getConfigMap "default".toList "tfvars".toList
        (.error errBoom)]⟩
      (.error (Err.wrap errBoom errVarFile)) (by decide!)).2.2.1 _ rfl rfl).1,
   ((options_failure calmWorld sampleExternal ⟨noReferenceWorkspace, []⟩
      ⟨noReferenceWorkspace, [Event.getConfigMap "default".toList "tfvars".toList
        (.ok [("vars".toList, "a = 1".toList)])]⟩
      (.error Err.nilDeref) (by decide!)).2.2.2 _ rfl rfl).2.2.2.2.2⟩

/-! ### `Connect` in stages -/

theorem run_bind_assoc {α β γ : Type} (m : Run α) (f : α → Run β) (g : β → Run γ) :
    (m >>= f) >>= g = m >>= fun a => f a >>= g := by
  funext s
  simp only [bind_apply]
  rcases m s with ⟨r, s1⟩
  cases r <;> rfl

theorem run_pure_bind {α β : Type} (a : α) (f : α → Run β) : (pure a >>= f) = f a := rfl

/-- The setup of `Connect` is its stages one after the other. -/
theorem connectSetup_stages (w : World) :
    connectSetup w = (do
      let x ← connectBeforeEnv w
      let envs ← loop (resolveEnv w) [] x.1.ForProvider.Env
      pure { dir := x.2.1, pc := x.2.2, envs := envs }) := by
  unfold connectSetup connectBeforeEnv connectFiles connectBeforeModule
  simp only [run_bind_assoc, run_pure_bind]

theorem frames_connectInit (w : World) (su : ConnectSetup) (cr : Workspace) (tofu : Harness) :
    Frames (fun _ => True) (connectInit w su cr tofu) := by
  unfold connectInit
  dsimp only
  repeat (first
    | exact frames_pure _
    | exact frames_orFail _ _
    | exact frames_ask _ _ (fun _ => trivial)
    | refine frames_bind ?_ (fun _ => ?_))

theorem frames_connectTofu (w : World) (su : ConnectSetup) :
    Frames (fun _ => True) (connectTofu w su) := by
  unfold connectTofu
  dsimp only
  repeat (first
    | exact frames_pure _
    | exact frames_getCr
    | exact frames_getOrFail _ _
    | exact frames_connectInit w _ _ _
    | exact frames_ask _ _ (fun _ => trivial)
    | refine frames_bind ?_ (fun _ => ?_)
    | split)

theorem frames_connectFiles (w : World) (cr : Workspace) (dir : Str) (pc : ProviderConfigSpec) :
    Frames (fun _ => True) (connectFiles w cr dir pc) := by
  unfold connectFiles
  dsimp only
  repeat (first
    | exact frames_pure _
    | exact frames_mono (fun _ _ => trivial) (frames_loop (frames_writeCredential w _) _ _)
    | exact frames_mono (fun _ _ => trivial) (frames_writeOptional w _ _ _)
    | refine frames_bind ?_ (fun _ => ?_))

/-- `Connect` from the state in which the module is materialised. -/
theorem connect_from_module (w : World) (s sx : St) (x : Workspace × Str × ProviderConfigSpec)
    (hpre : connectBeforeModule w s = (.ok x, sx)) :
    Connect w s = (materializeModule w x.1 x.2.1 >>= fun _ =>
      connectFiles w x.1 x.2.1 x.2.2 >>= fun y =>
      loop (resolveEnv w) [] x.1.ForProvider.Env >>= fun envs =>
      connectTofu w { dir := y.1, pc := y.2, envs := envs }) sx := by
  have : Connect w = connectBeforeModule w >>= fun x =>
      materializeModule w x.1 x.2.1 >>= fun _ =>
      connectFiles w x.1 x.2.1 x.2.2 >>= fun y =>
      loop (resolveEnv w) [] x.1.ForProvider.Env >>= fun envs =>
      connectTofu w { dir := y.1, pc := y.2, envs := envs } := by
    unfold Connect
    rw [connectSetup_stages]
    unfold connectBeforeEnv
    simp only [run_bind_assoc, run_pure_bind]
  rw [this]
  exact bind_ok hpre

/-- `Connect` from the state in which the environment variables are resolved. -/
theorem connect_from_env (w : World) (s sx : St) (x : Workspace × Str × ProviderConfigSpec)
    (hpre : connectBeforeEnv w s = (.ok x, sx)) :
    Connect w s = (loop (resolveEnv w) [] x.1.ForProvider.Env >>= fun envs =>
      connectTofu w { dir := x.2.1, pc := x.2.2, envs := envs }) sx := by
  have : Connect w = connectBeforeEnv w >>= fun x =>
      loop (resolveEnv w) [] x.1.ForProvider.Env >>= fun envs =>
      connectTofu w { dir := x.2.1, pc := x.2.2, envs := envs } := by
    unfold Connect
    rw [connectSetup_stages]
    simp only [run_bind_assoc, run_pure_bind]
  rw [this]
  exact bind_ok hpre

theorem frames_connectBeforeModule (w : World) :
    Frames (fun _ => True) (connectBeforeModule w) := by
  unfold connectBeforeModule
  dsimp only
  repeat (first
    | exact frames_pure _
    | exact frames_getCr
    | exact frames_orFail _ _
    | exact frames_getOrFail _ _
    | exact frames_ask _ _ (fun _ => trivial)
    | exact frames_mono (fun _ _ => trivial) (frames_loop (frames_writeGitCredential w _) _ _)
    | refine frames_bind ?_ (fun _ => ?_))

/-- What the first stage yields: the managed resource and its working directory
`<tfDir>/<UID>`. -/
theorem connectBeforeModule_ok (w : World) (s sx : St)
    (x : Workspace × Str × ProviderConfigSpec)
    (h : connectBeforeModule w s = (.ok x, sx)) :
    x.1 = s.cr ∧ x.2.1 = join [w.tfDir, s.cr.UID] ∧ sx.cr = s.cr := by
  have hcr := (frames_connectBeforeModule w s).1
  rw [h] at hcr
  unfold connectBeforeModule at h
  obtain ⟨cr, s0, h0, h⟩ := bind_ok_inv h
  cases h0
  obtain ⟨_, _, _, h⟩ := bind_ok_inv h
  obtain ⟨_, _, _, h⟩ := bind_ok_inv h
  obtain ⟨_, _, _, h⟩ := bind_ok_inv h
  obtain ⟨_, _, _, h⟩ := bind_ok_inv h
  obtain ⟨_, _, _, h⟩ := bind_ok_inv h
  obtain ⟨_, _, _, h⟩ := bind_ok_inv h
  obtain ⟨_, _, _, h⟩ := bind_ok_inv h
  cases h
  exact ⟨rfl, rfl, hcr⟩

/-- The module step for an inline module: one write, of the module text, to the file
`inlineFileName` of the directory. -/
theorem materializeModule_inline (w : World) (cr : Workspace) (dir : Str) (s : St)
    (hsrc : cr.ForProvider.Source = ModuleSourceInline) :
    materializeModule w cr dir s =
      ((match w.writeFile s.trace (join [dir, inlineFileName cr.ForProvider])
          cr.ForProvider.Module with
        | none => .ok ()
        | some e => .error (Err.wrap e (errWriteMain ++ inlineFileName cr.ForProvider))),
       { s with trace := s.trace ++ [Event.writeFile (join [dir, inlineFileName cr.ForProvider])
           cr.ForProvider.Module (w.writeFile s.trace (join [dir, inlineFileName cr.ForProvider])
             cr.ForProvider.Module)] }) := by
  have hne : ¬ ModuleSourceInline = ModuleSourceRemote := by decide
  unfold materializeModule inlineFileName
  simp only [hsrc, hne, if_false, if_true, bind_apply, ask_apply]
  cases w.writeFile s.trace
    (join [dir, if cr.ForProvider.InlineFormat = FileFormatJSON then tfMainJSON else tfMain])
    cr.ForProvider.Module <;> rfl

theorem bind_extends {P : Event → Prop} {α β : Type} (m : Run α) {f : α → Run β}
    (hf : ∀ a, Frames P (f a)) (s : St) : (m s).2.trace <+: ((m >>= f) s).2.trace := by
  rw [bind_apply]
  rcases hm : m s with ⟨r, s1⟩
  cases r with
  | error e => exact List.prefix_refl _
  | ok a => exact frames_extends (hf a) (r := (f a s1).1) rfl

/-- C20. For an inline module, once the steps before the module have succeeded, the
module step of `Connect` is one write: of exactly the Module string, to the file
`main.tf.json` (inline format JSON) or `main.tf` (any other format, or none) of the
working directory `<tfDir>/<UID>`.  That write is part of the interactions of
`Connect`; the module step succeeds if it does, and if it fails with cause `e`,
`Connect` ends there and returns `e` wrapped with `cannot write tofu configuration `
followed by the file name. -/
theorem connect_writes_inline_module (w : World) (s sx : St)
    (x : Workspace × Str × ProviderConfigSpec) (res : Option Err)
    (hsrc : s.cr.ForProvider.Source = ModuleSourceInline)
    (hpre : connectBeforeModule w s = (.ok x, sx))
    (hres : w.writeFile sx.trace (inlineModulePath w s.cr) s.cr.ForProvider.Module = res) :
    (s.cr.ForProvider.InlineFormat = FileFormatJSON →
      inlineFileName s.cr.ForProvider = "main.tf.json".toList)
    ∧ (s.cr.ForProvider.InlineFormat ≠ FileFormatJSON →
      inlineFileName s.cr.ForProvider = "main.tf".toList)
    ∧ inlineModulePath w s.cr = join [join [w.tfDir, s.cr.UID], inlineFileName s.cr.ForProvider]
    ∧ (materializeModule w x.1 x.2.1 sx).2 =
        { sx with trace := sx.trace ++ [Event.writeFile (inlineModulePath w s.cr)
            s.cr.ForProvider.Module res] }
    ∧ (res = none → (materializeModule w x.1 x.2.1 sx).1 = .ok ())
    ∧ sx.trace ++ [Event.writeFile (inlineModulePath w s.cr) s.cr.ForProvider.Module res]
        <+: (Connect w s).2.trace
    ∧ (∀ e, res = some e →
        Connect w s = (.error (Err.wrap e (errWriteMain ++ inlineFileName s.cr.ForProvider)),
          { sx with trace := sx.trace ++ [Event.writeFile (inlineModulePath w s.cr)
              s.cr.ForProvider.Module (some e)] })) := by
  obtain ⟨hx1, hx2, -⟩ := connectBeforeModule_ok w s sx x hpre
  have hmod := materializeModule_inline w x.1 x.2.1 sx (by rw [hx1]; exact hsrc)
  rw [hx1, hx2] at hmod
  have hres1 : w.writeFile sx.trace (join [join [w.tfDir, s.cr.UID],
      inlineFileName s.cr.ForProvider]) s.cr.ForProvider.Module = res := hres
  rw [hres1] at hmod
  have hC := connect_from_module w s sx x hpre
  refine ⟨?_, ?_, rfl, ?_, ?_, ?_, ?_⟩
  · intro hj
    unfold inlineFileName
    rw [if_pos hj]
    rfl
  · intro hj
    unfold inlineFileName
    rw [if_neg hj]
    rfl
  · rw [hx1, hx2, hmod]
    rfl
  · intro hn
    rw [hx1, hx2, hmod, hn]
  · rw [hC]
    have hext := bind_extends (P := fun _ => True) (materializeModule w x.1 x.2.1)
      (f := fun _ => connectFiles w x.1 x.2.1 x.2.2 >>= fun y =>
        loop (resolveEnv w) [] x.1.ForProvider.Env >>= fun envs =>
        connectTofu w { dir := y.1, pc := y.2, envs := envs })
      (fun _ => frames_bind (frames_connectFiles w _ _ _) (fun _ =>
        frames_bind (frames_mono (fun _ _ => trivial) (frames_loop (frames_resolveEnv w) _ _))
          (fun _ => frames_connectTofu w _))) sx
    rw [hx1, hx2, hmod] at hext
    rw [hx1, hx2]
    exact hext
  · intro e he
    subst he
    rw [hC]
    refine bind_error ?_
    rw [hx1, hx2, hmod]
    rfl

theorem connect_writes_inline_module_witness :
    (connectBeforeModule calmWorld ⟨sampleWorkspace, []⟩).2.trace
        ++ [Event.writeFile (inlineModulePath calmWorld sampleWorkspace)
            sampleWorkspace.ForProvider.Module none]
      <+: (Connect calmWorld ⟨sampleWorkspace, []⟩).2.trace
    ∧ inlineModulePath calmWorld sampleWorkspace = "/tofu/no-you-id/main.tf".toList
    ∧ sampleWorkspace.ForProvider.Module = "I'm HCL!".toList :=
  ⟨(connect_writes_inline_module calmWorld ⟨sampleWorkspace, []⟩
      (connectBeforeModule calmWorld ⟨sampleWorkspace, []⟩).2
      (sampleWorkspace, "/tofu/no-you-id".toList, sampleProviderConfig) none
      (by decide!) (by decide!) (by decide!)).2.2.2.2.2.1, by decide!, rfl⟩

/-! ### The environment variables -/

/-- One environment variable: the read it makes and the entry it appends. -/
theorem resolveEnv_apply (w : World) (envs : List Str) (env : EnvVar) (s : St) :
    resolveEnv w envs env s =
      if env.Value = [] then
        match env.ConfigMapKeyReference, env.SecretKeyReference with
        | some r, _ =>
          match w.getConfigMap s.trace r.Namespace r.Name with
          | .ok cm =>
            ((match cm.get r.Key with
              | some v => .ok (envs ++ [env.Name ++ "=".toList ++ v])
              | none => .error (Err.wrap (errKeyNotFound "ConfigMap".toList r) errVarResolution)),
             { s with trace := s.trace ++ [Event.getConfigMap r.Namespace r.Name (.ok cm)] })
          | .error e =>
            (.error (Err.wrap e errVarResolution),
             { s with trace := s.trace ++ [Event.getConfigMap r.Namespace r.Name (.error e)] })
        | none, some r =>
          match w.getSecret s.trace r.Namespace r.Name with
          | .ok sec =>
            ((match sec.get r.Key with
              | some v => .ok (envs ++ [env.Name ++ "=".toList ++ v])
              | none => .error (Err.wrap (errKeyNotFound "Secret".toList r) errVarResolution)),
             { s with trace := s.trace ++ [Event.getSecret r.Namespace r.Name (.ok sec)] })
          | .error e =>
            (.error (Err.wrap e errVarResolution),
             { s with trace := s.trace ++ [Event.getSecret r.Namespace r.Name (.error e)] })
        | none, none => (.ok (envs ++ [env.Name ++ "=".toList ++ env.Value]), s)
      else (.ok (envs ++ [env.Name ++ "=".toList ++ env.Value]), s) := by
  unfold resolveEnv
  by_cases hv : env.Value = []
  · simp only [if_pos hv]
    cases env.ConfigMapKeyReference with
    | some r =>
      simp only [bind_apply, ask_apply]
      cases w.getConfigMap s.trace r.Namespace r.Name with
      | error e => rfl
      | ok cm =>
        simp only [getOrFail, pure_apply]
        cases cm.get r.Key <;> rfl
    | none =>
      cases env.SecretKeyReference with
      | some r =>
        simp only [bind_apply, ask_apply]
        cases w.getSecret s.trace r.Namespace r.Name with
        | error e => rfl
        | ok sec =>
          simp only [getOrFail, pure_apply]
          cases sec.get r.Key <;> rfl
      | none => rfl
  · simp only [if_neg hv]
    rfl

/-- A completed loop over the environment variables has made exactly the reads the
variables declare, and has appended the entries read off them. -/
theorem loop_resolveEnv_ok (w : World) (l : List EnvVar) (acc : List Str) (s s1 : St)
    (out : List Str) (h : loop (resolveEnv w) acc l s = (.ok out, s1)) :
    ∃ evs es, s1.trace = s.trace ++ evs ∧ readEnv l evs = some es ∧ out = acc ++ es := by
  induction l generalizing acc s with
  | nil =>
    cases h
    exact ⟨[], [], by simp, rfl, by simp⟩
  | cons env rest ih =>
    rw [loop_cons_apply, resolveEnv_apply] at h
    by_cases hv : env.Value = []
    · rw [if_pos hv] at h
      cases hc : env.ConfigMapKeyReference with
      | some r =>
        simp only [hc] at h
        cases hq : w.getConfigMap s.trace r.Namespace r.Name with
        | error e => simp only [hq] at h; cases h
        | ok cm =>
          simp only [hq] at h
          cases hk : cm.get r.Key with
          | none => simp only [hk] at h; cases h
          | some v =>
            simp only [hk] at h
            obtain ⟨evs, es, htr, hrd, ho⟩ := ih _ _ h
            refine ⟨Event.getConfigMap r.Namespace r.Name (.ok cm) :: evs,
              (env.Name ++ "=".toList ++ v) :: es, ?_, ?_, ?_⟩
            · rw [htr]; simp
            · simp [readEnv, hv, hc, hk, hrd]
            · rw [ho]; simp
      | none =>
        cases hsr : env.SecretKeyReference with
        | some r =>
          simp only [hc, hsr] at h
          cases hq : w.getSecret s.trace r.Namespace r.Name with
          | error e => simp only [hq] at h; cases h
          | ok sec =>
            simp only [hq] at h
            cases hk : sec.get r.Key with
            | none => simp only [hk] at h; cases h
            | some v =>
              simp only [hk] at h
              obtain ⟨evs, es, htr, hrd, ho⟩ := ih _ _ h
              refine ⟨Event.getSecret r.Namespace r.Name (.ok sec) :: evs,
                (env.Name ++ "=".toList ++ v) :: es, ?_, ?_, ?_⟩
              · rw [htr]; simp
              · simp [readEnv, hv, hc, hsr, hk, hrd]
              · rw [ho]; simp
        | none =>
          simp only [hc, hsr] at h
          obtain ⟨evs, es, htr, hrd, ho⟩ := ih _ _ h
          refine ⟨evs, (env.Name ++ "=".toList) :: es, htr, ?_, ?_⟩
          · simp [readEnv, hv, hc, hsr, hrd]
          · rw [ho, hv]; simp
    · rw [if_neg hv] at h
      obtain ⟨evs, es, htr, hrd, ho⟩ := ih _ _ h
      refine ⟨evs, (env.Name ++ "=".toList ++ env.Value) :: es, htr, ?_, ?_⟩
      · simp [readEnv, hv, hrd]
      · rw [ho]; simp

theorem readEnv_length (l : List EnvVar) (evs : List Event) (es : List Str)
    (h : readEnv l evs = some es) : es.length = l.length := by
  induction l generalizing evs es with
  | nil =>
    cases evs with
    | nil => cases h; rfl
    | cons e rest => cases h
  | cons env rest ih =>
    unfold readEnv at h
    split at h
    · obtain ⟨es1, h1, rfl⟩ := Option.map_eq_some'.mp h
      simp [ih _ _ h1]
    · split at h
      · split at h
        · split at h
          · obtain ⟨es1, h1, rfl⟩ := Option.map_eq_some'.mp h
            simp [ih _ _ h1]
          · cases h
        · cases h
      · split at h
        · split at h
          · obtain ⟨es1, h1, rfl⟩ := Option.map_eq_some'.mp h
            simp [ih _ _ h1]
          · cases h
        · cases h
      · obtain ⟨es1, h1, rfl⟩ := Option.map_eq_some'.mp h
        simp [ih _ _ h1]
      · cases h

/-- A loop returns the error of the first body that fails. -/
theorem loop_split_error {α β : Type} (body : β → α → Run β) (pre post : List α) (a : α)
    (acc acc1 : β) (s s1 s2 : St) (e : Err)
    (hpre : loop body acc pre s = (.ok acc1, s1)) (ha : body acc1 a s1 = (.error e, s2)) :
    loop body acc (pre ++ a :: post) s = (.error e, s2) := by
  induction pre generalizing acc s with
  | nil =>
    cases hpre
    rw [List.nil_append, loop_cons_apply, ha]
  | cons b rest ih =>
    rw [loop_cons_apply] at hpre
    rw [List.cons_append, loop_cons_apply]
    rcases hb : body acc b s with ⟨r, sb⟩
    rw [hb] at hpre
    cases r with
    | error e1 => cases hpre
    | ok accb => exact ih _ _ hpre

/-- The client `Connect` returns holds the harness built from the setup. -/
theorem connectTofu_ok_client (w : World) (su : ConnectSetup) (s1 s2 : St) (r : ConnectResult)
    (h : connectTofu w su s1 = (.ok r, s2)) : r.client.tofu = newHarness su s1.cr := by
  have hinit : ∀ s3 : St, connectInit w su s1.cr (newHarness su s1.cr) s3 = (.ok r, s2) →
      r.client.tofu = newHarness su s1.cr := by
    intro s3 h3
    rw [connectInit_apply] at h3
    cases hi : w.tofuInit s3.trace (newHarness su s1.cr) (initOptions su s1.cr) with
    | some e => simp only [hi] at h3; cases h3
    | none =>
      simp only [hi] at h3
      cases h3
      rfl
  unfold connectTofu at h
  by_cases hemp : s1.cr.Status.AtProvider.Checksum = []
  · simp only [bind_apply, getCr, hemp, ne_eq, not_true_eq_false, if_false] at h
    exact hinit _ h
  · cases hq : w.tofuGenerateChecksum s1.trace (newHarness su s1.cr) with
    | error e =>
      simp only [bind_apply, getCr, ne_eq, hemp, not_false_eq_true, if_true, ask_apply, hq,
        getOrFail, fail_apply] at h
      cases h
    | ok cs =>
      by_cases hcs : s1.cr.Status.AtProvider.Checksum = cs
      · subst hcs
        simp only [bind_apply, getCr, ne_eq, hemp, not_false_eq_true, if_true, ask_apply, hq,
          getOrFail, pure_apply] at h
        cases h
        rfl
      · simp only [bind_apply, getCr, ne_eq, hemp, not_false_eq_true, if_true, ask_apply, hq,
          getOrFail, pure_apply, hcs, if_false] at h
        exact hinit _ h

theorem frames_connectBeforeEnv (w : World) : Frames (fun _ => True) (connectBeforeEnv w) := by
  unfold connectBeforeEnv
  repeat (first
    | exact frames_pure _
    | exact frames_connectBeforeModule w
    | exact frames_connectFiles w _ _ _
    | exact frames_mono (fun _ _ => trivial) (frames_materializeModule w _ _)
    | refine frames_bind ?_ (fun _ => ?_))

/-- What the stages before the environment variables yield: the managed resource, left
as it was. -/
theorem connectBeforeEnv_ok (w : World) (s sx : St) (x : Workspace × Str × ProviderConfigSpec)
    (h : connectBeforeEnv w s = (.ok x, sx)) : x.1 = s.cr ∧ sx.cr = s.cr := by
  have hcr := (frames_connectBeforeEnv w s).1
  rw [h] at hcr
  unfold connectBeforeEnv at h
  obtain ⟨x0, s0, h0, h⟩ := bind_ok_inv h
  obtain ⟨_, _, _, h⟩ := bind_ok_inv h
  obtain ⟨_, _, _, h⟩ := bind_ok_inv h
  cases h
  exact ⟨(connectBeforeModule_ok w s s0 x0 h0).1, hcr⟩

/-- C19. Once the steps of `Connect` before the environment variables have succeeded:
if the loop over the variables completes, the entries it has built are those read off
its reads — for each declared variable in declared order, `Name=` followed by the
literal value if that is non-empty, otherwise by the value under the referenced key of
the ConfigMap if a ConfigMap reference is set, otherwise by the value under the
referenced key of the Secret if a Secret reference is set — one per variable, and they
are the environment of the harness of the client `Connect` returns.  If a variable
without literal value refers to a key that is absent from the ConfigMap (or, having no
ConfigMap reference, from the Secret) that was read, `Connect` returns a `cannot
resolve variables` error. -/
theorem connect_resolves_env (w : World) (s sx : St) (x : Workspace × Str × ProviderConfigSpec)
    (hpre : connectBeforeEnv w s = (.ok x, sx)) :
    (∀ envs sy, loop (resolveEnv w) [] s.cr.ForProvider.Env sx = (.ok envs, sy) →
      readEnv s.cr.ForProvider.Env (newEvents sx.trace sy.trace) = some envs
      ∧ envs.length = s.cr.ForProvider.Env.length
      ∧ ∀ r s2, Connect w s = (.ok r, s2) → r.client.tofu.Envs = envs)
    ∧ (∀ pre env post acc sy ref data, s.cr.ForProvider.Env = pre ++ env :: post →
        loop (resolveEnv w) [] pre sx = (.ok acc, sy) → env.Value = [] →
        env.ConfigMapKeyReference = some ref →
        w.getConfigMap sy.trace ref.Namespace ref.Name = .ok data → data.get ref.Key = none →
        (Connect w s).1
          = .error (Err.wrap (errKeyNotFound "ConfigMap".toList ref) errVarResolution))
    ∧ (∀ pre env post acc sy ref data, s.cr.ForProvider.Env = pre ++ env :: post →
        loop (resolveEnv w) [] pre sx = (.ok acc, sy) → env.Value = [] →
        env.ConfigMapKeyReference = none → env.SecretKeyReference = some ref →
        w.getSecret sy.trace ref.Namespace ref.Name = .ok data → data.get ref.Key = none →
        (Connect w s).1
          = .error (Err.wrap (errKeyNotFound "Secret".toList ref) errVarResolution)) := by
  obtain ⟨hx1, hsx⟩ := connectBeforeEnv_ok w s sx x hpre
  have hC := connect_from_env w s sx x hpre
  rw [hx1] at hC
  refine ⟨?_, ?_, ?_⟩
  · intro envs sy hl
    obtain ⟨evs, es, htr, hrd, ho⟩ := loop_resolveEnv_ok w _ _ _ _ _ hl
    rw [List.nil_append] at ho
    subst ho
    refine ⟨by rw [htr, newEvents_append]; exact hrd, readEnv_length _ _ _ hrd, ?_⟩
    intro r s2 hr
    rw [hC, bind_ok hl] at hr
    rw [connectTofu_ok_client w _ sy s2 r hr]
    rfl
  · intro pre env post acc sy ref data hsplit hloop hv hc hq hk
    have hstep : resolveEnv w acc env sy
        = (.error (Err.wrap (errKeyNotFound "ConfigMap".toList ref) errVarResolution),
           { sy with trace := sy.trace ++ [Event.getConfigMap ref.Namespace ref.Name
             (.ok data)] }) := by
      rw [resolveEnv_apply, if_pos hv]
      simp only [hc, hq, hk]
    have hl := loop_split_error (resolveEnv w) pre post env _ _ _ _ _ _ hloop hstep
    rw [← hsplit] at hl
    rw [hC, bind_error hl]
  · intro pre env post acc sy ref data hsplit hloop hv hc hsr hq hk
    have hstep : resolveEnv w acc env sy
        = (.error (Err.wrap (errKeyNotFound "Secret".toList ref) errVarResolution),
           { sy with trace := sy.trace ++ [Event.getSecret ref.Namespace ref.Name
             (.ok data)] }) := by
      rw [resolveEnv_apply, if_pos hv]
      simp only [hc, hsr, hq, hk]
    have hl := loop_split_error (resolveEnv w) pre post env _ _ _ _ _ _ hloop hstep
    rw [← hsplit] at hl
    rw [hC, bind_error hl]

theorem connect_resolves_env_witness :
    readEnv envWorkspace.ForProvider.Env
        (newEvents (connectBeforeEnv calmWorld ⟨envWorkspace, []⟩).2.trace
          (connectSetup calmWorld ⟨envWorkspace, []⟩).2.trace)
      = some ["A=1".toList, "B=a = 1".toList, "C=b = 2".toList]
    ∧ (Connect calmWorld ⟨missingEnvWorkspace, []⟩).1
      = .error (Err.wrap (errKeyNotFound "ConfigMap".toList missingKeyReference)
          errVarResolution) :=
  ⟨((connect_resolves_env calmWorld ⟨envWorkspace, []⟩
      (connectBeforeEnv calmWorld ⟨envWorkspace, []⟩).2
      (envWorkspace, "/tofu/no-you-id".toList, sampleSetup.pc) (by decide!)).1
      ["A=1".toList, "B=a = 1".toList, "C=b = 2".toList]
      (connectSetup calmWorld ⟨envWorkspace, []⟩).2 (by decide!)).1,
   (connect_resolves_env calmWorld ⟨missingEnvWorkspace, []⟩
      (connectBeforeEnv calmWorld ⟨missingEnvWorkspace, []⟩).2
      (missingEnvWorkspace, "/tofu/no-you-id".toList, sampleSetup.pc) (by decide!)).2.1
      [literalEnv] missingEnv [secretEnv] ["A=1".toList]
      (connectBeforeEnv calmWorld ⟨missingEnvWorkspace, []⟩).2 missingKeyReference
      [("vars".toList, "a = 1".toList)] rfl (by decide!) rfl rfl (by decide!) (by decide!)⟩

/-! ### Failed removals -/

/-- The loop over the directory entries tries every orphan, whatever the earlier
removals answered, and records the paths of those that failed. -/
theorem collect_loop_all (w : World) (gc : GarbageCollector) (uids : List Str)
    (fis : List FileInfo) (st : CollectState) :
    ∃ answers : List (Option Err), answers.length = (orphans w uids fis).length
      ∧ fis.foldl (collectStep w gc (existsMap uids)) st
        = { failed := st.failed ++ failedPaths gc (orphans w uids fis) answers,
            trace := st.trace ++ removals gc (orphans w uids fis) answers } := by
  induction fis generalizing st with
  | nil => exact ⟨[], rfl, by simp [orphans, failedPaths, removals]⟩
  | cons fi rest ih =>
    simp only [List.foldl]
    by_cases hk : (fi.IsDir && isUUID w fi.Name && !decide (fi.Name ∈ uids)) = true
    · have horph : orphans w uids (fi :: rest) = fi :: orphans w uids rest := by
        simp only [orphans, List.filter_cons, hk, if_true]
      simp only [Bool.and_eq_true, Bool.not_eq_true', decide_eq_false_iff_not] at hk
      obtain ⟨⟨h1, h2⟩, h3⟩ := hk
      cases hr : w.removeAll st.trace (join [gc.parentDir, fi.Name]) with
      | none =>
        have hstep : collectStep w gc (existsMap uids) st fi
            = { failed := st.failed,
                trace := st.trace ++ [Event.removeAll (join [gc.parentDir, fi.Name]) none] } := by
          unfold collectStep
          simp [h1, h2, h3, existsMap_get, hr]
        obtain ⟨answers, hlen, hfold⟩ := ih (collectStep w gc (existsMap uids) st fi)
        refine ⟨none :: answers, by rw [horph]; simp [hlen], ?_⟩
        rw [hfold, hstep, horph]
        simp [failedPaths, removals, List.filter_cons]
      | some e =>
        have hstep : collectStep w gc (existsMap uids) st fi
            = { failed := st.failed ++ [join [gc.parentDir, fi.Name]],
                trace := st.trace
                  ++ [Event.removeAll (join [gc.parentDir, fi.Name]) (some e)] } := by
          unfold collectStep
          simp [h1, h2, h3, existsMap_get, hr]
        obtain ⟨answers, hlen, hfold⟩ := ih (collectStep w gc (existsMap uids) st fi)
        refine ⟨some e :: answers, by rw [horph]; simp [hlen], ?_⟩
        rw [hfold, hstep, horph]
        simp [failedPaths, removals, List.filter_cons]
    · have horph : orphans w uids (fi :: rest) = orphans w uids rest := by
        simp only [orphans, List.filter_cons, hk, if_false]
        rfl
      have hstep : collectStep w gc (existsMap uids) st fi = st := by
        unfold collectStep
        rw [existsMap_get]
        cases h1 : fi.IsDir <;> cases h2 : isUUID w fi.Name <;> by_cases h3 : fi.Name ∈ uids <;>
          simp_all
      rw [hstep, horph]
      exact ih st

theorem failedPaths_eq_nil (gc : GarbageCollector) (fis : List FileInfo)
    (answers : List (Option Err)) (hlen : answers.length = fis.length) :
    failedPaths gc fis answers = [] ↔ ∀ r ∈ answers, r = none := by
  induction fis generalizing answers with
  | nil =>
    cases answers with
    | nil => simp [failedPaths]
    | cons a as => simp at hlen
  | cons fi rest ih =>
    cases answers with
    | nil => simp at hlen
    | cons a as =>
      have hl : as.length = rest.length := by simpa using hlen
      have := ih as hl
      unfold failedPaths at this ⊢
      cases a with
      | none => simpa [List.filter_cons] using this
      | some e => simp [List.filter_cons]

/-- C21. In a collection pass in which listing the live Workspaces and reading the root
succeed, every orphaned directory is tried, in the order of the listing, whatever the
earlier removals answered.  The pass returns no error exactly when every removal
succeeded; otherwise it returns the single error `could not delete directories: `
followed by the paths whose removal failed, in the order of the listing, joined by
`, `. -/
theorem collect_reports_failed_removals (w : World) (gc : GarbageCollector)
    (namespaced : Bool) (t : Trace) (uids : List Str) (fis : List FileInfo)
    (hlist : w.listWorkspaces t namespaced = .ok uids)
    (hread : w.readDir (t ++ [Event.listWorkspaces namespaced (.ok uids)]) gc.parentDir
      = .ok fis) :
    ∃ answers : List (Option Err), answers.length = (orphans w uids fis).length
      ∧ newEvents t (collect w gc namespaced t).2
          = [Event.listWorkspaces namespaced (.ok uids), Event.readDir gc.parentDir (.ok fis)]
            ++ removals gc (orphans w uids fis) answers
      ∧ ((collect w gc namespaced t).1 = none ↔ ∀ r ∈ answers, r = none)
      ∧ ((∃ r ∈ answers, r ≠ none) →
          (collect w gc namespaced t).1
            = some (Err.new ("could not delete directories: ".toList
                ++ List.intercalate ", ".toList
                    (failedPaths gc (orphans w uids fis) answers)))) := by
  obtain ⟨answers, hlen, hfold⟩ := collect_loop_all w gc uids fis
    { failed := [], trace := t ++ [Event.listWorkspaces namespaced (.ok uids)]
        ++ [Event.readDir gc.parentDir (.ok fis)] }
  have hnil := failedPaths_eq_nil gc (orphans w uids fis) answers hlen
  have hc : collect w gc namespaced t
      = (if (failedPaths gc (orphans w uids fis) answers).length > 0 then
          some (Err.new ("could not delete directories: ".toList
            ++ List.intercalate ", ".toList (failedPaths gc (orphans w uids fis) answers)))
         else none,
         t ++ [Event.listWorkspaces namespaced (.ok uids)]
          ++ [Event.readDir gc.parentDir (.ok fis)]
          ++ removals gc (orphans w uids fis) answers) := by
    unfold collect
    simp only [hlist, hread, hfold, List.nil_append]
    split <;> rfl
  refine ⟨answers, hlen, ?_, ?_, ?_⟩
  · rw [hc]
    simp only [List.append_assoc, newEvents_append]
    rfl
  · rw [hc, ← hnil]
    cases hf : failedPaths gc (orphans w uids fis) answers <;> simp
  · rintro ⟨r, hr, hne⟩
    have hfne : failedPaths gc (orphans w uids fis) answers ≠ [] :=
      fun h => hne (hnil.mp h r hr)
    rw [hc]
    simp only [gt_iff_lt, List.length_pos, ne_eq, hfne, not_false_eq_true, if_true]

theorem collect_reports_failed_removals_witness :
    (collect stubbornWorld sampleCollector true []).1
      = some (Err.new ("could not delete directories: /tofu/".toList ++ uuidB
          ++ ", /tofu/".toList ++ uuidC))
    ∧ ∃ answers : List (Option Err),
      answers.length = (orphans stubbornWorld [] [⟨uuidB, true⟩, ⟨uuidA, true⟩,
        ⟨uuidC, true⟩]).length
      ∧ newEvents [] (collect stubbornWorld sampleCollector true []).2
          = [Event.listWorkspaces true (.ok []),
             Event.readDir sampleCollector.parentDir
               (.ok [⟨uuidB, true⟩, ⟨uuidA, true⟩, ⟨uuidC, true⟩])]
            ++ removals sampleCollector (orphans stubbornWorld []
                [⟨uuidB, true⟩, ⟨uuidA, true⟩, ⟨uuidC, true⟩]) answers
      ∧ ((collect stubbornWorld sampleCollector true []).1 = none ↔ ∀ r ∈ answers, r = none)
      ∧ ((∃ r ∈ answers, r ≠ none) →
          (collect stubbornWorld sampleCollector true []).1
            = some (Err.new ("could not delete directories: ".toList
                ++ List.intercalate ", ".toList
                    (failedPaths sampleCollector (orphans stubbornWorld []
                      [⟨uuidB, true⟩, ⟨uuidA, true⟩, ⟨uuidC, true⟩]) answers)))) :=
  ⟨by decide!, collect_reports_failed_removals stubbornWorld sampleCollector true [] []
    [⟨uuidB, true⟩, ⟨uuidA, true⟩, ⟨uuidC, true⟩] rfl rfl⟩

/-! ### The harness operations of `Observe` -/

theorem phase_pure {α : Type} (a : α) : Phase [] (pure a : Run α) :=
  fun s => ⟨[], by simp [pure_apply], by simp [harnessOps]⟩

theorem phase_fail {α : Type} (e : Err) : Phase [] (fail e : Run α) :=
  fun s => ⟨[], by simp [fail_apply], by simp [harnessOps]⟩

theorem phase_getCr : Phase [] getCr :=
  fun s => ⟨[], by simp [getCr], by simp [harnessOps]⟩

theorem phase_setCr (cr : Workspace) : Phase [] (setCr cr) :=
  fun s => ⟨[], by simp [setCr], by simp [harnessOps]⟩

theorem phase_orFail (tag : Str) (err : Option Err) : Phase [] (orFail tag err) := by
  cases err with
  | none => exact phase_pure _
  | some e => exact phase_fail _

theorem phase_getOrFail {α : Type} (tag : Str) (r : Except Err α) :
    Phase [] (getOrFail tag r) := by
  cases r with
  | ok a => exact phase_pure _
  | error e => exact phase_fail _

theorem phase_ask {β : Type} (q : Trace → β) (ev : β → Event) (op : HarnessOp)
    (h : ∀ r, (ev r).harnessOp = some op) : Phase [op] (ask q ev) :=
  fun s => ⟨[ev (q s.trace)], by simp [ask_apply], by simp [harnessOps, h]⟩

theorem phase_mono {a b : List HarnessOp} {α : Type} {m : Run α} (h : a.Sublist b)
    (hm : Phase a m) : Phase b m := by
  intro s
  obtain ⟨evs, htr, hs⟩ := hm s
  exact ⟨evs, htr, hs.trans h⟩

theorem phase_bind {a b : List HarnessOp} {α β : Type} {m : Run α} {f : α → Run β}
    (hm : Phase a m) (hf : ∀ x, Phase b (f x)) : Phase (a ++ b) (m >>= f) := by
  intro s
  obtain ⟨evs, htr, hs⟩ := hm s
  rw [bind_apply]
  rcases hms : m s with ⟨r, s1⟩
  rw [hms] at htr
  cases r with
  | error e => exact ⟨evs, htr, hs.trans (List.sublist_append_left a b)⟩
  | ok x =>
    obtain ⟨evs2, htr2, hs2⟩ := hf x s1
    refine ⟨evs ++ evs2, ?_, ?_⟩
    · simp only at htr
      show (f x s1).2.trace = _
      rw [htr2, htr, List.append_assoc]
    · unfold harnessOps at hs hs2 ⊢
      rw [List.filterMap_append]
      exact hs.append hs2

theorem phase_of_frames {P : Event → Prop} {α : Type} {m : Run α} (hm : Frames P m)
    (hP : ∀ e, P e → e.harnessOp = none) : Phase [] m := by
  intro s
  obtain ⟨-, evs, htr, hp⟩ := hm s
  refine ⟨evs, htr, ?_⟩
  have : harnessOps evs = [] := by
    unfold harnessOps
    rw [List.filterMap_eq_nil_iff]
    exact fun e he => hP e (hp e he)
  rw [this]

theorem isGet_harnessOp {e : Event} (h : e.isGet = true) : e.harnessOp = none := by
  cases e <;> simp_all [Event.isGet, Event.harnessOp]

theorem phase_wrapRun {a : List HarnessOp} {α : Type} (tag : Str) {m : Run α}
    (hm : Phase a m) : Phase a (wrapRun tag m) := by
  intro s
  obtain ⟨evs, htr, hs⟩ := hm s
  refine ⟨evs, ?_, hs⟩
  unfold wrapRun
  rcases hms : m s with ⟨r, s1⟩
  rw [hms] at htr
  cases r <;> exact htr

theorem phase_options (w : World) (p : WorkspaceParameters) : Phase [] (options w p) :=
  phase_of_frames (frames_options w p) (fun _ => isGet_harnessOp)

theorem phase_nil_bind {b : List HarnessOp} {α β : Type} {m : Run α} {f : α → Run β}
    (hm : Phase [] m) (hf : ∀ x, Phase b (f x)) : Phase b (m >>= f) :=
  phase_bind hm hf

theorem phase_bind_nil {a : List HarnessOp} {α β : Type} {m : Run α} {f : α → Run β}
    (hm : Phase a m) (hf : ∀ x, Phase [] (f x)) : Phase a (m >>= f) := by
  have := phase_bind hm hf
  rwa [List.append_nil] at this

theorem phase_checkDiff (w : World) (c : External) :
    Phase [HarnessOp.Diff] (checkDiff w c) := by
  unfold checkDiff
  refine phase_nil_bind phase_getCr (fun cr => ?_)
  refine phase_nil_bind (phase_wrapRun _ (phase_options w _)) (fun o => ?_)
  refine phase_bind_nil (phase_ask _ _ HarnessOp.Diff (fun _ => rfl)) (fun r => ?_)
  cases r with
  | ok d => exact phase_pure _
  | error e =>
    dsimp only
    split
    · exact phase_fail _
    · exact phase_pure _

theorem phase_observeDelete (w : World) (c : External) (cr : Workspace) (r : List Str) :
    Phase [HarnessOp.DeleteCurrentWorkspace] (observeDelete w c cr r) := by
  unfold observeDelete
  split
  · exact phase_bind_nil (phase_ask _ _ HarnessOp.DeleteCurrentWorkspace (fun _ => rfl))
      (fun _ => phase_orFail _ _)
  · exact phase_mono (List.nil_sublist _) (phase_pure _)

theorem phase_setAtProvider (wo : WorkspaceObservation) : Phase [] (setAtProvider wo) :=
  fun s => ⟨[], by simp [setAtProvider_apply], by simp [harnessOps]⟩

theorem phase_setChecksum (cs : Str) : Phase [] (setChecksum cs) :=
  fun s => ⟨[], by simp [setChecksum_apply], by simp [harnessOps]⟩

theorem phase_setAvailable : Phase [] setAvailable :=
  fun s => ⟨[], by simp [setAvailable_apply], by simp [harnessOps]⟩

theorem phase_observeStatus (w : World) (c : External) (differs : Bool) (r : List Str) :
    Phase [HarnessOp.Outputs, HarnessOp.GenerateChecksum] (observeStatus w c differs r) := by
  unfold observeStatus
  refine phase_bind (a := [HarnessOp.Outputs]) (b := [HarnessOp.GenerateChecksum])
    (phase_ask _ _ HarnessOp.Outputs (fun _ => rfl)) (fun _ => ?_)
  refine phase_nil_bind (phase_getOrFail _ _) (fun op => ?_)
  refine phase_nil_bind (phase_setAtProvider _) (fun _ => ?_)
  refine phase_bind_nil (phase_ask _ _ HarnessOp.GenerateChecksum (fun _ => rfl)) (fun _ => ?_)
  refine phase_nil_bind (phase_getOrFail _ _) (fun cs => ?_)
  refine phase_nil_bind (phase_setChecksum _) (fun _ => ?_)
  dsimp only
  split
  · exact phase_nil_bind phase_setAvailable (fun _ => phase_pure _)
  · exact phase_nil_bind (phase_pure _) (fun _ => phase_pure _)

/-- C22. Whatever the input and the outcome, the harness operations `Observe` invokes
are, in this order and each at most once, some of `Diff`, `Resources`,
`DeleteCurrentWorkspace`, `Outputs` and `GenerateChecksum`; it never invokes `Apply`,
`Destroy`, `Init` or `Workspace`. -/
theorem observe_harness_operations (w : World) (c : External) (s : St) :
    (harnessOps (newEvents s.trace (Observe w c s).2.trace)).Sublist
      [HarnessOp.Diff, HarnessOp.Resources, HarnessOp.DeleteCurrentWorkspace,
       HarnessOp.Outputs, HarnessOp.GenerateChecksum]
    ∧ ∀ e ∈ newEvents s.trace (Observe w c s).2.trace,
        e.harnessOp ≠ some HarnessOp.Apply ∧ e.harnessOp ≠ some HarnessOp.Destroy
        ∧ e.harnessOp ≠ some HarnessOp.Init ∧ e.harnessOp ≠ some HarnessOp.Workspace := by
  have hph : Phase [HarnessOp.Diff, HarnessOp.Resources, HarnessOp.DeleteCurrentWorkspace,
      HarnessOp.Outputs, HarnessOp.GenerateChecksum] (Observe w c) := by
    unfold Observe
    refine phase_nil_bind phase_getCr (fun cr => ?_)
    refine phase_bind (a := [HarnessOp.Diff]) (phase_checkDiff w c) (fun differs => ?_)
    refine phase_bind (a := [HarnessOp.Resources])
      (phase_ask _ _ HarnessOp.Resources (fun _ => rfl)) (fun _ => ?_)
    refine phase_nil_bind (phase_getOrFail _ _) (fun r => ?_)
    exact phase_bind (a := [HarnessOp.DeleteCurrentWorkspace]) (phase_observeDelete w c cr r)
      (fun _ => phase_observeStatus w c differs r)
  obtain ⟨evs, htr, hs⟩ := hph s
  rw [htr, newEvents_append]
  refine ⟨hs, fun e he => ?_⟩
  have hmem : ∀ op, e.harnessOp = some op → op ∈ [HarnessOp.Diff, HarnessOp.Resources,
      HarnessOp.DeleteCurrentWorkspace, HarnessOp.Outputs, HarnessOp.GenerateChecksum] := by
    intro op hop
    apply hs.subset
    unfold harnessOps
    rw [List.mem_filterMap]
    exact ⟨e, he, hop⟩
  refine ⟨fun h => ?_, fun h => ?_, fun h => ?_, fun h => ?_⟩ <;>
    · have := hmem _ h
      simp at this

/-! ### `Update`, `Create` and `Delete` -/

/-- `Update` once the options are resolved. -/
theorem update_apply (w : World) (c : External) (s sa : St) (o : List TfOption)
    (hopt : options w s.cr.ForProvider s = (.ok o, sa)) :
    Update w c s =
      match w.tofuApply sa.trace c.tofu (o ++ [TfOption.WithArgs s.cr.ForProvider.ApplyArgs]) with
      | some e =>
        (.error (Err.wrap e errApply),
         { sa with trace := sa.trace ++ [Event.tofuApply c.tofu
             (o ++ [TfOption.WithArgs s.cr.ForProvider.ApplyArgs]) (some e)] })
      | none =>
        match w.tofuOutputs (sa.trace ++ [Event.tofuApply c.tofu
            (o ++ [TfOption.WithArgs s.cr.ForProvider.ApplyArgs]) none]) c.tofu with
        | .error e =>
          (.error (Err.wrap e errOutputs),
           { sa with trace := sa.trace ++ [Event.tofuApply c.tofu
               (o ++ [TfOption.WithArgs s.cr.ForProvider.ApplyArgs]) none]
               ++ [Event.tofuOutputs c.tofu (.error e)] })
        | .ok op =>
          (.ok { ConnectionDetails := op2cd op },
           { cr := (sa.cr.setAtProvider (generateWorkspaceObservation op)).setAvailable,
             trace := sa.trace ++ [Event.tofuApply c.tofu
               (o ++ [TfOption.WithArgs s.cr.ForProvider.ApplyArgs]) none]
               ++ [Event.tofuOutputs c.tofu (.ok op)] }) := by
  unfold Update
  simp only [bind_apply, getCr, wrapRun_ok hopt, ask_apply]
  cases hap : w.tofuApply sa.trace c.tofu
      (o ++ [TfOption.WithArgs s.cr.ForProvider.ApplyArgs]) with
  | some e => simp only [orFail, fail_apply]
  | none =>
    simp only [orFail, pure_apply]
    cases hop : w.tofuOutputs (sa.trace ++ [Event.tofuApply c.tofu
        (o ++ [TfOption.WithArgs s.cr.ForProvider.ApplyArgs]) none]) c.tofu with
    | error e => simp only [getOrFail, fail_apply]
    | ok op => simp only [getOrFail, pure_apply, setAtProvider_apply, setAvailable_apply]

theorem mem_setCondition (cs : List Condition) (c : Condition) : c ∈ setCondition cs c := by
  unfold setCondition
  split
  · rename_i h
    obtain ⟨x, hx, hxt⟩ := List.any_eq_true.mp h
    have hxt1 : x.Typ = c.Typ := by simpa using hxt
    exact List.mem_map.mpr ⟨x, hx, by rw [if_pos hxt1]⟩
  · simp

/-- Every entry of the observed outputs is the JSON encoding of a non-sensitive output
of that name. -/
theorem observation_entry_source (op : List Output) (k : Str) (v : Bytes)
    (hv : (generateWorkspaceObservation op).Outputs.get k = some v) :
    ∃ o ∈ op, o.Name = k ∧ o.Sensitive = false ∧ o.JSONValue = .ok v := by
  rw [observation_eq_foldl] at hv
  rcases foldl_set_get_source _ _ _ _ _ hv with h0 | ⟨o, ho, hn, hf⟩
  · cases h0
  · by_cases hs : o.Sensitive = true
    · simp [hs] at hf
    · rw [if_neg hs] at hf
      refine ⟨o, ho, hn, by simpa using hs, ?_⟩
      cases hj : o.JSONValue with
      | error e => rw [hj] at hf; cases hf
      | ok j =>
        rw [hj] at hf
        simp only [Except.toOption, Option.some.injEq] at hf
        rw [hf]

/-- Every non-sensitive output that can be encoded has an entry under its name in the
observed outputs. -/
theorem observation_entry_present (op : List Output) (o : Output) (ho : o ∈ op)
    (hs : o.Sensitive = false) (j : Bytes) (hj : o.JSONValue = .ok j) :
    (generateWorkspaceObservation op).Outputs.get o.Name ≠ none := by
  rw [observation_eq_foldl]
  exact foldl_set_get_present _ _ _ _
    (Or.inr ⟨o, ho, rfl, by simp [hs, hj, Except.toOption]⟩)

/-- C23. Once the options are resolved, `Update` invokes `Apply` with them followed by
the ApplyArgs as the last option.  If `Apply` answers nil and `Outputs` answers the
outputs `op`, `Update` returns the connection details `op2cd op`; the status holds the
observation built from `op` and the condition `Available`; the status `Outputs` are the
non-sensitive outputs as JSON: every entry is the JSON encoding of a non-sensitive
output of `op` under its name, and every non-sensitive output of `op` that can be
encoded has an entry under its name; and these two calls are the only interactions of
`Update` after the option resolution.  If `Apply` fails with cause `e`, `Update` returns
`e` wrapped with `cannot apply tofu configuration` and `Apply` is its last interaction:
the outputs are not fetched.  `Create` is `Update`. -/
theorem update_applies_and_refreshes (w : World) (c : External) (s sa : St)
    (o : List TfOption) (ap : Option Err)
    (hopt : options w s.cr.ForProvider s = (.ok o, sa))
    (hap : w.tofuApply sa.trace c.tofu (o ++ [TfOption.WithArgs s.cr.ForProvider.ApplyArgs])
      = ap) :
    (ap = none → ∀ op, w.tofuOutputs (sa.trace ++ [Event.tofuApply c.tofu
          (o ++ [TfOption.WithArgs s.cr.ForProvider.ApplyArgs]) none]) c.tofu = .ok op →
      (Update w c s).1 = .ok { ConnectionDetails := op2cd op }
      ∧ newEvents sa.trace (Update w c s).2.trace
          = [Event.tofuApply c.tofu (o ++ [TfOption.WithArgs s.cr.ForProvider.ApplyArgs]) none,
             Event.tofuOutputs c.tofu (.ok op)]
      ∧ (Update w c s).2.cr
          = (s.cr.setAtProvider (generateWorkspaceObservation op)).setAvailable
      ∧ (Update w c s).2.cr.Status.AtProvider.Outputs
          = (generateWorkspaceObservation op).Outputs
      ∧ Available ∈ (Update w c s).2.cr.Status.Conditions
      ∧ (∀ k v, (Update w c s).2.cr.Status.AtProvider.Outputs.get k = some v →
          ∃ out ∈ op, out.Name = k ∧ out.Sensitive = false ∧ out.JSONValue = .ok v)
      ∧ (∀ out ∈ op, out.Sensitive = false → (∃ j, out.JSONValue = .ok j) →
          (Update w c s).2.cr.Status.AtProvider.Outputs.get out.Name ≠ none))
    ∧ (∀ e, ap = some e →
        (Update w c s).1 = .error (Err.wrap e errApply)
        ∧ newEvents sa.trace (Update w c s).2.trace
            = [Event.tofuApply c.tofu (o ++ [TfOption.WithArgs s.cr.ForProvider.ApplyArgs])
                (some e)]
        ∧ (Update w c s).2.cr = s.cr)
    ∧ Create w c s = Update w c s := by
  have hcr : sa.cr = s.cr := by
    have := (frames_options w s.cr.ForProvider s).1
    rw [hopt] at this
    exact this
  have hU := update_apply w c s sa o hopt
  rw [hap] at hU
  refine ⟨?_, ?_, rfl⟩
  · intro hn op hop
    subst hn
    simp only [hop] at hU
    rw [hU]
    have hout : ((sa.cr.setAtProvider (generateWorkspaceObservation op)).setAvailable).Status.AtProvider.Outputs
        = (generateWorkspaceObservation op).Outputs := rfl
    refine ⟨rfl, ?_, ?_, hout, ?_, ?_, ?_⟩
    · simp only [List.append_assoc, newEvents_append]
      rfl
    · simp only [hcr]
    · exact mem_setCondition _ _
    · intro k v hv
      simp only [hout] at hv
      exact observation_entry_source op k v hv
    · intro out ho hs ⟨j, hj⟩
      simp only [hout]
      exact observation_entry_present op out ho hs j hj
  · intro e he
    subst he
    simp only at hU
    rw [hU]
    refine ⟨rfl, ?_, hcr⟩
    simp only [newEvents_append]

theorem update_applies_and_refreshes_witness :
    (Update createWorld sampleExternal ⟨sampleWorkspace, []⟩).1
      = .ok { ConnectionDetails := [("object".toList, "null".toList), ("string".toList, [])] }
    ∧ (Update createWorld sampleExternal ⟨sampleWorkspace, []⟩).2.cr.Status.AtProvider.Outputs
      = [("object".toList, "null".toList)]
    ∧ (Update applyFailsWorld sampleExternal ⟨sampleWorkspace, []⟩).1
      = .error (Err.wrap errBoom errApply) :=
  ⟨((update_applies_and_refreshes createWorld sampleExternal ⟨sampleWorkspace, []⟩
      ⟨sampleWorkspace, []⟩ [] none (by decide!) rfl).1 rfl
      [createStringOutput, createObjectOutput] rfl).1.trans (by decide!),
   ((update_applies_and_refreshes createWorld sampleExternal ⟨sampleWorkspace, []⟩
      ⟨sampleWorkspace, []⟩ [] none (by decide!) rfl).1 rfl
      [createStringOutput, createObjectOutput] rfl).2.2.2.1.trans (by decide!),
   ((update_applies_and_refreshes applyFailsWorld sampleExternal ⟨sampleWorkspace, []⟩
      ⟨sampleWorkspace, []⟩ [] (some errBoom) (by decide!) rfl).2.1 errBoom rfl).1⟩

/-- `Delete` once the options are resolved. -/
theorem delete_apply (w : World) (c : External) (s sa : St) (o : List TfOption)
    (hopt : options w s.cr.ForProvider s = (.ok o, sa)) :
    Delete w c s =
      (.ok (wrapErr (w.tofuDestroy sa.trace c.tofu
          (o ++ [TfOption.WithArgs s.cr.ForProvider.DestroyArgs])) errDestroy),
       { sa with trace := sa.trace ++ [Event.tofuDestroy c.tofu
           (o ++ [TfOption.WithArgs s.cr.ForProvider.DestroyArgs])
           (w.tofuDestroy sa.trace c.tofu
             (o ++ [TfOption.WithArgs s.cr.ForProvider.DestroyArgs]))] }) := by
  unfold Delete
  simp only [bind_apply, getCr, wrapRun_ok hopt, ask_apply, pure_apply]

/-- C24. Let the option resolution of `Delete` end with outcome `r`.  Whenever it
returns (it does unless a var-file lacks the reference its source declares, where it
panics), `Delete` returns a non-nil error exactly when `r` is an error or `Destroy`
fails, and an error `e` of the option resolution comes back as `e` wrapped with `cannot
determine tofu options`.  When the options are resolved, `Destroy` is invoked once, with
them followed by the DestroyArgs, and a failure with cause `e` is returned as `e`
wrapped with `cannot destroy tofu configuration`, for a Workspace marked for deletion
as for any other.  When the option resolution panics, `Delete` returns nothing: the
panic passes through it, and `Destroy` is not invoked. -/
theorem delete_error_iff (w : World) (c : External) (s sa : St)
    (r : Except Err (List TfOption)) (hopt : options w s.cr.ForProvider s = (r, sa)) :
    ((∀ e, r = .error e → e.isPanic = false) →
      (deleteErr (Delete w c s).1 ≠ none ↔
        ((∃ e, r = .error e) ∨ ∃ o e, r = .ok o ∧ w.tofuDestroy sa.trace c.tofu
          (o ++ [TfOption.WithArgs s.cr.ForProvider.DestroyArgs]) = some e)))
    ∧ (∀ e, r = .error e → e.isPanic = false →
        Delete w c s = (.error (Err.wrap e errOptions), sa))
    ∧ (∀ o, r = .ok o →
        newEvents sa.trace (Delete w c s).2.trace
          = [Event.tofuDestroy c.tofu (o ++ [TfOption.WithArgs s.cr.ForProvider.DestroyArgs])
              (w.tofuDestroy sa.trace c.tofu
                (o ++ [TfOption.WithArgs s.cr.ForProvider.DestroyArgs]))]
        ∧ ∀ e, w.tofuDestroy sa.trace c.tofu
            (o ++ [TfOption.WithArgs s.cr.ForProvider.DestroyArgs]) = some e →
          deleteErr (Delete w c s).1 = some (Err.wrap e errDestroy))
    ∧ (∀ e, r = .error e → e.isPanic = true →
        (∃ vf ∈ s.cr.ForProvider.VarFiles, vf.hasReference = false)
        ∧ Delete w c s = (.error Err.nilDeref, sa)) := by
  cases r with
  | error e =>
    refine ⟨?_, ?_, fun o ho => (by cases ho), ?_⟩
    · intro hret
      have hD : Delete w c s = (.error (Err.wrap e errOptions), sa) := by
        unfold Delete
        simp only [bind_apply, getCr, wrapRun_returned hopt (hret e rfl)]
      rw [hD]
      simp [deleteErr]
    · intro e1 he1 hret
      cases he1
      unfold Delete
      simp only [bind_apply, getCr, wrapRun_returned hopt hret]
    · intro e1 he1 hpanic
      cases he1
      obtain ⟨he, hvf⟩ := options_panic_missing_reference w _ s sa e hopt hpanic
      subst he
      refine ⟨hvf, ?_⟩
      unfold Delete
      simp only [bind_apply, getCr, wrapRun_panic hopt]
  | ok o =>
    have hD := delete_apply w c s sa o hopt
    refine ⟨fun _ => ?_, fun e he => (by cases he), ?_, fun e he => (by cases he)⟩
    · rw [hD]
      cases hd : w.tofuDestroy sa.trace c.tofu
          (o ++ [TfOption.WithArgs s.cr.ForProvider.DestroyArgs]) <;>
        simp [deleteErr, wrapErr, hd]
    · intro o1 ho1
      cases ho1
      rw [hD]
      refine ⟨by simp only [newEvents_append], fun e he => ?_⟩
      simp [deleteErr, wrapErr, he]

theorem delete_error_iff_witness :
    deleteErr (Delete destroyFailsWorld sampleExternal ⟨deletedWorkspace, []⟩).1
      = some (Err.wrap errBoom errDestroy) :=
  ((delete_error_iff destroyFailsWorld sampleExternal ⟨deletedWorkspace, []⟩
    ⟨deletedWorkspace, []⟩ (.ok []) (by decide!)).2.2.1 [] rfl).2 errBoom rfl

/-! ### The status after `Observe` -/

/-- C25. After an `Observe` that completes, the observed status is the one built in
this pass, whatever it held before: its `Outputs` are those of the observation
generated from the outputs the harness just listed — the JSON encodings of
non-sensitive outputs, under their names — and its `Checksum` is the checksum the
harness just generated. -/
theorem observe_rebuilds_status (w : World) (c : External) (s s2 : St)
    (obs : ExternalObservation) (h : Observe w c s = (.ok obs, s2)) :
    ∃ op cs,
      (∀ res, Event.tofuOutputs c.tofu res ∈ newEvents s.trace s2.trace ↔ res = .ok op)
      ∧ (∀ res, Event.tofuGenerateChecksum c.tofu res ∈ newEvents s.trace s2.trace
          ↔ res = .ok cs)
      ∧ s2.cr.Status.AtProvider
          = { Checksum := cs, Outputs := (generateWorkspaceObservation op).Outputs }
      ∧ (∀ k v, s2.cr.Status.AtProvider.Outputs.get k = some v →
          ∃ o ∈ op, o.Name = k ∧ o.Sensitive = false ∧ o.JSONValue = .ok v)
      ∧ (∀ o ∈ op, o.Sensitive = false → (∃ j, o.JSONValue = .ok j) →
          s2.cr.Status.AtProvider.Outputs.get o.Name ≠ none) := by
  obtain ⟨differs, s1, r, dels, op, cs, hcd, hdels, htr, -, hcr⟩ := observe_ok_inv w c s s2 obs h
  obtain ⟨-, dEvs, hd, hP⟩ := frames_checkDiff w c s
  rw [hcd] at hd
  simp only at hd
  have hnew : newEvents s.trace s2.trace = dEvs ++ [Event.tofuResources c.tofu (.ok r)] ++ dels
      ++ [Event.tofuOutputs c.tofu (.ok op)] ++ [Event.tofuGenerateChecksum c.tofu (.ok cs)] := by
    rw [htr, hd]
    simp only [List.append_assoc, newEvents_append]
  have hD1 : ∀ res, Event.tofuOutputs c.tofu res ∉ dEvs := fun res hm => by
    have := hP _ hm
    simp [Event.isDiffStep] at this
  have hD2 : ∀ res, Event.tofuGenerateChecksum c.tofu res ∉ dEvs := fun res hm => by
    have := hP _ hm
    simp [Event.isDiffStep] at this
  have hst : s2.cr.Status.AtProvider
      = { Checksum := cs, Outputs := (generateWorkspaceObservation op).Outputs } := by
    rw [hcr]
    cases differs <;> rfl
  refine ⟨op, cs, fun res => ?_, fun res => ?_, hst, ?_, ?_⟩
  · rw [hnew]
    rcases hdels with hdl | hdl <;> subst hdl <;>
      simp [hD1 res, eq_comm]
  · rw [hnew]
    rcases hdels with hdl | hdl <;> subst hdl <;>
      simp [hD2 res, eq_comm]
  · intro k v hv
    rw [hst] at hv
    simp only at hv
    rw [observation_eq_foldl] at hv
    rcases foldl_set_get_source _ _ _ _ _ hv with h0 | ⟨o, ho, hn, hf⟩
    · cases h0
    · by_cases hs : o.Sensitive = true
      · simp [hs] at hf
      · rw [if_neg hs] at hf
        refine ⟨o, ho, hn, by simpa using hs, ?_⟩
        cases hj : o.JSONValue with
        | error e => rw [hj] at hf; cases hf
        | ok j =>
          rw [hj] at hf
          simp only [Except.toOption, Option.some.injEq] at hf
          rw [hf]
  · intro o ho hs ⟨j, hj⟩
    rw [hst]
    simp only
    rw [observation_eq_foldl]
    exact foldl_set_get_present _ _ _ _
      (Or.inr ⟨o, ho, rfl, by simp [hs, hj, Except.toOption]⟩)

theorem observe_rebuilds_status_witness :
    ∃ op cs,
      (∀ res, Event.tofuOutputs sampleExternal.tofu res
        ∈ newEvents [] (Observe outputsWorld sampleExternal ⟨sampleWorkspace, []⟩).2.trace
          ↔ res = .ok op)
      ∧ (∀ res, Event.tofuGenerateChecksum sampleExternal.tofu res
        ∈ newEvents [] (Observe outputsWorld sampleExternal ⟨sampleWorkspace, []⟩).2.trace
          ↔ res = .ok cs)
      ∧ (Observe outputsWorld sampleExternal ⟨sampleWorkspace, []⟩).2.cr.Status.AtProvider
          = { Checksum := cs, Outputs := (generateWorkspaceObservation op).Outputs }
      ∧ (∀ k v, (Observe outputsWorld sampleExternal
            ⟨sampleWorkspace, []⟩).2.cr.Status.AtProvider.Outputs.get k = some v →
          ∃ o ∈ op, o.Name = k ∧ o.Sensitive = false ∧ o.JSONValue = .ok v)
      ∧ (∀ o ∈ op, o.Sensitive = false → (∃ j, o.JSONValue = .ok j) →
          (Observe outputsWorld sampleExternal
            ⟨sampleWorkspace, []⟩).2.cr.Status.AtProvider.Outputs.get o.Name ≠ none) :=
  observe_rebuilds_status outputsWorld sampleExternal ⟨sampleWorkspace, []⟩
    (Observe outputsWorld sampleExternal ⟨sampleWorkspace, []⟩).2 sampleObservation (by decide!)

/-! ### The failures of `Connect` -/

theorem connectBeforeModule_stages (w : World) :
    connectBeforeModule w = (do
      let x ← connectDirs w
      loop (writeGitCredential w x.2.1) () x.2.2.Credentials
      pure x) := by
  unfold connectBeforeModule connectDirs
  simp only [run_bind_assoc, run_pure_bind]

/-- `Connect` from the state in which the git credentials are written. -/
theorem connect_from_dirs (w : World) (s sd : St) (x : Workspace × Str × ProviderConfigSpec)
    (hpre : connectDirs w s = (.ok x, sd)) :
    Connect w s = (loop (writeGitCredential w x.2.1) () x.2.2.Credentials >>= fun _ =>
      materializeModule w x.1 x.2.1 >>= fun _ =>
      connectFiles w x.1 x.2.1 x.2.2 >>= fun y =>
      loop (resolveEnv w) [] x.1.ForProvider.Env >>= fun envs =>
      connectTofu w { dir := y.1, pc := y.2, envs := envs }) sd := by
  have : Connect w = connectDirs w >>= fun x =>
      loop (writeGitCredential w x.2.1) () x.2.2.Credentials >>= fun _ =>
      materializeModule w x.1 x.2.1 >>= fun _ =>
      connectFiles w x.1 x.2.1 x.2.2 >>= fun y =>
      loop (resolveEnv w) [] x.1.ForProvider.Env >>= fun envs =>
      connectTofu w { dir := y.1, pc := y.2, envs := envs } := by
    unfold Connect
    rw [connectSetup_stages]
    unfold connectBeforeEnv
    rw [connectBeforeModule_stages]
    simp only [run_bind_assoc, run_pure_bind]
  rw [this]
  exact bind_ok hpre

/-- `Connect` from the state in which the files of the working directory are written. -/
theorem connect_from_files (w : World) (s sx sm : St)
    (x : Workspace × Str × ProviderConfigSpec)
    (hpre : connectBeforeModule w s = (.ok x, sx))
    (hmod : materializeModule w x.1 x.2.1 sx = (.ok (), sm)) :
    Connect w s = (connectFiles w x.1 x.2.1 x.2.2 >>= fun y =>
      loop (resolveEnv w) [] x.1.ForProvider.Env >>= fun envs =>
      connectTofu w { dir := y.1, pc := y.2, envs := envs }) sm := by
  rw [connect_from_module w s sx x hpre]
  exact bind_ok hmod

/-- Everything `Connect` does after its first stage only appends to the transcript. -/
theorem frames_connect_after_dirs (w : World) (x : Workspace × Str × ProviderConfigSpec) :
    Frames (fun _ => True)
      (loop (writeGitCredential w x.2.1) () x.2.2.Credentials >>= fun _ =>
        materializeModule w x.1 x.2.1 >>= fun _ =>
        connectFiles w x.1 x.2.1 x.2.2 >>= fun y =>
        loop (resolveEnv w) [] x.1.ForProvider.Env >>= fun envs =>
        connectTofu w { dir := y.1, pc := y.2, envs := envs }) :=
  frames_bind (frames_mono (fun _ _ => trivial) (frames_loop (frames_writeGitCredential w _) _ _))
    (fun _ => frames_bind (frames_mono (fun _ _ => trivial) (frames_materializeModule w _ _))
      (fun _ => frames_bind (frames_connectFiles w _ _ _)
        (fun _ => frames_bind
          (frames_mono (fun _ _ => trivial) (frames_loop (frames_resolveEnv w) _ _))
          (fun _ => frames_connectTofu w _))))

/-- One credential of the second loop: the extraction, then the write. -/
theorem writeCredential_apply (w : World) (dir : Str) (cd : ProviderCredentials) (s : St) :
    writeCredential w dir () cd s =
      match w.extractCredentials s.trace cd with
      | .error e =>
        (.error (Err.wrap e errGetCreds),
         { s with trace := s.trace ++ [Event.extractCredentials cd (.error e)] })
      | .ok data =>
        match w.writeFile (s.trace ++ [Event.extractCredentials cd (.ok data)])
            (clean (join [dir, base cd.Filename])) data with
        | some e =>
          (.error (Err.wrap e errWriteCreds),
           { s with trace := s.trace ++ [Event.extractCredentials cd (.ok data)]
               ++ [Event.writeFile (clean (join [dir, base cd.Filename])) data (some e)] })
        | none =>
          (.ok (),
           { s with trace := s.trace ++ [Event.extractCredentials cd (.ok data)]
               ++ [Event.writeFile (clean (join [dir, base cd.Filename])) data none] }) := by
  unfold writeCredential
  simp only [bind_apply, ask_apply]
  cases h1 : w.extractCredentials s.trace cd with
  | error e => simp only [getOrFail, fail_apply]
  | ok data =>
    simp only [getOrFail, pure_apply]
    cases h2 : w.writeFile (s.trace ++ [Event.extractCredentials cd (.ok data)])
        (clean (join [dir, base cd.Filename])) data with
    | some e => simp only [orFail, fail_apply]
    | none => simp only [orFail, pure_apply]

/-- The shared configuration, when there is one: one write. -/
theorem writeOptional_some (w : World) (path tag text : Str) (s : St) :
    writeOptional w path tag (some text) s =
      match w.writeFile s.trace path text with
      | some e =>
        (.error (Err.wrap e tag),
         { s with trace := s.trace ++ [Event.writeFile path text (some e)] })
      | none => (.ok (), { s with trace := s.trace ++ [Event.writeFile path text none] }) := by
  unfold writeOptional
  simp only [bind_apply, ask_apply]
  cases h : w.writeFile s.trace path text with
  | some e => simp only [orFail, fail_apply]
  | none => simp only [orFail, pure_apply]

/-- A git credential whose transient directory cannot be created. -/
theorem writeGitCredential_mkdir_error (w : World) (dir : Str) (cd : ProviderCredentials)
    (s : St) (data : Bytes) (e : Err) (hfn : cd.Filename = gitCredentialsFilename)
    (hex : w.extractCredentials s.trace cd = .ok data)
    (hmk : w.mkdirAll (s.trace ++ [Event.extractCredentials cd (.ok data)])
      (clean (join ["/tmp".toList, dir])) = some e) :
    writeGitCredential w dir () cd s =
      (.error (Err.wrap e errWriteGitCreds),
       { s with trace := s.trace ++ [Event.extractCredentials cd (.ok data),
           Event.mkdirAll (clean (join ["/tmp".toList, dir])) (some e)] }) := by
  unfold writeGitCredential
  simp only [hfn, ne_eq, not_true_eq_false, if_false, bind_apply, ask_apply, hex, getOrFail,
    pure_apply, hmk, orFail, fail_apply, List.append_assoc, List.singleton_append]

/-- A git credential that cannot be written. -/
theorem writeGitCredential_write_error (w : World) (dir : Str) (cd : ProviderCredentials)
    (s : St) (data : Bytes) (e : Err) (hfn : cd.Filename = gitCredentialsFilename)
    (hex : w.extractCredentials s.trace cd = .ok data)
    (hmk : w.mkdirAll (s.trace ++ [Event.extractCredentials cd (.ok data)])
      (clean (join ["/tmp".toList, dir])) = none)
    (hse : w.setenv (s.trace ++ [Event.extractCredentials cd (.ok data),
        Event.mkdirAll (clean (join ["/tmp".toList, dir])) none])
      "GIT_CRED_DIR".toList (clean (join ["/tmp".toList, dir])) = none)
    (hwr : w.writeFile (s.trace ++ [Event.extractCredentials cd (.ok data),
        Event.mkdirAll (clean (join ["/tmp".toList, dir])) none,
        Event.setenv "GIT_CRED_DIR".toList (clean (join ["/tmp".toList, dir])) none])
      (clean (join [clean (join ["/tmp".toList, dir]), base cd.Filename])) data = some e) :
    writeGitCredential w dir () cd s =
      (.error (Err.wrap e errWriteGitCreds),
       { s with trace := s.trace ++ [Event.extractCredentials cd (.ok data),
           Event.mkdirAll (clean (join ["/tmp".toList, dir])) none,
           Event.setenv "GIT_CRED_DIR".toList (clean (join ["/tmp".toList, dir])) none,
           Event.writeFile (clean (join [clean (join ["/tmp".toList, dir]), base cd.Filename]))
             data (some e)] }) := by
  unfold writeGitCredential
  simp only [List.append_assoc, List.singleton_append] at hmk hse hwr ⊢
  simp only [hfn, ne_eq, not_true_eq_false, if_false, bind_apply, ask_apply, hex, getOrFail,
    pure_apply, hmk, orFail, fail_apply, List.append_assoc, List.singleton_append,
    List.cons_append, List.nil_append, hse] at hwr ⊢
  simp only [hwr, fail_apply]

theorem connectFiles_loop_error (w : World) (cr : Workspace) (dir : Str)
    (pc : ProviderConfigSpec) (s s1 : St) (e : Err)
    (h : loop (writeCredential w (entrypointDir dir cr.ForProvider.Entrypoint)) ()
      pc.Credentials s = (.error e, s1)) :
    connectFiles w cr dir pc s = (.error e, s1) := by
  unfold connectFiles
  exact bind_error h

theorem connectFiles_config_error (w : World) (cr : Workspace) (dir : Str)
    (pc : ProviderConfigSpec) (s sc : St) (text : Str) (e : Err)
    (h : loop (writeCredential w (entrypointDir dir cr.ForProvider.Entrypoint)) ()
      pc.Credentials s = (.ok (), sc))
    (hcfg : pc.Configuration = some text)
    (hwr : w.writeFile sc.trace
      (join [entrypointDir dir cr.ForProvider.Entrypoint, tfConfig]) text = some e) :
    connectFiles w cr dir pc s =
      (.error (Err.wrap e errWriteConfig),
       { sc with trace := sc.trace ++ [Event.writeFile
           (join [entrypointDir dir cr.ForProvider.Entrypoint, tfConfig]) text (some e)] }) := by
  unfold connectFiles
  rw [bind_ok h, hcfg]
  refine bind_error ?_
  rw [writeOptional_some, hwr]

/-- The failures of the harness calls of `Connect`, once the setup has completed. -/
theorem connectTofu_failures (w : World) (su : ConnectSetup) (s1 : St) :
    (∀ e, s1.cr.Status.AtProvider.Checksum ≠ [] →
      w.tofuGenerateChecksum s1.trace (newHarness su s1.cr) = .error e →
      connectTofu w su s1 = (.error (Err.wrap e errChecksum),
        { s1 with trace := s1.trace
            ++ [Event.tofuGenerateChecksum (newHarness su s1.cr) (.error e)] }))
    ∧ (∀ e, s1.cr.Status.AtProvider.Checksum ≠ [] →
      w.tofuGenerateChecksum s1.trace (newHarness su s1.cr)
        = .ok s1.cr.Status.AtProvider.Checksum →
      w.tofuWorkspace (s1.trace ++ [Event.tofuGenerateChecksum (newHarness su s1.cr)
          (.ok s1.cr.Status.AtProvider.Checksum)]) (newHarness su s1.cr) s1.cr.ExternalName
        = some e →
      connectTofu w su s1 =
        (.ok { client := { tofu := newHarness su s1.cr, logger := true },
               err := some (Err.wrap e errWorkspace) },
         { s1 with trace := s1.trace ++ [Event.tofuGenerateChecksum (newHarness su s1.cr)
             (.ok s1.cr.Status.AtProvider.Checksum),
             Event.tofuWorkspace (newHarness su s1.cr) s1.cr.ExternalName (some e)] }))
    ∧ (s1.cr.Status.AtProvider.Checksum = [] →
      connectTofu w su s1 = connectInit w su s1.cr (newHarness su s1.cr) s1)
    ∧ (∀ cs, s1.cr.Status.AtProvider.Checksum ≠ [] →
      w.tofuGenerateChecksum s1.trace (newHarness su s1.cr) = .ok cs →
      s1.cr.Status.AtProvider.Checksum ≠ cs →
      connectTofu w su s1 = connectInit w su s1.cr (newHarness su s1.cr)
        { s1 with trace := s1.trace
            ++ [Event.tofuGenerateChecksum (newHarness su s1.cr) (.ok cs)] }) := by
  refine ⟨?_, ?_, ?_, ?_⟩
  · intro e hne hcs
    unfold connectTofu
    simp only [bind_apply, getCr, ne_eq, hne, not_false_eq_true, if_true, ask_apply, hcs,
      getOrFail, fail_apply]
  · intro e hne hcs hsel
    unfold connectTofu
    simp only [bind_apply, getCr, ne_eq, hne, not_false_eq_true, if_true, ask_apply, hcs,
      getOrFail, pure_apply, hsel, wrapErr, Option.map, List.append_assoc,
      List.singleton_append]
  · intro hemp
    unfold connectTofu
    simp only [bind_apply, getCr, hemp, ne_eq, not_true_eq_false, if_false]
  · intro cs hne hcs hdiff
    unfold connectTofu
    simp only [bind_apply, getCr, ne_eq, hne, not_false_eq_true, if_true, ask_apply, hcs,
      getOrFail, pure_apply, hdiff, if_false]

/-- C26. A failing step ends `Connect` with its cause wrapped with the tag of the step,
the failed call being the last interaction (no later step runs).  Creating the working
directory: `cannot make tofu configuration directory`, unless the error is an `already
exists` one, which counts as success (the stage goes on and completes).  Creating the
directory of the git credentials, or writing them: `cannot write .git-credentials to
/tmp dir`.  Writing a credential file: `cannot write tofu credentials`.  Writing the
shared configuration: `cannot write tofu configuration crossplane-provider-config.tf`.
Generating the checksum: `cannot calculate workspace checksum`.  `Init`: `cannot
initialize tofu configuration`.  Selecting the workspace, on either path: `cannot
select tofu workspace` (returned together with the client). -/
theorem connect_step_failures (w : World) (s : St) :
    (∀ e, w.mkdirAll s.trace (join [w.tfDir, s.cr.UID]) = some e → w.isExist e = false →
      Connect w s = (.error (Err.wrap e errMkdir),
        { s with trace := s.trace ++ [Event.mkdirAll (join [w.tfDir, s.cr.UID]) (some e)] }))
    ∧ (∀ e pc, w.mkdirAll s.trace (join [w.tfDir, s.cr.UID]) = some e → w.isExist e = true →
      w.mkdirAll (s.trace ++ [Event.mkdirAll (join [w.tfDir, s.cr.UID]) (some e)])
        (join ["/tmp".toList, w.tfDir]) = none →
      w.resolveProviderConfig (s.trace ++ [Event.mkdirAll (join [w.tfDir, s.cr.UID]) (some e),
        Event.mkdirAll (join ["/tmp".toList, w.tfDir]) none]) = .ok pc →
      connectDirs w s = (.ok (s.cr, join [w.tfDir, s.cr.UID], pc),
        { s with trace := s.trace ++ [Event.mkdirAll (join [w.tfDir, s.cr.UID]) (some e),
            Event.mkdirAll (join ["/tmp".toList, w.tfDir]) none,
            Event.resolveProviderConfig (.ok pc)] })
      ∧ s.trace ++ [Event.mkdirAll (join [w.tfDir, s.cr.UID]) (some e),
            Event.mkdirAll (join ["/tmp".toList, w.tfDir]) none,
            Event.resolveProviderConfig (.ok pc)] <+: (Connect w s).2.trace)
    ∧ (∀ x sd pre cd post sy data e, connectDirs w s = (.ok x, sd) →
      x.2.2.Credentials = pre ++ cd :: post →
      loop (writeGitCredential w x.2.1) () pre sd = (.ok (), sy) →
      cd.Filename = gitCredentialsFilename →
      w.extractCredentials sy.trace cd = .ok data →
      w.mkdirAll (sy.trace ++ [Event.extractCredentials cd (.ok data)])
        (clean (join ["/tmp".toList, x.2.1])) = some e →
      Connect w s = (.error (Err.wrap e errWriteGitCreds),
        { sy with trace := sy.trace ++ [Event.extractCredentials cd (.ok data),
            Event.mkdirAll (clean (join ["/tmp".toList, x.2.1])) (some e)] }))
    ∧ (∀ x sd pre cd post sy data e, connectDirs w s = (.ok x, sd) →
      x.2.2.Credentials = pre ++ cd :: post →
      loop (writeGitCredential w x.2.1) () pre sd = (.ok (), sy) →
      cd.Filename = gitCredentialsFilename →
      w.extractCredentials sy.trace cd = .ok data →
      w.mkdirAll (sy.trace ++ [Event.extractCredentials cd (.ok data)])
        (clean (join ["/tmp".toList, x.2.1])) = none →
      w.setenv (sy.trace ++ [Event.extractCredentials cd (.ok data),
          Event.mkdirAll (clean (join ["/tmp".toList, x.2.1])) none])
        "GIT_CRED_DIR".toList (clean (join ["/tmp".toList, x.2.1])) = none →
      w.writeFile (sy.trace ++ [Event.extractCredentials cd (.ok data),
          Event.mkdirAll (clean (join ["/tmp".toList, x.2.1])) none,
          Event.setenv "GIT_CRED_DIR".toList (clean (join ["/tmp".toList, x.2.1])) none])
        (clean (join [clean (join ["/tmp".toList, x.2.1]), base cd.Filename])) data = some e →
      Connect w s = (.error (Err.wrap e errWriteGitCreds),
        { sy with trace := sy.trace ++ [Event.extractCredentials cd (.ok data),
            Event.mkdirAll (clean (join ["/tmp".toList, x.2.1])) none,
            Event.setenv "GIT_CRED_DIR".toList (clean (join ["/tmp".toList, x.2.1])) none,
            Event.writeFile (clean (join [clean (join ["/tmp".toList, x.2.1]),
              base cd.Filename])) data (some e)] }))
    ∧ (∀ x sx sm pre cd post sy data e, connectBeforeModule w s = (.ok x, sx) →
      materializeModule w x.1 x.2.1 sx = (.ok (), sm) →
      x.2.2.Credentials = pre ++ cd :: post →
      loop (writeCredential w (entrypointDir x.2.1 x.1.ForProvider.Entrypoint)) () pre sm
        = (.ok (), sy) →
      w.extractCredentials sy.trace cd = .ok data →
      w.writeFile (sy.trace ++ [Event.extractCredentials cd (.ok data)])
        (clean (join [entrypointDir x.2.1 x.1.ForProvider.Entrypoint, base cd.Filename])) data
        = some e →
      Connect w s = (.error (Err.wrap e errWriteCreds),
        { sy with trace := sy.trace ++ [Event.extractCredentials cd (.ok data)]
            ++ [Event.writeFile (clean (join [entrypointDir x.2.1 x.1.ForProvider.Entrypoint,
              base cd.Filename])) data (some e)] }))
    ∧ (∀ x sx sm sc text e, connectBeforeModule w s = (.ok x, sx) →
      materializeModule w x.1 x.2.1 sx = (.ok (), sm) →
      loop (writeCredential w (entrypointDir x.2.1 x.1.ForProvider.Entrypoint)) ()
        x.2.2.Credentials sm = (.ok (), sc) →
      x.2.2.Configuration = some text →
      w.writeFile sc.trace (join [entrypointDir x.2.1 x.1.ForProvider.Entrypoint, tfConfig])
        text = some e →
      Connect w s = (.error (Err.wrap e errWriteConfig),
        { sc with trace := sc.trace ++ [Event.writeFile
            (join [entrypointDir x.2.1 x.1.ForProvider.Entrypoint, tfConfig]) text (some e)] }))
    ∧ (∀ s1 su, connectSetup w s = (.ok su, s1) →
        (∀ e, s.cr.Status.AtProvider.Checksum ≠ [] →
          w.tofuGenerateChecksum s1.trace (newHarness su s.cr) = .error e →
          Connect w s = (.error (Err.wrap e errChecksum),
            { s1 with trace := s1.trace
                ++ [Event.tofuGenerateChecksum (newHarness su s.cr) (.error e)] }))
        ∧ (∀ e, s.cr.Status.AtProvider.Checksum ≠ [] →
          w.tofuGenerateChecksum s1.trace (newHarness su s.cr)
            = .ok s.cr.Status.AtProvider.Checksum →
          w.tofuWorkspace (s1.trace ++ [Event.tofuGenerateChecksum (newHarness su s.cr)
              (.ok s.cr.Status.AtProvider.Checksum)]) (newHarness su s.cr) s.cr.ExternalName
            = some e →
          Connect w s =
            (.ok { client := { tofu := newHarness su s.cr, logger := true },
                   err := some (Err.wrap e errWorkspace) },
             { s1 with trace := s1.trace ++ [Event.tofuGenerateChecksum (newHarness su s.cr)
                 (.ok s.cr.Status.AtProvider.Checksum),
                 Event.tofuWorkspace (newHarness su s.cr) s.cr.ExternalName (some e)] }))
        ∧ (∀ pre : List Event,
            ((s.cr.Status.AtProvider.Checksum = [] ∧ pre = [])
              ∨ ∃ cs, s.cr.Status.AtProvider.Checksum ≠ []
                ∧ w.tofuGenerateChecksum s1.trace (newHarness su s.cr) = .ok cs
                ∧ s.cr.Status.AtProvider.Checksum ≠ cs
                ∧ pre = [Event.tofuGenerateChecksum (newHarness su s.cr) (.ok cs)]) →
            (∀ e, w.tofuInit (s1.trace ++ pre) (newHarness su s.cr) (initOptions su s.cr) = some e →
              Connect w s = (.error (Err.wrap e errInit),
                { s1 with trace := s1.trace ++ pre
                    ++ [Event.tofuInit (newHarness su s.cr) (initOptions su s.cr) (some e)] }))
            ∧ (∀ e, w.tofuInit (s1.trace ++ pre) (newHarness su s.cr) (initOptions su s.cr) = none →
              w.tofuWorkspace (s1.trace ++ pre
                  ++ [Event.tofuInit (newHarness su s.cr) (initOptions su s.cr) none])
                (newHarness su s.cr) s.cr.ExternalName = some e →
              Connect w s =
                (.ok { client := { tofu := newHarness su s.cr, logger := false },
                       err := some (Err.wrap e errWorkspace) },
                 { s1 with trace := s1.trace ++ pre
                     ++ [Event.tofuInit (newHarness su s.cr) (initOptions su s.cr) none,
                         Event.tofuWorkspace (newHarness su s.cr) s.cr.ExternalName (some e)] })))) := by
  refine ⟨?_, ?_, ?_, ?_, ?_, ?_, ?_⟩
  · intro e hmk hex
    unfold Connect connectSetup
    simp only [bind_apply, getCr, ask_apply, hmk, ignoreErr, hex, Bool.false_eq_true, if_false,
      orFail, fail_apply]
  · intro e pc hmk hex hmk2 hpc
    have hmk2a : w.mkdirAll (s.trace ++ [Event.mkdirAll (join [w.tfDir, s.cr.UID]) (some e)])
        (join ["/tmp".toList, w.tfDir]) = none := hmk2
    have hD : connectDirs w s = (.ok (s.cr, join [w.tfDir, s.cr.UID], pc),
        { s with trace := s.trace ++ [Event.mkdirAll (join [w.tfDir, s.cr.UID]) (some e),
            Event.mkdirAll (join ["/tmp".toList, w.tfDir]) none,
            Event.resolveProviderConfig (.ok pc)] }) := by
      unfold connectDirs
      simp only [bind_apply, getCr, ask_apply, hmk, ignoreErr, hex, if_true, orFail, pure_apply,
        hmk2a, getOrFail, List.append_assoc, List.singleton_append, List.cons_append,
        List.nil_append, hpc]
    refine ⟨hD, ?_⟩
    rw [connect_from_dirs w s _ _ hD]
    obtain ⟨-, evs, htr, -⟩ := frames_connect_after_dirs w (s.cr, join [w.tfDir, s.cr.UID], pc)
      { s with trace := s.trace ++ [Event.mkdirAll (join [w.tfDir, s.cr.UID]) (some e),
          Event.mkdirAll (join ["/tmp".toList, w.tfDir]) none,
          Event.resolveProviderConfig (.ok pc)] }
    exact ⟨evs, htr.symm⟩
  · intro x sd pre cd post sy data e hD hsplit hloop hfn hex hmk
    rw [connect_from_dirs w s sd x hD, hsplit]
    exact bind_error (loop_split_error _ pre post cd _ _ _ _ _ _ hloop
      (writeGitCredential_mkdir_error w _ cd sy data e hfn hex hmk))
  · intro x sd pre cd post sy data e hD hsplit hloop hfn hex hmk hse hwr
    rw [connect_from_dirs w s sd x hD, hsplit]
    exact bind_error (loop_split_error _ pre post cd _ _ _ _ _ _ hloop
      (writeGitCredential_write_error w _ cd sy data e hfn hex hmk hse hwr))
  · intro x sx sm pre cd post sy data e hpre hmod hsplit hloop hex hwr
    rw [connect_from_files w s sx sm x hpre hmod]
    refine bind_error (connectFiles_loop_error w _ _ _ _ _ _ ?_)
    rw [hsplit]
    refine loop_split_error _ pre post cd _ _ _ _ _ _ hloop ?_
    rw [writeCredential_apply, hex]
    simp only [hwr]
  · intro x sx sm sc text e hpre hmod hloop hcfg hwr
    rw [connect_from_files w s sx sm x hpre hmod]
    exact bind_error (connectFiles_config_error w _ _ _ _ _ _ _ hloop hcfg hwr)
  · intro s1 su hsetup
    have hcr : s1.cr = s.cr := by
      have := (frames_connectSetup w s).1
      rw [hsetup] at this
      exact this
    obtain ⟨c1, t1⟩ := s1
    simp only at hcr
    subst hcr
    have hC : Connect w s = connectTofu w su ⟨s.cr, t1⟩ := by
      unfold Connect
      exact bind_ok hsetup
    obtain ⟨f1, f2, f3, f4⟩ := connectTofu_failures w su ⟨s.cr, t1⟩
    refine ⟨fun e hne hcs => by rw [hC]; exact f1 e hne hcs,
      fun e hne hcs hsel => by rw [hC]; exact f2 e hne hcs hsel, ?_⟩
    intro pre hpre
    have hI : Connect w s = connectInit w su s.cr (newHarness su s.cr) ⟨s.cr, t1 ++ pre⟩ := by
      rw [hC]
      rcases hpre with ⟨hemp, rfl⟩ | ⟨cs, hne, hcs, hdiff, rfl⟩
      · rw [f3 hemp, List.append_nil]
      · exact f4 cs hne hcs hdiff
    rw [hI, connectInit_apply]
    refine ⟨fun e hinit => ?_, fun e hinit hsel => ?_⟩
    · simp only [hinit]
    · have hsel1 : w.tofuWorkspace (t1 ++ (pre ++ [Event.tofuInit (newHarness su s.cr)
          (initOptions su s.cr) none])) (newHarness su s.cr) s.cr.ExternalName = some e := by
        rw [← List.append_assoc]
        exact hsel
      simp only [hinit, wrapErr, Option.map, List.append_assoc, List.singleton_append, hsel1]

theorem connect_step_failures_witness :
    Connect mkdirFailsWorld ⟨sampleWorkspace, []⟩
      = (.error (Err.wrap errBoom errMkdir),
         ⟨sampleWorkspace, [Event.mkdirAll "/tofu/no-you-id".toList (some errBoom)]⟩)
    ∧ (Connect initFailsWorld ⟨freshWorkspace, []⟩).1 = .error (Err.wrap errBoom errInit) :=
  ⟨((connect_step_failures mkdirFailsWorld ⟨sampleWorkspace, []⟩).1 errBoom
      (by decide!) rfl).trans (by decide!),
   congrArg Prod.fst
    ((((connect_step_failures initFailsWorld ⟨freshWorkspace, []⟩).2.2.2.2.2.2
      (connectSetup initFailsWorld ⟨freshWorkspace, []⟩).2 sampleSetup (by decide!)).2.2 []
      (Or.inl ⟨rfl, rfl⟩)).1 errBoom (by decide!))⟩

/-! ### Error classification -/

theorem splitLinesAux_line (cur a rest : Str) (ha : '\n' ∉ a) :
    splitLinesAux cur (a ++ '\n' :: rest) = (cur.reverse ++ a) :: splitLinesAux [] rest := by
  induction a generalizing cur with
  | nil => simp [splitLinesAux]
  | cons c cs ih =>
    have hc : c ≠ '\n' := fun h => ha (by simp [h])
    have hcs : '\n' ∉ cs := fun h => ha (List.mem_cons_of_mem _ h)
    have hstep : splitLinesAux cur (c :: (cs ++ '\n' :: rest))
        = splitLinesAux (c :: cur) (cs ++ '\n' :: rest) := by
      rw [splitLinesAux, if_neg hc]
    rw [List.cons_append, hstep, ih (c :: cur) hcs]
    simp

theorem error_not_prefix (c : Char) (t : Str) (h : c ≠ 'E') :
    "Error: ".toList.isPrefixOf (c :: t) = false := by
  show List.isPrefixOf ('E' :: "rror: ".toList) (c :: t) = false
  have hb : ('E' == c) = false := by simpa using h.symm
  simp [List.isPrefixOf, hb]

theorem afterInfix_error_line (summary : Str) :
    afterInfix "Error: ".toList (diagnosticMarker :: " Error: ".toList ++ summary)
      = some summary := by
  have hp : "Error: ".toList.isPrefixOf ("Error: ".toList ++ summary) = true :=
    List.isPrefixOf_iff_prefix.mpr (List.prefix_append _ _)
  have hd : ("Error: ".toList ++ summary).drop "Error: ".toList.length = summary :=
    List.drop_left _ _
  show afterInfix "Error: ".toList (diagnosticMarker :: ' ' :: ("Error: ".toList ++ summary)) = _
  rw [afterInfix, error_not_prefix _ _ (by decide), afterInfix,
    error_not_prefix _ _ (by decide)]
  simp only [Bool.false_eq_true, if_false]
  cases hs : "Error: ".toList ++ summary with
  | nil => simp at hs
  | cons c cs =>
    rw [afterInfix, ← hs, if_pos hp, hd]

/-- The diagnostic lines of an output whose first line is `│ Error: <summary>`. -/
theorem diagnosticLines_error_first (summary rest : Str) (hs : '\n' ∉ summary) :
    diagnosticLines (diagnosticMarker :: " Error: ".toList ++ summary ++ '\n' :: rest)
      = (diagnosticMarker :: " Error: ".toList ++ summary) :: diagnosticLines rest := by
  have hline : '\n' ∉ diagnosticMarker :: " Error: ".toList ++ summary := by
    intro h
    rcases List.mem_append.mp h with h1 | h1
    · revert h1
      decide
    · exact hs h1
  unfold diagnosticLines splitLines
  rw [splitLinesAux_line [] _ rest hline]
  simp [List.filter_cons]

/-- C27. For an error output in the diagnostic block format, whose first line is the
marker followed by ` Error: ` and a summary, `formatTofuErrorOutput` returns no error:
it returns that summary, exactly, and the encoded diagnostic block; and `Classify`
renders `OpenTofu encountered an error. Summary: <summary>. To see the full error
run: echo "<base64>" | base64 -d | gunzip` with that summary and that encoding. -/
theorem classify_diagnostic_block (encode : Str → Str) (summary rest : Str)
    (hs : '\n' ∉ summary) :
    formatTofuErrorOutput encode
        (diagnosticMarker :: " Error: ".toList ++ summary ++ '\n' :: rest)
      = .ok (summary, encode ((diagnosticLines
          (diagnosticMarker :: " Error: ".toList ++ summary ++ '\n' :: rest)).flatMap
            (fun l => l ++ ['\n'])))
    ∧ Classify encode (diagnosticMarker :: " Error: ".toList ++ summary ++ '\n' :: rest)
      = "OpenTofu encountered an error. Summary: ".toList ++ summary
        ++ ". To see the full error run: echo \"".toList
        ++ encode ((diagnosticLines
            (diagnosticMarker :: " Error: ".toList ++ summary ++ '\n' :: rest)).flatMap
              (fun l => l ++ ['\n']))
        ++ "\" | base64 -d | gunzip".toList := by
  have hf : formatTofuErrorOutput encode
        (diagnosticMarker :: " Error: ".toList ++ summary ++ '\n' :: rest)
      = .ok (summary, encode ((diagnosticLines
          (diagnosticMarker :: " Error: ".toList ++ summary ++ '\n' :: rest)).flatMap
            (fun l => l ++ ['\n']))) := by
    unfold formatTofuErrorOutput
    rw [diagnosticLines_error_first summary rest hs]
    simp only [afterInfix_error_line]
  refine ⟨hf, ?_⟩
  unfold Classify
  rw [hf]

theorem classify_diagnostic_block_witness :
    formatTofuErrorOutput id "│ Error: Unsupported argument\n│\n│ An argument named \"name\" is not expected here.\n".toList
      = .ok ("Unsupported argument".toList,
          "│ Error: Unsupported argument\n│\n│ An argument named \"name\" is not expected here.\n".toList) :=
  (classify_diagnostic_block id "Unsupported argument".toList
    "│\n│ An argument named \"name\" is not expected here.\n".toList (by decide)).1.trans
    (by decide!)

/-! ### The path of a credential file -/

/-- C28. For the credential filename `..`, `filepath.Base` returns `..`, and the path
`Connect` writes the credential to is the parent of the working directory: `/tofu` for
the working directory `/tofu/no-you-id`, and `/tofu/no-you-id/a` for the
entrypoint-adjusted working directory `/tofu/no-you-id/a/b`.  Neither is the working
directory or a path beneath it. -/
theorem credential_written_outside_directory :
    base "..".toList = "..".toList
    ∧ clean (join ["/tofu/no-you-id".toList, base "..".toList]) = "/tofu".toList
    ∧ Event.writeFile "/tofu".toList "secret".toList none
        ∈ (Connect parentCredentialWorld ⟨sampleWorkspace, []⟩).2.trace
    ∧ ¬ isWithin "/tofu/no-you-id".toList "/tofu".toList
    ∧ entrypointDir (join ["/tofu".toList, "no-you-id".toList]) "a/b".toList
        = "/tofu/no-you-id/a/b".toList
    ∧ Event.writeFile "/tofu/no-you-id/a".toList "secret".toList none
        ∈ (Connect parentCredentialWorld ⟨nestedWorkspace, []⟩).2.trace
    ∧ ¬ isWithin "/tofu/no-you-id/a/b".toList "/tofu/no-you-id/a".toList := by
  decide!

/-! ### A referenced key that is absent -/

/-- The options a var-file appends do not depend on the options gathered so far. -/
theorem varFileOption_prepend (w : World) (acc : List TfOption) (vf : VarFile) (s : St) :
    varFileOption w acc vf s
      = ((varFileOption w [] vf s).1.map (fun o => acc ++ o), (varFileOption w [] vf s).2) := by
  rw [varFileOption_apply, varFileOption_apply]
  by_cases h1 : vf.Source = VarFileSourceConfigMapKey
  · simp only [if_pos h1]
    cases vf.ConfigMapKeyReference with
    | none => rfl
    | some r =>
      simp only
      cases w.getConfigMap s.trace r.Namespace r.Name <;> simp [Except.map]
  · simp only [if_neg h1]
    by_cases h2 : vf.Source = VarFileSourceSecretKey
    · simp only [if_pos h2]
      cases vf.SecretKeyReference with
      | none => rfl
      | some r =>
        simp only
        cases w.getSecret s.trace r.Namespace r.Name <;> simp [Except.map]
    · simp [if_neg h2, Except.map]

/-- The loop over the var-files started from `acc` is the loop started from nothing, with
`acc` in front of its result. -/
theorem loop_varFiles_prepend (w : World) (l : List VarFile) (acc : List TfOption) (s : St) :
    loop (varFileOption w) acc l s
      = ((loop (varFileOption w) [] l s).1.map (fun o => acc ++ o),
         (loop (varFileOption w) [] l s).2) := by
  induction l generalizing acc s with
  | nil => simp [loop, pure_apply, Except.map]
  | cons vf rest ih =>
    rw [loop_cons_apply, loop_cons_apply, varFileOption_prepend]
    rcases hb : varFileOption w [] vf s with ⟨r, sb⟩
    cases r with
    | error e => rfl
    | ok x =>
      simp only [Except.map]
      rw [ih (acc ++ x) sb, ih x sb]
      generalize loop (varFileOption w) [] rest sb = res
      obtain ⟨r1, s1⟩ := res
      cases r1 <;> simp [Except.map]

/-- A loop over `pre ++ l` whose part over `pre` completes goes on with `l`. -/
theorem loop_append_ok {α β : Type} (body : β → α → Run β) (pre l : List α)
    (acc acc1 : β) (s s1 : St) (hpre : loop body acc pre s = (.ok acc1, s1)) :
    loop body acc (pre ++ l) s = loop body acc1 l s1 := by
  induction pre generalizing acc s with
  | nil =>
    cases hpre
    rfl
  | cons b rest ih =>
    rw [loop_cons_apply] at hpre
    rw [List.cons_append, loop_cons_apply]
    rcases hb : body acc b s with ⟨r, sb⟩
    rw [hb] at hpre
    cases r with
    | error e1 => cases hpre
    | ok accb => exact ih _ _ hpre

/-- A var-file of another source can be left out of the loop. -/
theorem loop_varFiles_skip (w : World) (pre post : List VarFile) (vf : VarFile)
    (h1 : vf.Source ≠ VarFileSourceConfigMapKey) (h2 : vf.Source ≠ VarFileSourceSecretKey)
    (acc : List TfOption) (s : St) :
    loop (varFileOption w) acc (pre ++ vf :: post) s
      = loop (varFileOption w) acc (pre ++ post) s := by
  induction pre generalizing acc s with
  | nil =>
    rw [List.nil_append, List.nil_append, loop_cons_apply, varFileOption_apply, if_neg h1,
      if_neg h2]
  | cons b rest ih =>
    rw [List.cons_append, List.cons_append, loop_cons_apply, loop_cons_apply]
    generalize varFileOption w acc b s = res
    obtain ⟨r, sb⟩ := res
    cases r with
    | error e => rfl
    | ok accb => exact ih _ _

/-- Without a raw variable map `options` is the loop over the var-files. -/
theorem options_no_varMap (w : World) (p : WorkspaceParameters) (s : St)
    (h : p.VarMap = none) :
    options w p s = loop (varFileOption w)
      (p.Vars.map (fun v => TfOption.WithVar v.Key v.Value)) p.VarFiles s := by
  rw [options_apply]
  generalize loop (varFileOption w) (p.Vars.map (fun v => TfOption.WithVar v.Key v.Value))
    p.VarFiles s = res
  obtain ⟨r, s1⟩ := res
  cases r with
  | error e => rfl
  | ok o => simp only [h]

/-- `options` after a var-file that appended the option `x`, the earlier var-files having
given the options `acc`: it goes on as on the remaining var-files alone, with `acc` and
`x` in front of the result. -/
theorem options_after_var_file (w : World) (p : WorkspaceParameters)
    (pre post : List VarFile) (vf : VarFile) (acc : List TfOption) (x : TfOption)
    (s sy sz : St) (hsplit : p.VarFiles = pre ++ vf :: post)
    (hpre : options w { p with VarFiles := pre, VarMap := none } s = (.ok acc, sy))
    (hstep : varFileOption w acc vf sy = (.ok (acc ++ [x]), sz)) :
    options w p s
      = ((options w { p with Vars := [], VarFiles := post } sz).1.map
            (fun o => acc ++ [x] ++ o),
         (options w { p with Vars := [], VarFiles := post } sz).2) := by
  rw [options_no_varMap w _ s rfl] at hpre
  simp only at hpre
  have hl : loop (varFileOption w) (p.Vars.map (fun v => TfOption.WithVar v.Key v.Value))
      p.VarFiles s = loop (varFileOption w) (acc ++ [x]) post sz := by
    rw [hsplit, loop_append_ok _ pre (vf :: post) _ _ _ _ hpre, loop_cons_apply, hstep]
  rw [options_apply, options_apply, hl, loop_varFiles_prepend w post (acc ++ [x]) sz]
  simp only [List.map_nil]
  generalize loop (varFileOption w) [] post sz = res
  obtain ⟨r, s1⟩ := res
  cases r with
  | error e => rfl
  | ok o =>
    simp only [Except.map]
    cases p.VarMap with
    | none => rfl
    | some raw =>
      simp only
      cases w.jsonMarshal raw <;> simp [Except.map]

/-- C29. Let the var-files of the parameters be `pre`, then `vf`, then `post`, and let
the option resolution of the literal variables and of `pre` give the options `acc`.  If
`vf` has the source ConfigMapKey (SecretKey) and its ConfigMap (Secret) is read
successfully but lacks the referenced key, `options` does not fail on it: it appends a
`WithVarFile` with empty content and the format of `vf` and continues — its outcome is
that of `options` on the remaining var-files (and the raw variable map) alone, with
`acc` and the empty-content option in front of the list.  A var-file whose source is
neither `ConfigMapKey` nor `SecretKey` contributes no option, no read and no error:
`options` ends as it does without that var-file.  The resolution of an environment
variable in `Connect` differs: once the steps before it have succeeded, a variable
without literal value whose referenced key is absent from the ConfigMap (Secret) that
was read makes `Connect` return a `cannot resolve variables` error. -/
theorem var_file_missing_key (w : World) (s : St) :
    (∀ p pre vf post acc sy r data, p.VarFiles = pre ++ vf :: post →
      options w { p with VarFiles := pre, VarMap := none } s = (.ok acc, sy) →
      vf.Source = VarFileSourceConfigMapKey → vf.ConfigMapKeyReference = some r →
      w.getConfigMap sy.trace r.Namespace r.Name = .ok data → data.get r.Key = none →
      options w p s
        = ((options w { p with Vars := [], VarFiles := post }
              { sy with trace := sy.trace
                  ++ [Event.getConfigMap r.Namespace r.Name (.ok data)] }).1.map
              (fun o => acc ++ [TfOption.WithVarFile [] (varFileFormat vf)] ++ o),
           (options w { p with Vars := [], VarFiles := post }
              { sy with trace := sy.trace
                  ++ [Event.getConfigMap r.Namespace r.Name (.ok data)] }).2))
    ∧ (∀ p pre vf post acc sy r data, p.VarFiles = pre ++ vf :: post →
      options w { p with VarFiles := pre, VarMap := none } s = (.ok acc, sy) →
      vf.Source = VarFileSourceSecretKey → vf.SecretKeyReference = some r →
      w.getSecret sy.trace r.Namespace r.Name = .ok data → data.get r.Key = none →
      options w p s
        = ((options w { p with Vars := [], VarFiles := post }
              { sy with trace := sy.trace
                  ++ [Event.getSecret r.Namespace r.Name (.ok data)] }).1.map
              (fun o => acc ++ [TfOption.WithVarFile [] (varFileFormat vf)] ++ o),
           (options w { p with Vars := [], VarFiles := post }
              { sy with trace := sy.trace
                  ++ [Event.getSecret r.Namespace r.Name (.ok data)] }).2))
    ∧ (∀ p pre vf post, p.VarFiles = pre ++ vf :: post →
      vf.Source ≠ VarFileSourceConfigMapKey → vf.Source ≠ VarFileSourceSecretKey →
      options w p s = options w { p with VarFiles := pre ++ post } s)
    ∧ (∀ x sx pre env post acc sy r data, connectBeforeEnv w s = (.ok x, sx) →
      s.cr.ForProvider.Env = pre ++ env :: post →
      loop (resolveEnv w) [] pre sx = (.ok acc, sy) → env.Value = [] →
      env.ConfigMapKeyReference = some r →
      w.getConfigMap sy.trace r.Namespace r.Name = .ok data → data.get r.Key = none →
      Connect w s
        = (.error (Err.wrap (errKeyNotFound "ConfigMap".toList r) errVarResolution),
           { sy with trace := sy.trace
               ++ [Event.getConfigMap r.Namespace r.Name (.ok data)] }))
    ∧ (∀ x sx pre env post acc sy r data, connectBeforeEnv w s = (.ok x, sx) →
      s.cr.ForProvider.Env = pre ++ env :: post →
      loop (resolveEnv w) [] pre sx = (.ok acc, sy) → env.Value = [] →
      env.ConfigMapKeyReference = none → env.SecretKeyReference = some r →
      w.getSecret sy.trace r.Namespace r.Name = .ok data → data.get r.Key = none →
      Connect w s
        = (.error (Err.wrap (errKeyNotFound "Secret".toList r) errVarResolution),
           { sy with trace := sy.trace
               ++ [Event.getSecret r.Namespace r.Name (.ok data)] })) := by
  have hne : ¬ VarFileSourceSecretKey = VarFileSourceConfigMapKey := by decide
  refine ⟨?_, ?_, ?_, ?_, ?_⟩
  · intro p pre vf post acc sy r data hsplit hpre hsrc href hq hk
    refine options_after_var_file w p pre post vf acc _ s sy _ hsplit hpre ?_
    rw [varFileOption_apply, if_pos hsrc]
    simp only [href, hq, hk, Option.getD_none]
  · intro p pre vf post acc sy r data hsplit hpre hsrc href hq hk
    refine options_after_var_file w p pre post vf acc _ s sy _ hsplit hpre ?_
    rw [varFileOption_apply, if_neg (by rw [hsrc]; exact hne), if_pos hsrc]
    simp only [href, hq, hk, Option.getD_none]
  · intro p pre vf post hsplit h1 h2
    rw [options_apply, options_apply, hsplit]
    simp only
    rw [loop_varFiles_skip w pre post vf h1 h2]
  · intro x sx pre env post acc sy r data hbefore hsplit hloop hv hc hq hk
    have hx1 := (connectBeforeEnv_ok w s sx x hbefore).1
    have hC := connect_from_env w s sx x hbefore
    rw [hx1] at hC
    have hstep : resolveEnv w acc env sy
        = (.error (Err.wrap (errKeyNotFound "ConfigMap".toList r) errVarResolution),
           { sy with trace := sy.trace ++ [Event.getConfigMap r.Namespace r.Name
             (.ok data)] }) := by
      rw [resolveEnv_apply, if_pos hv]
      simp only [hc, hq, hk]
    have hl := loop_split_error (resolveEnv w) pre post env _ _ _ _ _ _ hloop hstep
    rw [← hsplit] at hl
    rw [hC, bind_error hl]
  · intro x sx pre env post acc sy r data hbefore hsplit hloop hv hc hsr hq hk
    have hx1 := (connectBeforeEnv_ok w s sx x hbefore).1
    have hC := connect_from_env w s sx x hbefore
    rw [hx1] at hC
    have hstep : resolveEnv w acc env sy
        = (.error (Err.wrap (errKeyNotFound "Secret".toList r) errVarResolution),
           { sy with trace := sy.trace ++ [Event.getSecret r.Namespace r.Name
             (.ok data)] }) := by
      rw [resolveEnv_apply, if_pos hv]
      simp only [hc, hsr, hq, hk]
    have hl := loop_split_error (resolveEnv w) pre post env _ _ _ _ _ _ hloop hstep
    rw [← hsplit] at hl
    rw [hC, bind_error hl]

theorem var_file_missing_key_witness :
    options calmWorld missingKeyParameters ⟨sampleWorkspace, []⟩
      = (.ok [TfOption.WithVarFile [] TfFormat.JSON,
              TfOption.WithVarFile "a = 1".toList TfFormat.HCL],
         ⟨sampleWorkspace, [Event.getConfigMap "default".toList "tfvars".toList
              (.ok [("vars".toList, "a = 1".toList)]),
            Event.getConfigMap "default".toList "tfvars".toList
              (.ok [("vars".toList, "a = 1".toList)])]⟩)
    ∧ (Connect calmWorld ⟨missingEnvWorkspace, []⟩).1
      = .error (Err.wrap (errKeyNotFound "ConfigMap".toList missingKeyReference)
          errVarResolution) :=
  ⟨((var_file_missing_key calmWorld ⟨sampleWorkspace, []⟩).1 missingKeyParameters []
      missingKeyVarFile [otherSourceVarFile, sampleVarFile] [] ⟨sampleWorkspace, []⟩
      missingKeyReference [("vars".toList, "a = 1".toList)] rfl (by decide!) rfl rfl rfl
      rfl).trans (by decide!),
   congrArg Prod.fst ((var_file_missing_key calmWorld ⟨missingEnvWorkspace, []⟩).2.2.2.1
      (missingEnvWorkspace, "/tofu/no-you-id".toList, sampleSetup.pc)
      (connectBeforeEnv calmWorld ⟨missingEnvWorkspace, []⟩).2
      [literalEnv] missingEnv [secretEnv] ["A=1".toList]
      (connectBeforeEnv calmWorld ⟨missingEnvWorkspace, []⟩).2
      missingKeyReference [("vars".toList, "a = 1".toList)]
      (by decide!) rfl (by decide!) rfl rfl (by decide!) (by decide!))⟩

/-! ### The checksum after `Update` -/

theorem isTofu_false_harnessOp {e : Event} (h : e.isTofu = false) : e.harnessOp = none := by
  cases e <;> simp_all [Event.isTofu, Event.harnessOp]

/-- An `Update` that completes has replaced the observed status by the observation
built from the outputs it fetched. -/
theorem update_ok_inv (w : World) (c : External) (s s1 : St) (u : ExternalUpdate)
    (h : Update w c s = (.ok u, s1)) :
    ∃ op, Event.tofuOutputs c.tofu (.ok op) ∈ newEvents s.trace s1.trace
      ∧ s1.cr = (s.cr.setAtProvider (generateWorkspaceObservation op)).setAvailable
      ∧ u = { ConnectionDetails := op2cd op } := by
  obtain ⟨hcr, gets, hg, -⟩ := frames_options w s.cr.ForProvider s
  rcases hopt : options w s.cr.ForProvider s with ⟨r, sa⟩
  rw [hopt] at hcr hg
  simp only at hcr hg
  cases r with
  | error e =>
    unfold Update at h
    simp only [bind_apply, getCr, wrapRun_error hopt] at h
    cases h
  | ok o =>
    rw [update_apply w c s sa o hopt] at h
    cases hap : w.tofuApply sa.trace c.tofu
        (o ++ [TfOption.WithArgs s.cr.ForProvider.ApplyArgs]) with
    | some e => simp only [hap] at h; cases h
    | none =>
      simp only [hap] at h
      cases hop : w.tofuOutputs (sa.trace ++ [Event.tofuApply c.tofu
          (o ++ [TfOption.WithArgs s.cr.ForProvider.ApplyArgs]) none]) c.tofu with
      | error e => simp only [hop] at h; cases h
      | ok op =>
        simp only [hop] at h
        cases h
        refine ⟨op, ?_, by simp only [hcr], rfl⟩
        simp only [hg, List.append_assoc, newEvents_append]
        simp

/-- C30. After an `Update` (or `Create`) that completes, the checksum of the observed
status is empty, whatever it was before: the whole observation has been replaced by the
one built from the fetched outputs alone.  A `Connect` that runs on the resource in
that state, its setup having succeeded, does not generate a checksum: its first harness
call is `Init`. -/
theorem update_clears_checksum (w : World) (c : External) (s s1 : St) (u : ExternalUpdate)
    (h : Update w c s = (.ok u, s1)) :
    s1.cr.Status.AtProvider.Checksum = []
    ∧ (∃ op, Event.tofuOutputs c.tofu (.ok op) ∈ newEvents s.trace s1.trace
        ∧ s1.cr.Status.AtProvider = generateWorkspaceObservation op)
    ∧ Create w c s = (.ok u, s1)
    ∧ ∀ (w2 : World) (t : Trace) (su : ConnectSetup) (s3 : St),
        connectSetup w2 ⟨s1.cr, t⟩ = (.ok su, s3) →
        Connect w2 ⟨s1.cr, t⟩ = connectInit w2 su s1.cr (newHarness su s1.cr) s3
        ∧ (∀ e ∈ newEvents t (Connect w2 ⟨s1.cr, t⟩).2.trace,
            e.harnessOp ≠ some HarnessOp.GenerateChecksum)
        ∧ (harnessOps (newEvents t (Connect w2 ⟨s1.cr, t⟩).2.trace)).head?
            = some HarnessOp.Init := by
  obtain ⟨op, hmem, hcr, -⟩ := update_ok_inv w c s s1 u h
  have hsum : s1.cr.Status.AtProvider.Checksum = [] := by rw [hcr]; rfl
  refine ⟨hsum, ⟨op, hmem, by rw [hcr]; rfl⟩, h, ?_⟩
  intro w2 t su s3 hsetup
  obtain ⟨hcr3, evs0, htr, hP⟩ := frames_connectSetup w2 ⟨s1.cr, t⟩
  rw [hsetup] at hcr3 htr
  obtain ⟨c3, t3⟩ := s3
  simp only at hcr3 htr
  subst hcr3 htr
  have hops : harnessOps evs0 = [] := by
    unfold harnessOps
    rw [List.filterMap_eq_nil_iff]
    exact fun e he => isTofu_false_harnessOp (hP e he)
  have hC : Connect w2 ⟨s1.cr, t⟩
      = connectInit w2 su s1.cr (newHarness su s1.cr) ⟨s1.cr, t ++ evs0⟩ := by
    unfold Connect
    rw [bind_ok hsetup]
    exact (connectTofu_failures w2 su ⟨s1.cr, t ++ evs0⟩).2.2.1 hsum
  refine ⟨hC, ?_, ?_⟩
  · intro e he
    rw [hC, connectInit_apply] at he
    cases hi : w2.tofuInit (t ++ evs0) (newHarness su s1.cr) (initOptions su s1.cr) with
    | some err =>
      simp only [hi, List.append_assoc, newEvents_append, List.mem_append,
        List.mem_singleton] at he
      rcases he with he | he
      · rw [isTofu_false_harnessOp (hP e he)]
        simp
      · rw [he]
        simp [Event.harnessOp]
    | none =>
      simp only [hi, List.append_assoc, newEvents_append, List.mem_append, List.mem_cons,
        List.not_mem_nil, or_false] at he
      rcases he with he | he | he
      · rw [isTofu_false_harnessOp (hP e he)]
        simp
      · rw [he]
        simp [Event.harnessOp]
      · rw [he]
        simp [Event.harnessOp]
  · have happ : ∀ l : List Event, harnessOps (evs0 ++ l) = harnessOps l := by
      intro l
      have : harnessOps (evs0 ++ l) = harnessOps evs0 ++ harnessOps l := by
        unfold harnessOps
        exact List.filterMap_append _ _ _
      rw [this, hops, List.nil_append]
    rw [hC, connectInit_apply]
    cases hi : w2.tofuInit (t ++ evs0) (newHarness su s1.cr) (initOptions su s1.cr) with
    | some err =>
      simp only [hi, List.append_assoc, newEvents_append, happ]
      rfl
    | none =>
      simp only [hi, List.append_assoc, newEvents_append, happ]
      rfl

theorem update_clears_checksum_witness :
    sampleWorkspace.Status.AtProvider.Checksum = "checksum".toList
    ∧ (Update createWorld sampleExternal ⟨sampleWorkspace, []⟩).2.cr.Status.AtProvider.Checksum
        = [] :=
  ⟨rfl, (update_clears_checksum createWorld sampleExternal ⟨sampleWorkspace, []⟩
    (Update createWorld sampleExternal ⟨sampleWorkspace, []⟩).2
    { ConnectionDetails := [("object".toList, "null".toList), ("string".toList, [])] }
    (by decide!)).1⟩

end OpenTofu
